import Mathlib

/-!
# Cloth simulation: grid builder, integrator, constraint solver, collision resolver

A shallow embedding of `src/src/Cloth.cpp`.  `float` arithmetic is read as exact
arithmetic in a linearly ordered field `K`; the square root used by `glm::length`
and `glm::normalize` is a parameter `sqrt : K → K`, assumed exact (`IsSqrt`) in
the theorems that need it.  Where rounding decides a property, the constraint solver
is read a second time in IEEE-754 binary32 (`F32`, `edgeCorr32`, `edgeStep32`).
`int` arithmetic is read as arithmetic in `Int` (signed overflow is undefined
behaviour in the source and lies outside the model); the `unsigned int` index
arithmetic of `recomputeNormals` wraps at `2^32`.  `std::vector` is a `List`; an
out-of-range read yields `0` and an out-of-range write is dropped (both are undefined
behaviour in the source and never happen on well-formed states); a `reserve` call
with a negative `int` argument throws (`generateVerticesChecked`,
`generateIndicesChecked`).
-/

namespace ClothSim

/-! ## glm::vec3 -/

/-- The type `glm::vec3` over the scalar type `K`. -/
@[ext]
structure Vec3 (K : Type) where
  x : K
  y : K
  z : K
deriving DecidableEq, Repr

namespace Vec3

variable {K : Type} [LinearOrderedField K]

instance : Zero (Vec3 K) := ⟨⟨0, 0, 0⟩⟩

instance : Add (Vec3 K) := ⟨fun a b => ⟨a.x + b.x, a.y + b.y, a.z + b.z⟩⟩

instance : Sub (Vec3 K) := ⟨fun a b => ⟨a.x - b.x, a.y - b.y, a.z - b.z⟩⟩

/-- Vector times scalar, `v * c`. -/
def scale (v : Vec3 K) (c : K) : Vec3 K := ⟨v.x * c, v.y * c, v.z * c⟩

/-- The function `glm::dot`. -/
def dot (a b : Vec3 K) : K := a.x * b.x + a.y * b.y + a.z * b.z

/-- The function `glm::cross`. -/
def cross (a b : Vec3 K) : Vec3 K :=
  ⟨a.y * b.z - b.y * a.z, a.z * b.x - b.z * a.x, a.x * b.y - b.x * a.y⟩

/-- The function `glm::length`, `sqrt(dot(v, v))`. -/
def length (sqrt : K → K) (v : Vec3 K) : K := sqrt (dot v v)

/-- The function `glm::normalize`, `v * inversesqrt(dot(v, v))`. -/
def normalize (sqrt : K → K) (v : Vec3 K) : Vec3 K := v.scale (1 / sqrt (dot v v))

end Vec3

/-- Exactness of the square root: on non-negative arguments `sqrt` returns the
non-negative root. -/
def IsSqrt {K : Type} [LinearOrderedField K] (sqrt : K → K) : Prop :=
  ∀ x, 0 ≤ x → 0 ≤ sqrt x ∧ sqrt x * sqrt x = x

section Defs

variable {K : Type} [LinearOrderedField K]

/-! ## Grid builder -/

/-- The loops of `Cloth::generateVertices` (lines 16-36): interleaved
`[x,y,z, nx,ny,nz]` records, row-major.  This is the whole function whenever the
`reserve` call of line 14 returns, in particular for `width, height ≥ 1`; the call
itself is part of `generateVerticesChecked`. -/
def generateVertices (width height : Int) (spacing : K) : List K :=
  let halfWidth : K := ((width - 1 : Int) : K) * spacing * 0.5
  let halfHeight : K := ((height - 1 : Int) : K) * spacing * 0.5
  (List.range height.toNat).foldl (fun vertices (y : Nat) =>
    (List.range width.toNat).foldl (fun vertices (x : Nat) =>
      let xpos : K := (x : K) * spacing - halfWidth
      let ypos : K := 0
      let zpos : K := (y : K) * spacing - halfHeight
      vertices ++ [xpos, ypos, zpos, 0, 1, 0]) vertices) []

/-- The loops of `Cloth::generateIndices` (lines 43-61): two triangles per quad,
row-major.  The `int` values pushed are non-negative, so their conversion to
`unsigned int` keeps the value.  This is the whole function whenever the `reserve`
call of line 41 returns, in particular for `width, height ≥ 1`; the call itself is
part of `generateIndicesChecked`. -/
def generateIndices (width height : Int) : List Nat :=
  (List.range (height - 1).toNat).foldl (fun indices (y : Nat) =>
    (List.range (width - 1).toNat).foldl (fun indices (x : Nat) =>
      let topLeft : Int := y * width + x
      let topRight : Int := topLeft + 1
      let bottomLeft : Int := (y + 1) * width + x
      let bottomRight : Int := bottomLeft + 1
      indices ++ [topLeft.toNat, bottomLeft.toNat, topRight.toNat,
                  topRight.toNat, bottomLeft.toNat, bottomRight.toNat]) indices) []

/-- The function `Cloth::generateVertices` with its call
`vertices.reserve(width * height * 6)` (line 14).  The `int` argument is converted to
`size_t`: a negative value becomes a size above `max_size()`, on which
`std::vector::reserve` throws `std::length_error` before any vertex is pushed; `none`
stands for that exception. -/
def generateVerticesChecked (width height : Int) (spacing : K) : Option (List K) :=
  if width * height * 6 < 0 then none else some (generateVertices width height spacing)

/-- The function `Cloth::generateIndices` with its call
`indices.reserve((width - 1) * (height - 1) * 6)` (line 41).  The `int` argument is
converted to `size_t`: a negative value becomes a size above `max_size()`, on which
`std::vector::reserve` throws `std::length_error` before any index is pushed; `none`
stands for that exception. -/
def generateIndicesChecked (width height : Int) : Option (List Nat) :=
  if (width - 1) * (height - 1) * 6 < 0 then none else some (generateIndices width height)

/-- The six indices pushed for quad `(x, y)` (lines 45-58), used to read
`generateIndices` quad by quad. -/
def quadIndices (width : Int) (y x : Nat) : List Nat :=
  let topLeft : Int := y * width + x
  let topRight : Int := topLeft + 1
  let bottomLeft : Int := (y + 1) * width + x
  let bottomRight : Int := bottomLeft + 1
  [topLeft.toNat, bottomLeft.toNat, topRight.toNat,
   topRight.toNat, bottomLeft.toNat, bottomRight.toNat]

/-- The six floats pushed for grid point `(x, y)` (lines 21-33), used to read
`generateVertices` record by record. -/
def vertexRecord (width height : Int) (spacing : K) (y x : Nat) : List K :=
  let halfWidth : K := ((width - 1 : Int) : K) * spacing * 0.5
  let halfHeight : K := ((height - 1 : Int) : K) * spacing * 0.5
  [(x : K) * spacing - halfWidth, 0, (y : K) * spacing - halfHeight, 0, 1, 0]

/-- The data members of `Cloth` (`Cloth.h`) together with the `position` member it
inherits from `Entity`. -/
structure Cloth (K : Type) where
  position : Vec3 K
  vertexData : List K
  indexData : List Nat
  clothWidth : Int
  clothHeight : Int
  spacing : K
  positions : List (Vec3 K)
  velocities : List (Vec3 K)
  forces : List (Vec3 K)

/-- The constructor `Cloth::Cloth(width, height, spacing)`; the entity position starts
at `glm::vec3(0)` (`Entity.h`).  The two generators are read through their loops, which
is the constructor whenever neither `reserve` call throws, in particular for
`width, height ≥ 1`. -/
def Cloth.new (width height : Int) (spacing : K) : Cloth K :=
  let vertexData := generateVertices width height spacing
  let indexData := generateIndices width height
  let numVerts : Int := width * height
  let positions : List (Vec3 K) := List.replicate numVerts.toNat 0
  let velocities : List (Vec3 K) := List.replicate numVerts.toNat 0
  let forces : List (Vec3 K) := List.replicate numVerts.toNat 0
  let positions := (List.range numVerts.toNat).foldl (fun positions i =>
    positions.set i ⟨vertexData.getD (i * 6 + 0) 0, vertexData.getD (i * 6 + 1) 0,
      vertexData.getD (i * 6 + 2) 0⟩) positions
  { position := 0, vertexData := vertexData, indexData := indexData,
    clothWidth := width, clothHeight := height, spacing := spacing,
    positions := positions, velocities := velocities, forces := forces }

/-- The method `Entity::setPosition`. -/
def Cloth.setPosition (c : Cloth K) (pos : Vec3 K) : Cloth K := { c with position := pos }

/-! ## Integrator -/

/-- The constant `gravity` of `Cloth::update`. -/
def gravity : Vec3 K := ⟨0, -0.1, 0⟩

/-- The constant `damping` of `Cloth::update`. -/
def damping : K := 0.98

/-- The constant `constraintIterations` of `Cloth::update`. -/
def constraintIterations : Nat := 30

/-- The velocity integration loop (lines 107-111) over `(positions, velocities)`. -/
def integrate (deltaTime : K) (pv : List (Vec3 K) × List (Vec3 K)) :
    List (Vec3 K) × List (Vec3 K) :=
  (List.range pv.1.length).foldl (fun s i =>
    let vs := s.2.set i (s.2.getD i 0 + gravity.scale deltaTime)
    let vs := vs.set i ((vs.getD i 0).scale damping)
    let ps := s.1.set i (s.1.getD i 0 + (vs.getD i 0).scale deltaTime)
    (ps, vs)) pv

/-! ## Constraint solver -/

/-- The correction vector `corr` of one edge (lines 130-131 and 143-144), given
`delta` and `d`. -/
def edgeCorr (sqrt : K → K) (restLength maxCorrection : K) (delta : Vec3 K) (d : K) : Vec3 K :=
  let corr := (delta.scale 0.5).scale ((d - restLength) / d)
  if Vec3.length sqrt corr > maxCorrection then (Vec3.normalize sqrt corr).scale maxCorrection
  else corr

/-- One edge correction between `positions[idx]` and `positions[j]` (lines 127-134 and
140-147). -/
def edgeStep (sqrt : K → K) (restLength maxCorrection : K) (idx j : Nat)
    (positions : List (Vec3 K)) : List (Vec3 K) :=
  let delta := positions.getD j 0 - positions.getD idx 0
  let d := Vec3.length sqrt delta
  if d > 1e-7 then
    let corr := edgeCorr sqrt restLength maxCorrection delta d
    let positions := positions.set idx (positions.getD idx 0 + corr)
    positions.set j (positions.getD j 0 - corr)
  else positions

/-- Body of the structural loop for grid cell `(x, y)` (lines 122-148): right
neighbour, then down neighbour. -/
def cellStep (sqrt : K → K) (width height : Int) (restLength maxCorrection : K)
    (y x : Nat) (positions : List (Vec3 K)) : List (Vec3 K) :=
  let idx : Int := y * width + x
  let positions :=
    if (x : Int) < width - 1 then
      edgeStep sqrt restLength maxCorrection idx.toNat (idx + 1).toNat positions
    else positions
  if (y : Int) < height - 1 then
    edgeStep sqrt restLength maxCorrection idx.toNat (idx + width).toNat positions
  else positions

/-- The structural constraint loops (lines 120-150). -/
def structuralPass (sqrt : K → K) (width height : Int) (restLength maxCorrection : K)
    (positions : List (Vec3 K)) : List (Vec3 K) :=
  (List.range height.toNat).foldl (fun positions (y : Nat) =>
    (List.range width.toNat).foldl (fun positions (x : Nat) =>
      cellStep sqrt width height restLength maxCorrection y x positions) positions) positions

/-! ## Collision resolver -/

/-- The constant `cubeMin` of `Cloth::update` (all three components). -/
def cubeMin : K := -0.55

/-- The constant `cubeMax` of `Cloth::update` (all three components). -/
def cubeMax : K := 0.55

/-- The constant `eps` of `Cloth::update`. -/
def eps : K := 0.001

/-- The test of lines 156-158: strictly inside the cube on all three axes. -/
def insideCube (w : Vec3 K) : Prop :=
  w.x > cubeMin ∧ w.x < cubeMax ∧ w.y > cubeMin ∧ w.y < cubeMax ∧ w.z > cubeMin ∧ w.z < cubeMax

instance (w : Vec3 K) : Decidable (insideCube w) := by
  unfold insideCube; infer_instance

/-- The six penetration depths in the order `distLeft, distRight, distBottom, distTop,
distBack, distFront` (lines 160-165). -/
def faceDist (w : Vec3 K) : Nat → K
  | 0 => w.x - cubeMin
  | 1 => cubeMax - w.x
  | 2 => w.y - cubeMin
  | 3 => cubeMax - w.y
  | 4 => w.z - cubeMin
  | _ => cubeMax - w.z

/-- Face selection by sequential comparison (lines 167-173); returns `(minDist, face)`. -/
def selectFace (w : Vec3 K) : K × Nat :=
  let r : K × Nat := (faceDist w 0, 0)
  let r := if faceDist w 1 < r.1 then (faceDist w 1, 1) else r
  let r := if faceDist w 2 < r.1 then (faceDist w 2, 2) else r
  let r := if faceDist w 3 < r.1 then (faceDist w 3, 3) else r
  let r := if faceDist w 4 < r.1 then (faceDist w 4, 4) else r
  let r := if faceDist w 5 < r.1 then (faceDist w 5, 5) else r
  r

/-- The `normal` chosen by the `switch` (lines 175-184). -/
def faceNormal : Nat → Vec3 K
  | 0 => ⟨-1, 0, 0⟩
  | 1 => ⟨1, 0, 0⟩
  | 2 => ⟨0, -1, 0⟩
  | 3 => ⟨0, 1, 0⟩
  | 4 => ⟨0, 0, -1⟩
  | 5 => ⟨0, 0, 1⟩
  | _ => 0

/-- The `targetWorld` chosen by the `switch` (lines 176-184). -/
def faceTarget (w : Vec3 K) : Nat → Vec3 K
  | 0 => { w with x := cubeMin - eps }
  | 1 => { w with x := cubeMax + eps }
  | 2 => { w with y := cubeMin - eps }
  | 3 => { w with y := cubeMax + eps }
  | 4 => { w with z := cubeMin - eps }
  | 5 => { w with z := cubeMax + eps }
  | _ => w

/-- Pointwise reading of the collision loop body: the new `(position, velocity)` of a
point from its old ones. -/
def collidePoint (worldOffset : Vec3 K) (pv : Vec3 K × Vec3 K) : Vec3 K × Vec3 K :=
  let worldPos := pv.1 + worldOffset
  if insideCube worldPos then
    let face := (selectFace worldPos).2
    let vn := Vec3.dot pv.2 (faceNormal face)
    (faceTarget worldPos face - worldOffset,
      if vn < 0 then pv.2 - (faceNormal face).scale vn else pv.2)
  else pv

/-- Pointwise reading of the integration loop body. -/
def integratePoint (deltaTime : K) (pv : Vec3 K × Vec3 K) : Vec3 K × Vec3 K :=
  let v := (pv.2 + gravity.scale deltaTime).scale damping
  (pv.1 + v.scale deltaTime, v)

/-- Body of the collision loop for point `i` (lines 154-191). -/
def collideAt (worldOffset : Vec3 K) (s : List (Vec3 K) × List (Vec3 K)) (i : Nat) :
    List (Vec3 K) × List (Vec3 K) :=
  let worldPos := s.1.getD i 0 + worldOffset
  if insideCube worldPos then
    let face := (selectFace worldPos).2
    let normal : Vec3 K := faceNormal face
    let targetWorld := faceTarget worldPos face
    let positions := s.1.set i (targetWorld - worldOffset)
    let vn := Vec3.dot (s.2.getD i 0) normal
    let velocities := if vn < 0 then s.2.set i (s.2.getD i 0 - normal.scale vn) else s.2
    (positions, velocities)
  else s

/-- The collision enforcement loop (lines 153-192) over `(positions, velocities)`. -/
def collisionPass (worldOffset : Vec3 K) (pv : List (Vec3 K) × List (Vec3 K)) :
    List (Vec3 K) × List (Vec3 K) :=
  (List.range pv.1.length).foldl (collideAt worldOffset) pv

/-! ## Normal recomputation -/

/-- The statement `v[k] += a` on a float vector. -/
def addAt (v : List K) (k : Nat) (a : K) : List K := v.set k (v.getD k 0 + a)

/-- Index arithmetic `i * 6 + o` on `unsigned int` (32 bit, wrapping). -/
def uidx (i o : Nat) : Nat := (i * 6 + o) % 4294967296

/-- The function `Cloth::recomputeNormals` on `vertexData`, reading `indexData`. -/
def recomputeNormals (sqrt : K → K) (indexData : List Nat) (vertexData : List K) : List K :=
  -- zero normals
  let vertexData := (List.range (vertexData.length / 6)).foldl (fun vd i =>
    ((vd.set (i * 6 + 3) 0).set (i * 6 + 4) 0).set (i * 6 + 5) 0) vertexData
  -- accumulate face normals
  let vertexData := (List.range ((indexData.length + 2) / 3)).foldl (fun vd t =>
    let i := 3 * t
    let i0 := indexData.getD (i + 0) 0
    let i1 := indexData.getD (i + 1) 0
    let i2 := indexData.getD (i + 2) 0
    let v0 : Vec3 K := ⟨vd.getD (uidx i0 0) 0, vd.getD (uidx i0 1) 0, vd.getD (uidx i0 2) 0⟩
    let v1 : Vec3 K := ⟨vd.getD (uidx i1 0) 0, vd.getD (uidx i1 1) 0, vd.getD (uidx i1 2) 0⟩
    let v2 : Vec3 K := ⟨vd.getD (uidx i2 0) 0, vd.getD (uidx i2 1) 0, vd.getD (uidx i2 2) 0⟩
    let n := Vec3.normalize sqrt (Vec3.cross (v1 - v0) (v2 - v0))
    let vd := addAt vd (uidx i0 3) n.x
    let vd := addAt vd (uidx i0 4) n.y
    let vd := addAt vd (uidx i0 5) n.z
    let vd := addAt vd (uidx i1 3) n.x
    let vd := addAt vd (uidx i1 4) n.y
    let vd := addAt vd (uidx i1 5) n.z
    let vd := addAt vd (uidx i2 3) n.x
    let vd := addAt vd (uidx i2 4) n.y
    addAt vd (uidx i2 5) n.z) vertexData
  -- normalize vertex normals
  (List.range (vertexData.length / 6)).foldl (fun vd i =>
    let n : Vec3 K := ⟨vd.getD (i * 6 + 3) 0, vd.getD (i * 6 + 4) 0, vd.getD (i * 6 + 5) 0⟩
    let n := Vec3.normalize sqrt n
    ((vd.set (i * 6 + 3) n.x).set (i * 6 + 4) n.y).set (i * 6 + 5) n.z) vertexData

/-- The method `Cloth::recomputeNormals`. -/
def Cloth.recomputeNormals (sqrt : K → K) (c : Cloth K) : Cloth K :=
  { c with vertexData := ClothSim.recomputeNormals sqrt c.indexData c.vertexData }

/-! ## Step orchestration -/

/-- One relaxation iteration (body of the loop at line 118): structural constraints,
then collision enforcement. -/
def relaxIter (sqrt : K → K) (width height : Int) (restLength maxCorrection : K)
    (worldOffset : Vec3 K) (pv : List (Vec3 K) × List (Vec3 K)) :
    List (Vec3 K) × List (Vec3 K) :=
  collisionPass worldOffset
    (structuralPass sqrt width height restLength maxCorrection pv.1, pv.2)

/-- The vertex buffer write-back loop (lines 196-200). -/
def writePositions (positions : List (Vec3 K)) (vertexData : List K) : List K :=
  (List.range positions.length).foldl (fun vd i =>
    ((vd.set (i * 6 + 0) (positions.getD i 0).x).set (i * 6 + 1) (positions.getD i 0).y).set
      (i * 6 + 2) (positions.getD i 0).z) vertexData

/-- The method `Cloth::update(deltaTime)`.  The final `updateMeshVertices()` hands
`vertexData` to the mesh and does not change the cloth. -/
def Cloth.update (sqrt : K → K) (deltaTime : K) (c : Cloth K) : Cloth K :=
  let width := c.clothWidth
  let height := c.clothHeight
  let restLength := c.spacing
  let maxCorrection := restLength * 0.5
  let worldOffset := c.position
  let pv := integrate deltaTime (c.positions, c.velocities)
  let pv := (List.range constraintIterations).foldl (fun pv _ =>
    relaxIter sqrt width height restLength maxCorrection worldOffset pv) pv
  let vertexData := writePositions pv.1 c.vertexData
  Cloth.recomputeNormals sqrt
    { c with positions := pv.1, velocities := pv.2, vertexData := vertexData }

/-- First loop of `recomputeNormals` (lines 210-214): zero the normal fields. -/
def zeroNormals (vertexData : List K) : List K :=
  (List.range (vertexData.length / 6)).foldl (fun vd i =>
    ((vd.set (i * 6 + 3) 0).set (i * 6 + 4) 0).set (i * 6 + 5) 0) vertexData

/-- Body of the second loop of `recomputeNormals` (lines 218-250) for triangle `t`. -/
def accumulateTriangle (sqrt : K → K) (indexData : List Nat) (vd : List K) (t : Nat) : List K :=
  let i := 3 * t
  let i0 := indexData.getD (i + 0) 0
  let i1 := indexData.getD (i + 1) 0
  let i2 := indexData.getD (i + 2) 0
  let v0 : Vec3 K := ⟨vd.getD (uidx i0 0) 0, vd.getD (uidx i0 1) 0, vd.getD (uidx i0 2) 0⟩
  let v1 : Vec3 K := ⟨vd.getD (uidx i1 0) 0, vd.getD (uidx i1 1) 0, vd.getD (uidx i1 2) 0⟩
  let v2 : Vec3 K := ⟨vd.getD (uidx i2 0) 0, vd.getD (uidx i2 1) 0, vd.getD (uidx i2 2) 0⟩
  let n := Vec3.normalize sqrt (Vec3.cross (v1 - v0) (v2 - v0))
  let vd := addAt vd (uidx i0 3) n.x
  let vd := addAt vd (uidx i0 4) n.y
  let vd := addAt vd (uidx i0 5) n.z
  let vd := addAt vd (uidx i1 3) n.x
  let vd := addAt vd (uidx i1 4) n.y
  let vd := addAt vd (uidx i1 5) n.z
  let vd := addAt vd (uidx i2 3) n.x
  let vd := addAt vd (uidx i2 4) n.y
  addAt vd (uidx i2 5) n.z

/-- Second loop of `recomputeNormals` (lines 217-251): accumulate the face normals. -/
def accumulateNormals (sqrt : K → K) (indexData : List Nat) (vertexData : List K) : List K :=
  (List.range ((indexData.length + 2) / 3)).foldl (accumulateTriangle sqrt indexData) vertexData

/-- Third loop of `recomputeNormals` (lines 254-264): normalise the vertex normals. -/
def normalizeNormals (sqrt : K → K) (vertexData : List K) : List K :=
  (List.range (vertexData.length / 6)).foldl (fun vd i =>
    let n : Vec3 K := ⟨vd.getD (i * 6 + 3) 0, vd.getD (i * 6 + 4) 0, vd.getD (i * 6 + 5) 0⟩
    let n := Vec3.normalize sqrt n
    ((vd.set (i * 6 + 3) n.x).set (i * 6 + 4) n.y).set (i * 6 + 5) n.z) vertexData

/-- The vertex buffer and index list fit together: the buffer holds `n` records of six
floats, every index is below `n`, and the buffer size fits the 32-bit index arithmetic
of `recomputeNormals` (a buffer built by the constructor has `width*height*6` floats,
a product computed in `int`). -/
def BufferWellFormed (indexData : List Nat) (vertexData : List K) (n : Nat) : Prop :=
  vertexData.length = 6 * n ∧ (∀ i, i ∈ indexData → i < n) ∧ 6 * n ≤ 4294967296

/-- Two vertex buffers of the same size with the same position fields. -/
def SamePositions (v w : List K) : Prop :=
  v.length = w.length ∧ ∀ k, k % 6 < 3 → v.getD k 0 = w.getD k 0

/-- Component `r` (`0`, `1`, `2` for `x`, `y`, `z`) of a vector. -/
def Vec3.coord (p : Vec3 K) (r : Nat) : K := if r = 0 then p.x else if r = 1 then p.y else p.z

/-- The cloth is the fresh lattice moved by `(0, Y, 0)`, every point has velocity
`(0, V, 0)`, and the configuration is that of the constructed cloth at world offset
`off`. -/
def FallState (width height : Int) (spacing : K) (off : Vec3 K) (c : Cloth K) (Y V : K) :
    Prop :=
  c.positions = (Cloth.new width height spacing).positions.map (fun p => p + ⟨0, Y, 0⟩) ∧
  c.velocities =
    List.replicate (Cloth.new width height spacing).positions.length ⟨0, V, 0⟩ ∧
  c.clothWidth = width ∧ c.clothHeight = height ∧ c.spacing = spacing ∧ c.position = off

/-- The sum of all point positions (the centroid times the number of points). -/
def sumPositions (positions : List (Vec3 K)) : Vec3 K :=
  positions.foldl (fun acc p => acc + p) 0

/-! ## Checked reading of the constraint solver -/

/-- Division that reports a zero divisor instead of dividing. -/
def checkedDiv (a b : K) : Option K := if b = 0 then none else some (a / b)

/-- The correction vector of one edge as in `edgeCorr`, with both divisions of the
source checked: `/ d` (lines 130, 143) and the `inversesqrt(dot(corr, corr))` inside
`glm::normalize` (lines 131, 144). -/
def edgeCorrChecked (sqrt : K → K) (restLength maxCorrection : K) (delta : Vec3 K) (d : K) :
    Option (Vec3 K) :=
  (checkedDiv (d - restLength) d).bind (fun q =>
    let corr := (delta.scale 0.5).scale q
    if Vec3.length sqrt corr > maxCorrection then
      (checkedDiv 1 (sqrt (Vec3.dot corr corr))).bind (fun r =>
        some ((corr.scale r).scale maxCorrection))
    else some corr)

/-- One edge correction as in `edgeStep`, with checked divisions. -/
def edgeStepChecked (sqrt : K → K) (restLength maxCorrection : K) (idx j : Nat)
    (positions : List (Vec3 K)) : Option (List (Vec3 K)) :=
  let delta := positions.getD j 0 - positions.getD idx 0
  let d := Vec3.length sqrt delta
  if d > 1e-7 then
    (edgeCorrChecked sqrt restLength maxCorrection delta d).bind (fun corr =>
      let positions := positions.set idx (positions.getD idx 0 + corr)
      some (positions.set j (positions.getD j 0 - corr)))
  else some positions

/-- Body of the structural loop as in `cellStep`, with checked divisions. -/
def cellStepChecked (sqrt : K → K) (width height : Int) (restLength maxCorrection : K)
    (y x : Nat) (positions : List (Vec3 K)) : Option (List (Vec3 K)) :=
  let idx : Int := y * width + x
  (if (x : Int) < width - 1 then
      edgeStepChecked sqrt restLength maxCorrection idx.toNat (idx + 1).toNat positions
    else some positions).bind (fun positions =>
    if (y : Int) < height - 1 then
      edgeStepChecked sqrt restLength maxCorrection idx.toNat (idx + width).toNat positions
    else some positions)

/-- The structural constraint loops as in `structuralPass`, with checked divisions. -/
def structuralPassChecked (sqrt : K → K) (width height : Int) (restLength maxCorrection : K)
    (positions : List (Vec3 K)) : Option (List (Vec3 K)) :=
  (List.range height.toNat).foldlM (fun positions (y : Nat) =>
    (List.range width.toNat).foldlM (fun positions (x : Nat) =>
      cellStepChecked sqrt width height restLength maxCorrection y x positions) positions)
    positions

/-! ## Binary32 reading of the constraint solver

The type `float` of the source is IEEE-754 binary32.  Every operation returns the
binary32 number nearest to the exact result, ties going to the even significand; `none`
stands for a result that is not a finite number (overflow, division by zero, square root
of a negative number).  The sign of zero is not modelled. -/

/-- A finite binary32 number, the value `m * 2^e`.  The operations below return a normal
number with `2^23 ≤ |m| < 2^24`, a subnormal number with `e = -149`, or zero as
`⟨0, 0⟩`; they accept any representation of their arguments. -/
structure F32 where
  m : Int
  e : Int
deriving DecidableEq, Repr

/-- The value of a binary32 number. -/
def F32.toRat (a : F32) : ℚ := a.m * 2 ^ a.e

/-- The integer `a / 2^E`, for an exponent `E ≤ a.e`. -/
def F32.units (a : F32) (E : Int) : Int := a.m * 2 ^ (a.e - E).toNat

/-- The comparison `a < b` of two binary32 numbers. -/
def F32.lt (a b : F32) : Bool :=
  decide (a.units (min a.e b.e) < b.units (min a.e b.e))

/-- The negation `-a`. -/
def F32.neg (a : F32) : F32 := ⟨-a.m, a.e⟩

/-- Binary logarithm by repeated halving; the first argument bounds the number of
halvings. -/
def log2Aux : Nat → Nat → Nat
  | 0, _ => 0
  | fuel + 1, n => if n < 2 then 0 else log2Aux fuel (n / 2) + 1

/-- The integer `⌊log2 n⌋`, for `n > 0`. -/
def log2 (n : Nat) : Nat := log2Aux n n

/-- The integer `⌊log2 (n / d)⌋`, for `n, d > 0`. -/
def floorLog2 (n d : Nat) : Int :=
  let a := log2 n
  let b := log2 d
  if d * 2 ^ a ≤ n * 2 ^ b then (a : Int) - b else (a : Int) - b - 1

/-- Rounding of the rational number `± n / d` to binary32, to nearest with ties to even:
`e` is the exponent of the last place (`-149` in the subnormal range), `m` the integer
nearest to `(n / d) / 2^e`; a result of `2^128` or more overflows. -/
def round32 (neg : Bool) (n d : Nat) : Option F32 :=
  if n = 0 then some ⟨0, 0⟩ else
  let e : Int := max (floorLog2 n d - 23) (-149)
  let N := n * 2 ^ (-e).toNat
  let D := d * 2 ^ e.toNat
  let m := N / D
  let r := N % D
  let m := if D < 2 * r ∨ (2 * r = D ∧ m % 2 = 1) then m + 1 else m
  let e : Int := if m = 16777216 then e + 1 else e
  let m := if m = 16777216 then 8388608 else m
  if m = 0 then some ⟨0, 0⟩
  else if 104 < e then none
  else some ⟨if neg then -(m : Int) else m, e⟩

/-- Rounding of the dyadic number `M * 2^E`. -/
def roundDyadic (M E : Int) : Option F32 :=
  round32 (decide (M < 0)) (M.natAbs * 2 ^ E.toNat) (2 ^ (-E).toNat)

/-- A decimal literal `n / d` with suffix `f`. -/
def lit32 (n d : Nat) : F32 := (round32 false n d).getD ⟨0, 0⟩

/-- The operation `a + b` on `float`. -/
def fadd (a b : F32) : Option F32 :=
  roundDyadic (a.units (min a.e b.e) + b.units (min a.e b.e)) (min a.e b.e)

/-- The operation `a - b` on `float`. -/
def fsub (a b : F32) : Option F32 :=
  roundDyadic (a.units (min a.e b.e) - b.units (min a.e b.e)) (min a.e b.e)

/-- The operation `a * b` on `float`. -/
def fmul (a b : F32) : Option F32 := roundDyadic (a.m * b.m) (a.e + b.e)

/-- The operation `a / b` on `float`. -/
def fdiv (a b : F32) : Option F32 :=
  if b.m = 0 then none
  else round32 (decide (a.m < 0) != decide (b.m < 0))
    (a.m.natAbs * 2 ^ (a.e - b.e).toNat) (b.m.natAbs * 2 ^ (b.e - a.e).toNat)

/-- The largest `m < 2^24` with `m^2 * D ≤ N`, found bit by bit. -/
def floorSqrt (N D : Nat) : Nat :=
  (List.range 24).foldl (fun m i =>
    let c := m + 2 ^ (23 - i)
    if c * c * D ≤ N then c else m) 0

/-- The function `sqrt` on `float`, correctly rounded: with `e` the exponent of the last
place of the root, `m` is the integer nearest to `sqrt (a / 4^e)`. -/
def fsqrt (a : F32) : Option F32 :=
  if a.m < 0 then none
  else if a.m = 0 then some ⟨0, 0⟩
  else
    let n := a.m.natAbs * 2 ^ a.e.toNat
    let d := 2 ^ (-a.e).toNat
    let e : Int := floorLog2 n d / 2 - 23
    let N := n * 4 ^ (-e).toNat
    let D := d * 4 ^ e.toNat
    let m := floorSqrt N D
    let m := if (2 * m + 1) * (2 * m + 1) * D < 4 * N ∨
      ((2 * m + 1) * (2 * m + 1) * D = 4 * N ∧ m % 2 = 1) then m + 1 else m
    let e : Int := if m = 16777216 then e + 1 else e
    let m := if m = 16777216 then 8388608 else m
    some ⟨m, e⟩

/-- The vector `glm::vec3(0)` of `float`. -/
def vzero32 : Vec3 F32 := ⟨⟨0, 0⟩, ⟨0, 0⟩, ⟨0, 0⟩⟩

/-- The operation `a + b` on `glm::vec3`. -/
def vadd32 (a b : Vec3 F32) : Option (Vec3 F32) := do
  let x ← fadd a.x b.x
  let y ← fadd a.y b.y
  let z ← fadd a.z b.z
  pure ⟨x, y, z⟩

/-- The operation `a - b` on `glm::vec3`. -/
def vsub32 (a b : Vec3 F32) : Option (Vec3 F32) := do
  let x ← fsub a.x b.x
  let y ← fsub a.y b.y
  let z ← fsub a.z b.z
  pure ⟨x, y, z⟩

/-- The operation `v * c` on `glm::vec3`, `c` a scalar. -/
def vscale32 (v : Vec3 F32) (c : F32) : Option (Vec3 F32) := do
  let x ← fmul v.x c
  let y ← fmul v.y c
  let z ← fmul v.z c
  pure ⟨x, y, z⟩

/-- The function `glm::dot` on `float`: the three products, summed from the left. -/
def dot32 (a b : Vec3 F32) : Option F32 := do
  let x ← fmul a.x b.x
  let y ← fmul a.y b.y
  let z ← fmul a.z b.z
  let s ← fadd x y
  fadd s z

/-- The function `glm::length` on `float`, `sqrt(dot(v, v))`. -/
def length32 (v : Vec3 F32) : Option F32 := do
  let s ← dot32 v v
  fsqrt s

/-- The function `glm::normalize` on `float`, `v * inversesqrt(dot(v, v))` with
`inversesqrt(x) = 1 / sqrt(x)`. -/
def normalize32 (v : Vec3 F32) : Option (Vec3 F32) := do
  let s ← dot32 v v
  let r ← fsqrt s
  let i ← fdiv ⟨1, 0⟩ r
  vscale32 v i

/-- The correction vector `corr` of one edge (lines 130-131 and 143-144) in binary32. -/
def edgeCorr32 (restLength maxCorrection : F32) (delta : Vec3 F32) (d : F32) :
    Option (Vec3 F32) := do
  let half ← vscale32 delta ⟨1, -1⟩
  let num ← fsub d restLength
  let factor ← fdiv num d
  let corr ← vscale32 half factor
  let len ← length32 corr
  if F32.lt maxCorrection len then
    let n ← normalize32 corr
    vscale32 n maxCorrection
  else pure corr

/-- One edge correction between `positions[idx]` and `positions[j]` (lines 127-134 and
140-147) in binary32. -/
def edgeStep32 (restLength maxCorrection : F32) (idx j : Nat)
    (positions : List (Vec3 F32)) : Option (List (Vec3 F32)) := do
  let delta ← vsub32 (positions.getD j vzero32) (positions.getD idx vzero32)
  let d ← length32 delta
  if F32.lt (lit32 1 10000000) d then
    let corr ← edgeCorr32 restLength maxCorrection delta d
    let posIdx ← vadd32 (positions.getD idx vzero32) corr
    let positions := positions.set idx posIdx
    let posJ ← vsub32 (positions.getD j vzero32) corr
    pure (positions.set j posJ)
  else pure positions

end Defs

/-! ## Lemmas on vectors and loops -/

section ListLemmas

variable {A B : Type}

theorem getD_set_eq (l : List A) (i : Nat) (a d : A) (h : i < l.length) :
    (l.set i a).getD i d = a := by
  simp [List.getD_eq_getElem?_getD, List.getElem?_set, h]

theorem getD_set_ne (l : List A) (i k : Nat) (a d : A) (h : i ≠ k) :
    (l.set i a).getD k d = l.getD k d := by
  simp [List.getD_eq_getElem?_getD, List.getElem?_set, h]

theorem set_getD_self (l : List A) (i : Nat) (d : A) : l.set i (l.getD i d) = l := by
  apply List.ext_getElem?
  intro k
  by_cases hk : i = k
  · subst hk
    by_cases hi : i < l.length
    · simp [List.getElem?_set, hi, List.getD_eq_getElem?_getD]
    · rw [List.set_eq_of_length_le (by omega)]
  · simp [List.getElem?_set, hk]

theorem foldl_invariant {S T : Type} (P : S → Prop) (f : S → T → S) (l : List T) (s : S)
    (h0 : P s) (hstep : ∀ s t, P s → P (f s t)) : P (l.foldl f s) := by
  induction l generalizing s with
  | nil => exact h0
  | cons t l ih => exact ih (f s t) (hstep s t h0)

/-- A loop `for i < n` whose body rewrites only entry `i` of two parallel vectors, from
entry `i` alone, acts pointwise. -/
theorem foldl_range_pointwise [Zero A] [Zero B] (body : List A × List B → Nat → List A × List B)
    (F : A × B → A × B)
    (hlen : ∀ s i, (body s i).1.length = s.1.length ∧ (body s i).2.length = s.2.length)
    (hne : ∀ s i k, k ≠ i →
      (body s i).1.getD k 0 = s.1.getD k 0 ∧ (body s i).2.getD k 0 = s.2.getD k 0)
    (heq : ∀ s i, i < s.1.length → i < s.2.length →
      ((body s i).1.getD i 0, (body s i).2.getD i 0) = F (s.1.getD i 0, s.2.getD i 0))
    (s : List A × List B) (n k : Nat) (hk1 : k < s.1.length) (hk2 : k < s.2.length) :
    ((List.range n).foldl body s).1.length = s.1.length ∧
    ((List.range n).foldl body s).2.length = s.2.length ∧
    (((List.range n).foldl body s).1.getD k 0, ((List.range n).foldl body s).2.getD k 0) =
      if k < n then F (s.1.getD k 0, s.2.getD k 0) else (s.1.getD k 0, s.2.getD k 0) := by
  induction n with
  | zero => simp
  | succ n ih =>
    obtain ⟨h1, h2, h3⟩ := ih
    rw [List.range_succ, List.foldl_append]
    simp only [List.foldl_cons, List.foldl_nil]
    refine ⟨by rw [(hlen _ _).1, h1], by rw [(hlen _ _).2, h2], ?_⟩
    by_cases hkn : k = n
    · subst hkn
      rw [heq _ _ (by omega) (by omega)]
      simp only [lt_irrefl, if_false] at h3
      simp only [Nat.lt_succ_self, if_true]
      rw [← h3]
    · rw [(hne _ n k hkn).1, (hne _ n k hkn).2, h3]
      by_cases hlt : k < n
      · simp [hlt, Nat.lt_succ_of_lt hlt]
      · have : ¬ k < n + 1 := by omega
        simp [hlt, this]

end ListLemmas

section VecLemmas

variable {K : Type} [LinearOrderedField K]

@[simp] theorem Vec3.zero_x : (0 : Vec3 K).x = 0 := rfl
@[simp] theorem Vec3.zero_y : (0 : Vec3 K).y = 0 := rfl
@[simp] theorem Vec3.zero_z : (0 : Vec3 K).z = 0 := rfl
@[simp] theorem Vec3.add_x (a b : Vec3 K) : (a + b).x = a.x + b.x := rfl
@[simp] theorem Vec3.add_y (a b : Vec3 K) : (a + b).y = a.y + b.y := rfl
@[simp] theorem Vec3.add_z (a b : Vec3 K) : (a + b).z = a.z + b.z := rfl
@[simp] theorem Vec3.sub_x (a b : Vec3 K) : (a - b).x = a.x - b.x := rfl
@[simp] theorem Vec3.sub_y (a b : Vec3 K) : (a - b).y = a.y - b.y := rfl
@[simp] theorem Vec3.sub_z (a b : Vec3 K) : (a - b).z = a.z - b.z := rfl
@[simp] theorem Vec3.scale_x (a : Vec3 K) (c : K) : (a.scale c).x = a.x * c := rfl
@[simp] theorem Vec3.scale_y (a : Vec3 K) (c : K) : (a.scale c).y = a.y * c := rfl
@[simp] theorem Vec3.scale_z (a : Vec3 K) (c : K) : (a.scale c).z = a.z * c := rfl

theorem Vec3.sub_add_cancel (a b : Vec3 K) : a - b + b = a := by
  ext <;> simp

theorem Vec3.add_zero_right (a : Vec3 K) : a + 0 = a := by
  ext <;> simp

end VecLemmas

section CollisionLemmas

variable {K : Type} [LinearOrderedField K]

theorem faceDist_0 (w : Vec3 K) : faceDist w 0 = w.x - cubeMin := rfl
theorem faceDist_1 (w : Vec3 K) : faceDist w 1 = cubeMax - w.x := rfl
theorem faceDist_2 (w : Vec3 K) : faceDist w 2 = w.y - cubeMin := rfl
theorem faceDist_3 (w : Vec3 K) : faceDist w 3 = cubeMax - w.y := rfl
theorem faceDist_4 (w : Vec3 K) : faceDist w 4 = w.z - cubeMin := rfl
theorem faceDist_5 (w : Vec3 K) : faceDist w 5 = cubeMax - w.z := rfl

/-- Invariant of the sequential comparison after the faces below `n` were looked at. -/
theorem selectFace_step (w : Vec3 K) (n : Nat) (r : K × Nat)
    (h : r.2 < n ∧ r.1 = faceDist w r.2 ∧ (∀ g, g < n → r.1 ≤ faceDist w g) ∧
      (∀ g, g < r.2 → r.1 < faceDist w g)) :
    (if faceDist w n < r.1 then (faceDist w n, n) else r).2 < n + 1 ∧
    (if faceDist w n < r.1 then (faceDist w n, n) else r).1 =
      faceDist w (if faceDist w n < r.1 then (faceDist w n, n) else r).2 ∧
    (∀ g, g < n + 1 → (if faceDist w n < r.1 then (faceDist w n, n) else r).1 ≤ faceDist w g) ∧
    (∀ g, g < (if faceDist w n < r.1 then (faceDist w n, n) else r).2 →
      (if faceDist w n < r.1 then (faceDist w n, n) else r).1 < faceDist w g) := by
  obtain ⟨h1, h2, h3, h4⟩ := h
  by_cases hc : faceDist w n < r.1
  · simp only [hc, if_true]
    refine ⟨by omega, trivial, fun g hg => ?_, fun g hg => ?_⟩
    · rcases Nat.lt_succ_iff_lt_or_eq.mp hg with hlt | heq
      · exact le_of_lt (lt_of_lt_of_le hc (h3 g hlt))
      · rw [heq]
    · exact lt_of_lt_of_le hc (h3 g hg)
  · simp only [hc, if_false]
    refine ⟨by omega, h2, fun g hg => ?_, h4⟩
    rcases Nat.lt_succ_iff_lt_or_eq.mp hg with hlt | heq
    · exact h3 g hlt
    · rw [heq]; exact not_lt.mp hc

theorem selectFace_spec (w : Vec3 K) :
    (selectFace w).2 < 6 ∧
    (∀ g, g < 6 → faceDist w (selectFace w).2 ≤ faceDist w g) ∧
    (∀ g, g < (selectFace w).2 → faceDist w (selectFace w).2 < faceDist w g) := by
  have s0 : ((faceDist w 0, 0) : K × Nat).2 < 1 ∧
      ((faceDist w 0, 0) : K × Nat).1 = faceDist w ((faceDist w 0, 0) : K × Nat).2 ∧
      (∀ g, g < 1 → ((faceDist w 0, 0) : K × Nat).1 ≤ faceDist w g) ∧
      (∀ g, g < ((faceDist w 0, 0) : K × Nat).2 →
        ((faceDist w 0, 0) : K × Nat).1 < faceDist w g) := by
    refine ⟨by norm_num, rfl, fun g hg => ?_, fun g hg => ?_⟩
    · have : g = 0 := by omega
      rw [this]
    · exact absurd hg (Nat.not_lt_zero g)
  have s1 := selectFace_step w 1 _ s0
  have s2 := selectFace_step w 2 _ s1
  have s3 := selectFace_step w 3 _ s2
  have s4 := selectFace_step w 4 _ s3
  have s5 := selectFace_step w 5 _ s4
  obtain ⟨h1, h2, h3, h4⟩ := s5
  refine ⟨h1, fun g hg => ?_, fun g hg => ?_⟩
  · have := h3 g hg
    rw [h2] at this
    exact this
  · have := h4 g hg
    rw [h2] at this
    exact this

theorem collideAt_length (off : Vec3 K) (s : List (Vec3 K) × List (Vec3 K)) (i : Nat) :
    (collideAt off s i).1.length = s.1.length ∧ (collideAt off s i).2.length = s.2.length := by
  unfold collideAt
  simp only
  split_ifs <;> simp

theorem collideAt_ne (off : Vec3 K) (s : List (Vec3 K) × List (Vec3 K)) (i k : Nat)
    (h : k ≠ i) :
    (collideAt off s i).1.getD k 0 = s.1.getD k 0 ∧
    (collideAt off s i).2.getD k 0 = s.2.getD k 0 := by
  unfold collideAt
  simp only
  split_ifs <;> simp [getD_set_ne _ _ _ _ _ (Ne.symm h), -List.getD_eq_getElem?_getD]

theorem collideAt_eq (off : Vec3 K) (s : List (Vec3 K) × List (Vec3 K)) (i : Nat)
    (h1 : i < s.1.length) (h2 : i < s.2.length) :
    ((collideAt off s i).1.getD i 0, (collideAt off s i).2.getD i 0) =
      collidePoint off (s.1.getD i 0, s.2.getD i 0) := by
  unfold collideAt collidePoint
  simp only
  split_ifs <;> simp [getD_set_eq _ _ _ _ h1, getD_set_eq _ _ _ _ h2, -List.getD_eq_getElem?_getD]

/-- The collision loop acts pointwise, through `collidePoint`. -/
theorem collisionPass_pointwise (off : Vec3 K) (ps vs : List (Vec3 K)) (k : Nat)
    (hk1 : k < ps.length) (hk2 : k < vs.length) :
    (collisionPass off (ps, vs)).1.length = ps.length ∧
    (collisionPass off (ps, vs)).2.length = vs.length ∧
    ((collisionPass off (ps, vs)).1.getD k 0, (collisionPass off (ps, vs)).2.getD k 0) =
      collidePoint off (ps.getD k 0, vs.getD k 0) := by
  have h := foldl_range_pointwise (collideAt off) (collidePoint off) (collideAt_length off)
    (collideAt_ne off) (collideAt_eq off) (ps, vs) ps.length k hk1 hk2
  simpa [collisionPass, hk1, -List.getD_eq_getElem?_getD] using h

theorem faceNormal_dot_self (f : Nat) (hf : f < 6) :
    Vec3.dot (faceNormal f : Vec3 K) (faceNormal f) = 1 := by
  interval_cases f <;> simp [faceNormal, Vec3.dot]

theorem faceTarget_not_inside (w : Vec3 K) (f : Nat) (hf : f < 6) :
    ¬ insideCube (faceTarget w f) := by
  intro h
  obtain ⟨h1, h2, h3, h4, h5, h6⟩ := h
  interval_cases f <;> simp only [faceTarget, cubeMin, cubeMax, eps] at * <;> norm_num at *

/-- Inside the cube every one of the six penetration depths is positive. -/
theorem insideCube_faceDist_pos (w : Vec3 K) (h : insideCube w) (f : Nat) :
    0 < faceDist w f := by
  obtain ⟨h1, h2, h3, h4, h5, h6⟩ := h
  rcases f with _ | _ | _ | _ | _ | f
  · rw [faceDist_0]; exact sub_pos.mpr h1
  · rw [faceDist_1]; exact sub_pos.mpr h2
  · rw [faceDist_2]; exact sub_pos.mpr h3
  · rw [faceDist_3]; exact sub_pos.mpr h4
  · rw [faceDist_4]; exact sub_pos.mpr h5
  · show 0 < cubeMax - w.z
    exact sub_pos.mpr h6

/-- The target of face `f` is the point moved along the normal of `f` by the
penetration depth plus `eps`. -/
theorem faceTarget_eq_add (w : Vec3 K) (f : Nat) (hf : f < 6) :
    faceTarget w f = w + (faceNormal f).scale (faceDist w f + eps) := by
  interval_cases f <;> ext <;> simp [faceTarget, faceNormal, faceDist] <;> ring

end CollisionLemmas

/-! ## Collision resolver: claims -/

section CollisionClaims

variable {K : Type} [LinearOrderedField K]

/-- C1: a point whose world position `w` is strictly inside the cube has, after one
collision pass, the world position `w` with one coordinate replaced: the coordinate of
the face of minimum penetration depth (the first such face in the order Left, Right,
Bottom, Top, Back, Front), set to `-0.551` or `0.551`; the new world position is not
strictly inside the cube. -/
theorem collisionPass_resolves_inside_point (worldOffset : Vec3 K)
    (positions velocities : List (Vec3 K)) (i : Nat) (hi : i < positions.length)
    (hv : velocities.length = positions.length)
    (w w' : Vec3 K) (hw : w = positions.getD i 0 + worldOffset)
    (hw' : w' = (collisionPass worldOffset (positions, velocities)).1.getD i 0 + worldOffset)
    (hin : insideCube w) :
    ∃ face, face < 6 ∧
      (∀ g, g < 6 → faceDist w face ≤ faceDist w g) ∧
      (∀ g, g < face → faceDist w face < faceDist w g) ∧
      (face = 0 → w' = ⟨-0.551, w.y, w.z⟩) ∧
      (face = 1 → w' = ⟨0.551, w.y, w.z⟩) ∧
      (face = 2 → w' = ⟨w.x, -0.551, w.z⟩) ∧
      (face = 3 → w' = ⟨w.x, 0.551, w.z⟩) ∧
      (face = 4 → w' = ⟨w.x, w.y, -0.551⟩) ∧
      (face = 5 → w' = ⟨w.x, w.y, 0.551⟩) ∧
      w' ≠ w ∧ ¬ insideCube w' := by
  obtain ⟨_, _, h⟩ := collisionPass_pointwise worldOffset positions velocities i hi (by omega)
  have hp := congrArg Prod.fst h
  simp only [collidePoint, ← hw, hin, if_true] at hp
  have hw2 : w' = faceTarget w (selectFace w).2 := by
    rw [hw', hp, Vec3.sub_add_cancel]
  obtain ⟨hf, hmin, hfirst⟩ := selectFace_spec w
  have hout := faceTarget_not_inside w _ hf
  rw [← hw2] at hout
  refine ⟨(selectFace w).2, hf, hmin, hfirst, ?_, ?_, ?_, ?_, ?_, ?_, ?_, hout⟩
  · intro h0; rw [hw2, h0]; simp only [faceTarget, cubeMin, eps]; ext <;> norm_num
  · intro h0; rw [hw2, h0]; simp only [faceTarget, cubeMax, eps]; ext <;> norm_num
  · intro h0; rw [hw2, h0]; simp only [faceTarget, cubeMin, eps]; ext <;> norm_num
  · intro h0; rw [hw2, h0]; simp only [faceTarget, cubeMax, eps]; ext <;> norm_num
  · intro h0; rw [hw2, h0]; simp only [faceTarget, cubeMin, eps]; ext <;> norm_num
  · intro h0; rw [hw2, h0]; simp only [faceTarget, cubeMax, eps]; ext <;> norm_num
  · intro heq
    rw [heq] at hout
    exact hout hin

/-- Witness for C1: the point at the cube centre, world offset zero. -/
theorem collisionPass_resolves_inside_point_witness :
    ∃ face, face < 6 ∧
      (∀ g, g < 6 → faceDist (⟨0, 0, 0⟩ : Vec3 ℚ) face ≤ faceDist (⟨0, 0, 0⟩ : Vec3 ℚ) g) ∧
      (∀ g, g < face → faceDist (⟨0, 0, 0⟩ : Vec3 ℚ) face < faceDist (⟨0, 0, 0⟩ : Vec3 ℚ) g) ∧
      (face = 0 → (collisionPass (⟨0, 0, 0⟩ : Vec3 ℚ) ([⟨0, 0, 0⟩], [⟨1, -1, 0⟩])).1.getD 0 0
          + ⟨0, 0, 0⟩ = ⟨-0.551, 0, 0⟩) ∧
      (face = 1 → (collisionPass (⟨0, 0, 0⟩ : Vec3 ℚ) ([⟨0, 0, 0⟩], [⟨1, -1, 0⟩])).1.getD 0 0
          + ⟨0, 0, 0⟩ = ⟨0.551, 0, 0⟩) ∧
      (face = 2 → (collisionPass (⟨0, 0, 0⟩ : Vec3 ℚ) ([⟨0, 0, 0⟩], [⟨1, -1, 0⟩])).1.getD 0 0
          + ⟨0, 0, 0⟩ = ⟨0, -0.551, 0⟩) ∧
      (face = 3 → (collisionPass (⟨0, 0, 0⟩ : Vec3 ℚ) ([⟨0, 0, 0⟩], [⟨1, -1, 0⟩])).1.getD 0 0
          + ⟨0, 0, 0⟩ = ⟨0, 0.551, 0⟩) ∧
      (face = 4 → (collisionPass (⟨0, 0, 0⟩ : Vec3 ℚ) ([⟨0, 0, 0⟩], [⟨1, -1, 0⟩])).1.getD 0 0
          + ⟨0, 0, 0⟩ = ⟨0, 0, -0.551⟩) ∧
      (face = 5 → (collisionPass (⟨0, 0, 0⟩ : Vec3 ℚ) ([⟨0, 0, 0⟩], [⟨1, -1, 0⟩])).1.getD 0 0
          + ⟨0, 0, 0⟩ = ⟨0, 0, 0.551⟩) ∧
      (collisionPass (⟨0, 0, 0⟩ : Vec3 ℚ) ([⟨0, 0, 0⟩], [⟨1, -1, 0⟩])).1.getD 0 0
          + ⟨0, 0, 0⟩ ≠ ⟨0, 0, 0⟩ ∧
      ¬ insideCube ((collisionPass (⟨0, 0, 0⟩ : Vec3 ℚ) ([⟨0, 0, 0⟩], [⟨1, -1, 0⟩])).1.getD 0 0
          + ⟨0, 0, 0⟩) :=
  collisionPass_resolves_inside_point (⟨0, 0, 0⟩ : Vec3 ℚ) [⟨0, 0, 0⟩] [⟨1, -1, 0⟩] 0
    (by decide) rfl ⟨0, 0, 0⟩ _ (by ext <;> simp) rfl
    (by simp only [insideCube, cubeMin, cubeMax]; norm_num)

/-- C2: a point whose world position `w` is strictly inside the cube is resolved against
the face of minimum penetration depth (first in the order Left, Right, Bottom, Top, Back,
Front); with `n` the outward unit normal of that face (`(-1,0,0)` for Left, `(1,0,0)` for
Right, `(0,-1,0)` for Bottom, `(0,1,0)` for Top, `(0,0,-1)` for Back, `(0,0,1)` for
Front), the point is moved onto the plane of that face plus `eps`, a positive distance
along `n`, and the velocity `v'` after the pass has `dot(v', n) = max(dot(v, n), 0) ≥ 0`
while every component of the velocity tangential to the face (along any `t` with
`dot(t, n) = 0`) is unchanged. -/
theorem collisionPass_velocity_response (worldOffset : Vec3 K)
    (positions velocities : List (Vec3 K)) (i : Nat) (hi : i < positions.length)
    (hv : velocities.length = positions.length)
    (w w' v v' : Vec3 K) (hw : w = positions.getD i 0 + worldOffset)
    (hw' : w' = (collisionPass worldOffset (positions, velocities)).1.getD i 0 + worldOffset)
    (hv0 : v = velocities.getD i 0)
    (hv' : v' = (collisionPass worldOffset (positions, velocities)).2.getD i 0)
    (hin : insideCube w) :
    ∃ (face : Nat) (n : Vec3 K), face < 6 ∧
      (∀ g, g < 6 → faceDist w face ≤ faceDist w g) ∧
      (∀ g, g < face → faceDist w face < faceDist w g) ∧
      (face = 0 → n = ⟨-1, 0, 0⟩ ∧ w' = ⟨-0.551, w.y, w.z⟩) ∧
      (face = 1 → n = ⟨1, 0, 0⟩ ∧ w' = ⟨0.551, w.y, w.z⟩) ∧
      (face = 2 → n = ⟨0, -1, 0⟩ ∧ w' = ⟨w.x, -0.551, w.z⟩) ∧
      (face = 3 → n = ⟨0, 1, 0⟩ ∧ w' = ⟨w.x, 0.551, w.z⟩) ∧
      (face = 4 → n = ⟨0, 0, -1⟩ ∧ w' = ⟨w.x, w.y, -0.551⟩) ∧
      (face = 5 → n = ⟨0, 0, 1⟩ ∧ w' = ⟨w.x, w.y, 0.551⟩) ∧
      (∃ c, 0 < c ∧ w' = w + n.scale c) ∧
      Vec3.dot v' n = max (Vec3.dot v n) 0 ∧ 0 ≤ Vec3.dot v' n ∧
      (∀ t : Vec3 K, Vec3.dot t n = 0 → Vec3.dot v' t = Vec3.dot v t) := by
  obtain ⟨_, _, h⟩ := collisionPass_pointwise worldOffset positions velocities i hi (by omega)
  have hp1 := congrArg Prod.fst h
  have hp := congrArg Prod.snd h
  simp only [collidePoint, ← hw, hin, if_true, ← hv0, ← hv'] at hp1 hp
  have hw2 : w' = faceTarget w (selectFace w).2 := by
    rw [hw', hp1, Vec3.sub_add_cancel]
  obtain ⟨hf, hmin, hfirst⟩ := selectFace_spec w
  generalize (selectFace w).2 = f at hp hw2 hf hmin hfirst
  have hnn : Vec3.dot (faceNormal f : Vec3 K) (faceNormal f) = 1 := faceNormal_dot_self f hf
  generalize hn : (faceNormal f : Vec3 K) = n at hp hnn
  have hdot : Vec3.dot v' n = max (Vec3.dot v n) 0 := by
    rw [hp]
    by_cases hc : Vec3.dot v n < 0
    · simp only [hc, if_true]
      rw [max_eq_right (le_of_lt hc)]
      simp only [Vec3.dot, Vec3.sub_x, Vec3.sub_y, Vec3.sub_z, Vec3.scale_x, Vec3.scale_y,
        Vec3.scale_z] at hnn ⊢
      linear_combination (-(v.x * n.x + v.y * n.y + v.z * n.z)) * hnn
    · simp only [hc, if_false]
      rw [max_eq_left (not_lt.mp hc)]
  refine ⟨f, n, hf, hmin, hfirst, ?_, ?_, ?_, ?_, ?_, ?_, ?_, hdot,
    by rw [hdot]; exact le_max_right _ _, fun t ht => ?_⟩
  · intro h0; subst h0; subst hn
    refine ⟨rfl, ?_⟩
    rw [hw2]; simp only [faceTarget, cubeMin, eps]; ext <;> norm_num
  · intro h0; subst h0; subst hn
    refine ⟨rfl, ?_⟩
    rw [hw2]; simp only [faceTarget, cubeMax, eps]; ext <;> norm_num
  · intro h0; subst h0; subst hn
    refine ⟨rfl, ?_⟩
    rw [hw2]; simp only [faceTarget, cubeMin, eps]; ext <;> norm_num
  · intro h0; subst h0; subst hn
    refine ⟨rfl, ?_⟩
    rw [hw2]; simp only [faceTarget, cubeMax, eps]; ext <;> norm_num
  · intro h0; subst h0; subst hn
    refine ⟨rfl, ?_⟩
    rw [hw2]; simp only [faceTarget, cubeMin, eps]; ext <;> norm_num
  · intro h0; subst h0; subst hn
    refine ⟨rfl, ?_⟩
    rw [hw2]; simp only [faceTarget, cubeMax, eps]; ext <;> norm_num
  · refine ⟨faceDist w f + eps, ?_, ?_⟩
    · have := insideCube_faceDist_pos w hin f
      have he : (0 : K) < eps := by simp only [eps]; norm_num
      linarith
    · rw [hw2, ← hn]; exact faceTarget_eq_add w f hf
  · rw [hp]
    by_cases hc : Vec3.dot v n < 0
    · simp only [hc, if_true]
      simp only [Vec3.dot, Vec3.sub_x, Vec3.sub_y, Vec3.sub_z, Vec3.scale_x, Vec3.scale_y,
        Vec3.scale_z] at ht ⊢
      linear_combination (-(v.x * n.x + v.y * n.y + v.z * n.z)) * ht
    · simp only [hc, if_false]

/-- Witness for C2: the point `(-0.5, 0.1, 0.2)`, nearest to the Left face, moving into
the cube with velocity `(1, -1, 2)`. -/
theorem collisionPass_velocity_response_witness :
    ∃ (face : Nat) (n : Vec3 ℚ), face < 6 ∧
      (∀ g, g < 6 →
        faceDist (⟨-0.5, 0.1, 0.2⟩ : Vec3 ℚ) face ≤ faceDist (⟨-0.5, 0.1, 0.2⟩ : Vec3 ℚ) g) ∧
      (∀ g, g < face →
        faceDist (⟨-0.5, 0.1, 0.2⟩ : Vec3 ℚ) face < faceDist (⟨-0.5, 0.1, 0.2⟩ : Vec3 ℚ) g) ∧
      (face = 0 → n = ⟨-1, 0, 0⟩ ∧
        (collisionPass (⟨0, 0, 0⟩ : Vec3 ℚ) ([⟨-0.5, 0.1, 0.2⟩], [⟨1, -1, 2⟩])).1.getD 0 0
          + ⟨0, 0, 0⟩ = ⟨-0.551, 0.1, 0.2⟩) ∧
      (face = 1 → n = ⟨1, 0, 0⟩ ∧
        (collisionPass (⟨0, 0, 0⟩ : Vec3 ℚ) ([⟨-0.5, 0.1, 0.2⟩], [⟨1, -1, 2⟩])).1.getD 0 0
          + ⟨0, 0, 0⟩ = ⟨0.551, 0.1, 0.2⟩) ∧
      (face = 2 → n = ⟨0, -1, 0⟩ ∧
        (collisionPass (⟨0, 0, 0⟩ : Vec3 ℚ) ([⟨-0.5, 0.1, 0.2⟩], [⟨1, -1, 2⟩])).1.getD 0 0
          + ⟨0, 0, 0⟩ = ⟨-0.5, -0.551, 0.2⟩) ∧
      (face = 3 → n = ⟨0, 1, 0⟩ ∧
        (collisionPass (⟨0, 0, 0⟩ : Vec3 ℚ) ([⟨-0.5, 0.1, 0.2⟩], [⟨1, -1, 2⟩])).1.getD 0 0
          + ⟨0, 0, 0⟩ = ⟨-0.5, 0.551, 0.2⟩) ∧
      (face = 4 → n = ⟨0, 0, -1⟩ ∧
        (collisionPass (⟨0, 0, 0⟩ : Vec3 ℚ) ([⟨-0.5, 0.1, 0.2⟩], [⟨1, -1, 2⟩])).1.getD 0 0
          + ⟨0, 0, 0⟩ = ⟨-0.5, 0.1, -0.551⟩) ∧
      (face = 5 → n = ⟨0, 0, 1⟩ ∧
        (collisionPass (⟨0, 0, 0⟩ : Vec3 ℚ) ([⟨-0.5, 0.1, 0.2⟩], [⟨1, -1, 2⟩])).1.getD 0 0
          + ⟨0, 0, 0⟩ = ⟨-0.5, 0.1, 0.551⟩) ∧
      (∃ c, 0 < c ∧
        (collisionPass (⟨0, 0, 0⟩ : Vec3 ℚ) ([⟨-0.5, 0.1, 0.2⟩], [⟨1, -1, 2⟩])).1.getD 0 0
          + ⟨0, 0, 0⟩ = ⟨-0.5, 0.1, 0.2⟩ + n.scale c) ∧
      Vec3.dot
        ((collisionPass (⟨0, 0, 0⟩ : Vec3 ℚ) ([⟨-0.5, 0.1, 0.2⟩], [⟨1, -1, 2⟩])).2.getD 0 0) n
        = max (Vec3.dot (⟨1, -1, 2⟩ : Vec3 ℚ) n) 0 ∧
      0 ≤ Vec3.dot
        ((collisionPass (⟨0, 0, 0⟩ : Vec3 ℚ) ([⟨-0.5, 0.1, 0.2⟩], [⟨1, -1, 2⟩])).2.getD 0 0) n ∧
      (∀ t : Vec3 ℚ, Vec3.dot t n = 0 →
        Vec3.dot
          ((collisionPass (⟨0, 0, 0⟩ : Vec3 ℚ) ([⟨-0.5, 0.1, 0.2⟩], [⟨1, -1, 2⟩])).2.getD 0 0) t
          = Vec3.dot (⟨1, -1, 2⟩ : Vec3 ℚ) t) :=
  collisionPass_velocity_response (⟨0, 0, 0⟩ : Vec3 ℚ) [⟨-0.5, 0.1, 0.2⟩] [⟨1, -1, 2⟩] 0
    (by decide) rfl ⟨-0.5, 0.1, 0.2⟩ _ ⟨1, -1, 2⟩ _ (by ext <;> simp) rfl rfl rfl
    (by simp only [insideCube, cubeMin, cubeMax]; norm_num)

end CollisionClaims

/-! ## Integrator -/

section Integrator

variable {K : Type} [LinearOrderedField K]

/-- The integration loop acts pointwise, through `integratePoint`. -/
theorem integrate_pointwise (dt : K) (ps vs : List (Vec3 K)) (k : Nat)
    (hk1 : k < ps.length) (hk2 : k < vs.length) :
    (integrate dt (ps, vs)).1.length = ps.length ∧
    (integrate dt (ps, vs)).2.length = vs.length ∧
    ((integrate dt (ps, vs)).1.getD k 0, (integrate dt (ps, vs)).2.getD k 0) =
      integratePoint dt (ps.getD k 0, vs.getD k 0) := by
  have h := foldl_range_pointwise
    (fun (s : List (Vec3 K) × List (Vec3 K)) i =>
      ((s.1.set i (s.1.getD i 0 +
          (((s.2.set i (s.2.getD i 0 + gravity.scale dt)).set i
            (((s.2.set i (s.2.getD i 0 + gravity.scale dt)).getD i 0).scale damping)).getD
              i 0).scale dt)),
        ((s.2.set i (s.2.getD i 0 + gravity.scale dt)).set i
            (((s.2.set i (s.2.getD i 0 + gravity.scale dt)).getD i 0).scale damping))))
    (integratePoint dt)
    (fun s i => by simp)
    (fun s i k hne => by
      simp [getD_set_ne _ _ _ _ _ (Ne.symm hne), -List.getD_eq_getElem?_getD])
    (fun s i h1 h2 => by
      have h3 : i < (s.2.set i (s.2.getD i 0 + gravity.scale dt)).length := by simpa using h2
      simp [integratePoint, getD_set_eq _ _ _ _ h1, getD_set_eq _ _ _ _ h2,
        getD_set_eq _ _ _ _ h3, -List.getD_eq_getElem?_getD])
    (ps, vs) ps.length k hk1 hk2
  simpa [integrate, hk1, -List.getD_eq_getElem?_getD] using h

/-- C5: the integrator stage gives every point, from its own velocity and position
alone, `velocity' = (velocity + gravity*deltaTime) * damping` and
`position' = position + velocity'*deltaTime`, with `gravity = (0, -0.1, 0)` and
`damping = 0.98`. -/
theorem integrate_spec (deltaTime : K) (_hdt : 0 ≤ deltaTime)
    (positions velocities : List (Vec3 K)) (i : Nat) (hi : i < positions.length)
    (hv : velocities.length = positions.length) :
    (integrate deltaTime (positions, velocities)).2.getD i 0 =
      ((velocities.getD i 0) + (gravity.scale deltaTime)).scale damping ∧
    (integrate deltaTime (positions, velocities)).1.getD i 0 =
      positions.getD i 0 +
        ((integrate deltaTime (positions, velocities)).2.getD i 0).scale deltaTime ∧
    (gravity : Vec3 K) = ⟨0, -0.1, 0⟩ ∧ (damping : K) = 0.98 := by
  obtain ⟨_, _, h⟩ := integrate_pointwise deltaTime positions velocities i hi (by omega)
  have h1 := congrArg Prod.fst h
  have h2 := congrArg Prod.snd h
  simp only [integratePoint] at h1 h2
  exact ⟨h2, by rw [h1, h2], rfl, rfl⟩

/-- Witness for C5: two points, `deltaTime = 1/2`, second point. -/
theorem integrate_spec_witness :
    (integrate (1 / 2 : ℚ) ([⟨0, 0, 0⟩, ⟨1, 2, 3⟩], [⟨0, 0, 0⟩, ⟨1, 1, 1⟩])).2.getD 1 0 =
      ((([⟨0, 0, 0⟩, ⟨1, 1, 1⟩] : List (Vec3 ℚ)).getD 1 0) +
        (gravity.scale (1 / 2))).scale damping ∧
    (integrate (1 / 2 : ℚ) ([⟨0, 0, 0⟩, ⟨1, 2, 3⟩], [⟨0, 0, 0⟩, ⟨1, 1, 1⟩])).1.getD 1 0 =
      ([⟨0, 0, 0⟩, ⟨1, 2, 3⟩] : List (Vec3 ℚ)).getD 1 0 +
        ((integrate (1 / 2 : ℚ)
          ([⟨0, 0, 0⟩, ⟨1, 2, 3⟩], [⟨0, 0, 0⟩, ⟨1, 1, 1⟩])).2.getD 1 0).scale (1 / 2) ∧
    (gravity : Vec3 ℚ) = ⟨0, -0.1, 0⟩ ∧ (damping : ℚ) = 0.98 :=
  integrate_spec (1 / 2 : ℚ) (by norm_num) [⟨0, 0, 0⟩, ⟨1, 2, 3⟩] [⟨0, 0, 0⟩, ⟨1, 1, 1⟩] 1
    (by decide) rfl

end Integrator

/-! ## Constraint solver -/

section Solver

variable {K : Type} [LinearOrderedField K]

theorem Vec3.dot_self_nonneg (v : Vec3 K) : 0 ≤ Vec3.dot v v := by
  unfold Vec3.dot
  nlinarith [mul_self_nonneg v.x, mul_self_nonneg v.y, mul_self_nonneg v.z]

theorem Vec3.length_nonneg {sqrt : K → K} (hs : IsSqrt sqrt) (v : Vec3 K) :
    0 ≤ Vec3.length sqrt v :=
  (hs _ (Vec3.dot_self_nonneg v)).1

theorem Vec3.length_mul_self {sqrt : K → K} (hs : IsSqrt sqrt) (v : Vec3 K) :
    Vec3.length sqrt v * Vec3.length sqrt v = Vec3.dot v v :=
  (hs _ (Vec3.dot_self_nonneg v)).2

theorem Vec3.scale_scale (v : Vec3 K) (a b : K) : (v.scale a).scale b = v.scale (a * b) := by
  ext <;> simp [mul_assoc]

theorem Vec3.length_scale {sqrt : K → K} (hs : IsSqrt sqrt) (v : Vec3 K) (c : K) :
    Vec3.length sqrt (v.scale c) = |c| * Vec3.length sqrt v := by
  have h1 := Vec3.length_nonneg hs (v.scale c)
  have h2 : 0 ≤ |c| * Vec3.length sqrt v := mul_nonneg (abs_nonneg c) (Vec3.length_nonneg hs v)
  apply (mul_self_inj h1 h2).mp
  rw [Vec3.length_mul_self hs]
  have h3 := Vec3.length_mul_self hs v
  have h4 : |c| * |c| = c * c := abs_mul_abs_self c
  calc Vec3.dot (v.scale c) (v.scale c) = (c * c) * Vec3.dot v v := by
        simp only [Vec3.dot, Vec3.scale_x, Vec3.scale_y, Vec3.scale_z]; ring
    _ = (|c| * |c|) * (Vec3.length sqrt v * Vec3.length sqrt v) := by rw [h4, h3]
    _ = |c| * Vec3.length sqrt v * (|c| * Vec3.length sqrt v) := by ring

theorem Vec3.length_zero {sqrt : K → K} (hs : IsSqrt sqrt) :
    Vec3.length sqrt (0 : Vec3 K) = 0 := by
  have h := Vec3.length_mul_self hs (0 : Vec3 K)
  simp only [Vec3.dot, Vec3.zero_x, Vec3.zero_y, Vec3.zero_z] at h
  have : Vec3.length sqrt (0 : Vec3 K) * Vec3.length sqrt (0 : Vec3 K) = 0 := by
    rw [h]; ring
  exact mul_self_eq_zero.mp this

/-- The correction of one edge is never longer than `maxCorrection = restLength * 0.5`. -/
theorem edgeCorr_length_le {sqrt : K → K} (hs : IsSqrt sqrt) (restLength : K)
    (hL : 0 < restLength) (delta : Vec3 K) (d : K) :
    Vec3.length sqrt (edgeCorr sqrt restLength (restLength * 0.5) delta d) ≤
      restLength * 0.5 := by
  unfold edgeCorr
  simp only
  split_ifs with hc
  · have hM : (0 : K) < restLength * 0.5 := by norm_num; exact hL
    have hpos : 0 < Vec3.length sqrt ((delta.scale 0.5).scale ((d - restLength) / d)) :=
      lt_trans hM hc
    unfold Vec3.normalize
    rw [Vec3.length_scale hs, Vec3.length_scale hs]
    have hlen : sqrt (Vec3.dot ((delta.scale 0.5).scale ((d - restLength) / d))
        ((delta.scale 0.5).scale ((d - restLength) / d))) =
        Vec3.length sqrt ((delta.scale 0.5).scale ((d - restLength) / d)) := rfl
    rw [hlen, abs_of_pos hM, abs_of_pos (one_div_pos.mpr hpos)]
    have : 1 / Vec3.length sqrt ((delta.scale 0.5).scale ((d - restLength) / d)) *
        Vec3.length sqrt ((delta.scale 0.5).scale ((d - restLength) / d)) = 1 :=
      one_div_mul_cancel (ne_of_gt hpos)
    calc restLength * 0.5 *
          (1 / Vec3.length sqrt ((delta.scale 0.5).scale ((d - restLength) / d)) *
            Vec3.length sqrt ((delta.scale 0.5).scale ((d - restLength) / d)))
        = restLength * 0.5 := by rw [this, mul_one]
      _ ≤ restLength * 0.5 := le_refl _
  · exact not_lt.mp hc

theorem Vec3.add_sub_cancel_left (a b : Vec3 K) : a + b - a = b := by
  ext <;> simp

theorem Vec3.sub_sub_cancel_neg (a b : Vec3 K) : a - b - a = b.scale (-1) := by
  ext <;> simp

theorem Vec3.length_neg {sqrt : K → K} (hs : IsSqrt sqrt) (v : Vec3 K) :
    Vec3.length sqrt (v.scale (-1)) = Vec3.length sqrt v := by
  rw [Vec3.length_scale hs]; simp

/-- The real square root is exact. -/
theorem isSqrt_real : IsSqrt Real.sqrt :=
  fun x hx => ⟨Real.sqrt_nonneg x, Real.mul_self_sqrt hx⟩

/-- Entries of the position vector after one edge correction. -/
theorem edgeStep_getD (sqrt : K → K) (restLength maxCorrection : K)
    (positions : List (Vec3 K)) (idx j : Nat) (hidx : idx < positions.length)
    (hj : j < positions.length) (hne : idx ≠ j)
    (hd : Vec3.length sqrt (positions.getD j 0 - positions.getD idx 0) > 1e-7) :
    (edgeStep sqrt restLength maxCorrection idx j positions).getD idx 0 =
      positions.getD idx 0 + edgeCorr sqrt restLength maxCorrection
        (positions.getD j 0 - positions.getD idx 0)
        (Vec3.length sqrt (positions.getD j 0 - positions.getD idx 0)) ∧
    (edgeStep sqrt restLength maxCorrection idx j positions).getD j 0 =
      positions.getD j 0 - edgeCorr sqrt restLength maxCorrection
        (positions.getD j 0 - positions.getD idx 0)
        (Vec3.length sqrt (positions.getD j 0 - positions.getD idx 0)) := by
  unfold edgeStep
  simp only [hd, if_true]
  have hj2 : j < (positions.set idx (positions.getD idx 0 + edgeCorr sqrt restLength
      maxCorrection (positions.getD j 0 - positions.getD idx 0)
      (Vec3.length sqrt (positions.getD j 0 - positions.getD idx 0)))).length := by
    simpa using hj
  constructor
  · rw [getD_set_ne _ _ _ _ _ (Ne.symm hne), getD_set_eq _ _ _ _ hidx]
  · rw [getD_set_eq _ _ _ _ hj2, getD_set_ne _ _ _ _ _ hne]

theorem edgeStep_skip (sqrt : K → K) (restLength maxCorrection : K)
    (positions : List (Vec3 K)) (idx j : Nat)
    (hd : ¬ Vec3.length sqrt (positions.getD j 0 - positions.getD idx 0) > 1e-7) :
    edgeStep sqrt restLength maxCorrection idx j positions = positions := by
  unfold edgeStep
  simp only [hd, if_false]

theorem edgeStep_length (sqrt : K → K) (restLength maxCorrection : K)
    (positions : List (Vec3 K)) (idx j : Nat) :
    (edgeStep sqrt restLength maxCorrection idx j positions).length = positions.length := by
  unfold edgeStep
  simp only
  split_ifs <;> simp

/-- C3 (amended): with `spacing > 0` and arithmetic read as exact reals (an exact square
root), one edge correction between `pos[idx]` and `pos[j]` adds a vector `corr` to
`pos[idx]` and subtracts it from `pos[j]`, where `corr` has length at most
`maxCorrection = restLength * 0.5`; so each endpoint is displaced by at most half the
rest length.  When the edge is not skipped (`d > 1e-7`), `corr` is the correction vector
computed by the code. -/
theorem edgeStep_correction_bounded {sqrt : K → K} (hs : IsSqrt sqrt) (spacing : K)
    (hsp : 0 < spacing) (positions : List (Vec3 K)) (idx j : Nat)
    (hidx : idx < positions.length) (hj : j < positions.length) (hne : idx ≠ j) :
    ∃ corr : Vec3 K,
      Vec3.length sqrt corr ≤ spacing * 0.5 ∧
      (Vec3.length sqrt (positions.getD j 0 - positions.getD idx 0) > 1e-7 →
        corr = edgeCorr sqrt spacing (spacing * 0.5)
          (positions.getD j 0 - positions.getD idx 0)
          (Vec3.length sqrt (positions.getD j 0 - positions.getD idx 0))) ∧
      (edgeStep sqrt spacing (spacing * 0.5) idx j positions).getD idx 0 =
        positions.getD idx 0 + corr ∧
      (edgeStep sqrt spacing (spacing * 0.5) idx j positions).getD j 0 =
        positions.getD j 0 - corr ∧
      Vec3.length sqrt ((edgeStep sqrt spacing (spacing * 0.5) idx j positions).getD idx 0 -
        positions.getD idx 0) ≤ spacing * 0.5 ∧
      Vec3.length sqrt ((edgeStep sqrt spacing (spacing * 0.5) idx j positions).getD j 0 -
        positions.getD j 0) ≤ spacing * 0.5 := by
  by_cases hd : Vec3.length sqrt (positions.getD j 0 - positions.getD idx 0) > 1e-7
  · obtain ⟨h1, h2⟩ := edgeStep_getD sqrt spacing (spacing * 0.5) positions idx j
      hidx hj hne hd
    have hb := edgeCorr_length_le hs spacing hsp (positions.getD j 0 - positions.getD idx 0)
      (Vec3.length sqrt (positions.getD j 0 - positions.getD idx 0))
    refine ⟨_, hb, fun _ => rfl, h1, h2, ?_, ?_⟩
    · rw [h1, Vec3.add_sub_cancel_left]; exact hb
    · rw [h2, Vec3.sub_sub_cancel_neg, Vec3.length_neg hs]; exact hb
  · have hM : (0 : K) ≤ spacing * 0.5 := by
      have : (0 : K) < spacing * 0.5 := by norm_num; exact hsp
      exact le_of_lt this
    have hz : ∀ a : Vec3 K, a - a = 0 := fun a => by ext <;> simp
    rw [edgeStep_skip sqrt spacing (spacing * 0.5) positions idx j hd]
    refine ⟨0, by rw [Vec3.length_zero hs]; exact hM, fun h => absurd h hd, ?_, ?_, ?_, ?_⟩
    · ext <;> simp
    · ext <;> simp
    · rw [hz, Vec3.length_zero hs]; exact hM
    · rw [hz, Vec3.length_zero hs]; exact hM

/-- Witness for C3: the edge from `(0,0,0)` to `(3,4,0)` with `spacing = 1` over the
reals. -/
theorem edgeStep_correction_bounded_witness :
    ∃ corr : Vec3 ℝ,
      Vec3.length Real.sqrt corr ≤ 1 * 0.5 ∧
      (Vec3.length Real.sqrt (([⟨0, 0, 0⟩, ⟨3, 4, 0⟩] : List (Vec3 ℝ)).getD 1 0 -
          ([⟨0, 0, 0⟩, ⟨3, 4, 0⟩] : List (Vec3 ℝ)).getD 0 0) > 1e-7 →
        corr = edgeCorr Real.sqrt 1 (1 * 0.5)
          (([⟨0, 0, 0⟩, ⟨3, 4, 0⟩] : List (Vec3 ℝ)).getD 1 0 -
            ([⟨0, 0, 0⟩, ⟨3, 4, 0⟩] : List (Vec3 ℝ)).getD 0 0)
          (Vec3.length Real.sqrt (([⟨0, 0, 0⟩, ⟨3, 4, 0⟩] : List (Vec3 ℝ)).getD 1 0 -
            ([⟨0, 0, 0⟩, ⟨3, 4, 0⟩] : List (Vec3 ℝ)).getD 0 0))) ∧
      (edgeStep Real.sqrt 1 (1 * 0.5) 0 1 [⟨0, 0, 0⟩, ⟨3, 4, 0⟩]).getD 0 0 =
        ([⟨0, 0, 0⟩, ⟨3, 4, 0⟩] : List (Vec3 ℝ)).getD 0 0 + corr ∧
      (edgeStep Real.sqrt 1 (1 * 0.5) 0 1 [⟨0, 0, 0⟩, ⟨3, 4, 0⟩]).getD 1 0 =
        ([⟨0, 0, 0⟩, ⟨3, 4, 0⟩] : List (Vec3 ℝ)).getD 1 0 - corr ∧
      Vec3.length Real.sqrt ((edgeStep Real.sqrt 1 (1 * 0.5) 0 1
          [⟨0, 0, 0⟩, ⟨3, 4, 0⟩]).getD 0 0 -
        ([⟨0, 0, 0⟩, ⟨3, 4, 0⟩] : List (Vec3 ℝ)).getD 0 0) ≤ 1 * 0.5 ∧
      Vec3.length Real.sqrt ((edgeStep Real.sqrt 1 (1 * 0.5) 0 1
          [⟨0, 0, 0⟩, ⟨3, 4, 0⟩]).getD 1 0 -
        ([⟨0, 0, 0⟩, ⟨3, 4, 0⟩] : List (Vec3 ℝ)).getD 1 0) ≤ 1 * 0.5 :=
  edgeStep_correction_bounded isSqrt_real (1 : ℝ) one_pos [⟨0, 0, 0⟩, ⟨3, 4, 0⟩] 0 1
    (by simp) (by simp) (by decide)

theorem foldl_invariant_mem {S T : Type} (P : S → Prop) (f : S → T → S) (l : List T) (s : S)
    (h0 : P s) (hstep : ∀ s t, t ∈ l → P s → P (f s t)) : P (l.foldl f s) := by
  induction l generalizing s with
  | nil => exact h0
  | cons t l ih =>
    exact ih (f s t) (hstep s t (List.mem_cons_self t l) h0)
      (fun s u hu hs => hstep s u (List.mem_cons_of_mem t hu) hs)

/-- A collision pass in which no point is strictly inside the cube changes nothing. -/
theorem collisionPass_no_inside (off : Vec3 K) (ps vs : List (Vec3 K))
    (hout : ∀ p, p ∈ ps → ¬ insideCube (p + off)) :
    collisionPass off (ps, vs) = (ps, vs) := by
  unfold collisionPass
  apply foldl_invariant_mem (fun s => s = (ps, vs))
  · rfl
  · intro s i hi hs
    have hi2 : i < ps.length := by simpa using hi
    rw [hs]
    unfold collideAt
    have hget : ps.getD i 0 = ps[i] := List.getD_eq_getElem ps 0 hi2
    have hnot : ¬ insideCube (ps.getD i 0 + off) := by
      rw [hget]; exact hout _ (List.getElem_mem hi2)
    simp only [hnot, if_false]

/-- Closed form of the correction vector: unclamped for `d ≤ 2 * restLength`, clamped
to length `restLength * 0.5` beyond. -/
theorem edgeCorr_eq_scale {sqrt : K → K} (hs : IsSqrt sqrt) (restLength : K)
    (hL : 0 < restLength) (delta : Vec3 K) (hd : 0 < Vec3.length sqrt delta) :
    edgeCorr sqrt restLength (restLength * 0.5) delta (Vec3.length sqrt delta) =
      delta.scale (if Vec3.length sqrt delta ≤ 2 * restLength
        then 0.5 * ((Vec3.length sqrt delta - restLength) / Vec3.length sqrt delta)
        else restLength * 0.5 / Vec3.length sqrt delta) := by
  generalize hdd : Vec3.length sqrt delta = d at hd ⊢
  have hlen : Vec3.length sqrt ((delta.scale 0.5).scale ((d - restLength) / d)) =
      0.5 * |d - restLength| := by
    rw [Vec3.scale_scale, Vec3.length_scale hs, hdd, abs_mul, abs_div, abs_of_pos hd]
    have h5 : |(0.5 : K)| = 0.5 := abs_of_pos (by norm_num)
    rw [h5]
    field_simp
  unfold edgeCorr
  simp only [hlen]
  by_cases hc : d ≤ 2 * restLength
  · have habs : |d - restLength| ≤ restLength := by
      rw [abs_le]; constructor <;> linarith
    have hnot : ¬ (0.5 * |d - restLength| > restLength * 0.5) := by
      intro h
      have : restLength * 0.5 < 0.5 * restLength := lt_of_lt_of_le h
        (mul_le_mul_of_nonneg_left habs (by norm_num))
      linarith
    simp only [hnot, if_false, hc, if_true]
    rw [Vec3.scale_scale]
  · have hgt : 2 * restLength < d := not_le.mp hc
    have habs : |d - restLength| = d - restLength := abs_of_pos (by linarith)
    have hyes : 0.5 * |d - restLength| > restLength * 0.5 := by
      rw [habs]
      have : (0.5 : K) * (d - restLength) - restLength * 0.5 = 0.5 * (d - 2 * restLength) := by
        ring
      have h2 : (0 : K) < 0.5 * (d - 2 * restLength) := mul_pos (by norm_num) (by linarith)
      linarith
    simp only [hyes, if_true, hc, if_false]
    unfold Vec3.normalize
    have hl2 : sqrt (Vec3.dot ((delta.scale 0.5).scale ((d - restLength) / d))
        ((delta.scale 0.5).scale ((d - restLength) / d))) = 0.5 * |d - restLength| := hlen
    rw [hl2, habs, Vec3.scale_scale, Vec3.scale_scale, Vec3.scale_scale]
    congr 1
    have h1 : d ≠ 0 := ne_of_gt hd
    have h2 : d - restLength ≠ 0 := ne_of_gt (by linarith)
    field_simp
    ring

/-- Distance of the two endpoints after one edge correction that is not skipped:
`restLength` if `d ≤ 2 * restLength`, `d - restLength` otherwise; the new difference
vector is a non-negative multiple of the old one. -/
theorem edgeStep_new_delta {sqrt : K → K} (hs : IsSqrt sqrt) (restLength : K)
    (hL : 0 < restLength) (positions : List (Vec3 K)) (idx j : Nat)
    (hidx : idx < positions.length) (hj : j < positions.length) (hne : idx ≠ j)
    (hd : Vec3.length sqrt (positions.getD j 0 - positions.getD idx 0) > 1e-7) :
    (edgeStep sqrt restLength (restLength * 0.5) idx j positions).getD j 0 -
      (edgeStep sqrt restLength (restLength * 0.5) idx j positions).getD idx 0 =
      (positions.getD j 0 - positions.getD idx 0).scale
        (if Vec3.length sqrt (positions.getD j 0 - positions.getD idx 0) ≤ 2 * restLength
          then restLength / Vec3.length sqrt (positions.getD j 0 - positions.getD idx 0)
          else (Vec3.length sqrt (positions.getD j 0 - positions.getD idx 0) - restLength) /
            Vec3.length sqrt (positions.getD j 0 - positions.getD idx 0)) := by
  obtain ⟨h1, h2⟩ := edgeStep_getD sqrt restLength (restLength * 0.5) positions idx j
    hidx hj hne hd
  have hpos : 0 < Vec3.length sqrt (positions.getD j 0 - positions.getD idx 0) :=
    lt_trans (by norm_num) hd
  rw [h1, h2, edgeCorr_eq_scale hs restLength hL _ hpos]
  generalize Vec3.length sqrt (positions.getD j 0 - positions.getD idx 0) = d at hpos ⊢
  generalize positions.getD j 0 = pj
  generalize positions.getD idx 0 = pi
  have h0 : d ≠ 0 := ne_of_gt hpos
  split_ifs <;> ext <;>
    simp only [Vec3.sub_x, Vec3.sub_y, Vec3.sub_z, Vec3.add_x, Vec3.add_y, Vec3.add_z,
      Vec3.scale_x, Vec3.scale_y, Vec3.scale_z] <;> field_simp <;> ring

theorem edgeStep_new_distance {sqrt : K → K} (hs : IsSqrt sqrt) (restLength : K)
    (hL : 0 < restLength) (positions : List (Vec3 K)) (idx j : Nat)
    (hidx : idx < positions.length) (hj : j < positions.length) (hne : idx ≠ j)
    (hd : Vec3.length sqrt (positions.getD j 0 - positions.getD idx 0) > 1e-7) :
    Vec3.length sqrt ((edgeStep sqrt restLength (restLength * 0.5) idx j positions).getD j 0 -
      (edgeStep sqrt restLength (restLength * 0.5) idx j positions).getD idx 0) =
      if Vec3.length sqrt (positions.getD j 0 - positions.getD idx 0) ≤ 2 * restLength
        then restLength
        else Vec3.length sqrt (positions.getD j 0 - positions.getD idx 0) - restLength := by
  have hpos : 0 < Vec3.length sqrt (positions.getD j 0 - positions.getD idx 0) :=
    lt_trans (by norm_num) hd
  rw [edgeStep_new_delta hs restLength hL positions idx j hidx hj hne hd,
    Vec3.length_scale hs]
  generalize Vec3.length sqrt (positions.getD j 0 - positions.getD idx 0) = d at hpos ⊢
  have h0 : d ≠ 0 := ne_of_gt hpos
  split_ifs with hc
  · rw [abs_of_pos (div_pos hL hpos)]
    field_simp
  · have : 0 < d - restLength := by linarith [not_le.mp hc]
    rw [abs_of_pos (div_pos this hpos)]
    field_simp

/-- On a `2 x 1` grid the structural pass is the single edge correction `(0, 1)`. -/
theorem structuralPass_two_by_one (sqrt : K → K) (restLength maxCorrection : K)
    (ps : List (Vec3 K)) :
    structuralPass sqrt 2 1 restLength maxCorrection ps =
      edgeStep sqrt restLength maxCorrection 0 1 ps := by
  simp [structuralPass, cellStep, List.range_succ]

/-- On a cloth of two adjacent points (a `2 x 1` grid) with `restLength = spacing > 0`,
a relaxation iteration whose collision loop finds no point inside the cube never
increases the error `|d - spacing|` of the distance `d = |pos[1] - pos[0]|`, and strictly
decreases it whenever it starts with `d > 1e-7` and `d ≠ spacing`. -/
theorem relaxIter_two_points_no_collision {sqrt : K → K} (hs : IsSqrt sqrt) (spacing : K)
    (hsp : 0 < spacing) (worldOffset p0 p1 v0 v1 : Vec3 K)
    (hout : ∀ p, p ∈ structuralPass sqrt 2 1 spacing (spacing * 0.5) [p0, p1] →
      ¬ insideCube (p + worldOffset))
    (d d' : K) (hd : d = Vec3.length sqrt (p1 - p0))
    (hd' : d' = Vec3.length sqrt
      ((relaxIter sqrt 2 1 spacing (spacing * 0.5) worldOffset
          ([p0, p1], [v0, v1])).1.getD 1 0 -
        (relaxIter sqrt 2 1 spacing (spacing * 0.5) worldOffset
          ([p0, p1], [v0, v1])).1.getD 0 0)) :
    (relaxIter sqrt 2 1 spacing (spacing * 0.5) worldOffset
      ([p0, p1], [v0, v1])).1.length = 2 ∧
    |d' - spacing| ≤ |d - spacing| ∧
    (d > 1e-7 → d ≠ spacing → |d' - spacing| < |d - spacing|) := by
  have hrel : relaxIter sqrt 2 1 spacing (spacing * 0.5) worldOffset ([p0, p1], [v0, v1]) =
      (edgeStep sqrt spacing (spacing * 0.5) 0 1 [p0, p1], [v0, v1]) := by
    unfold relaxIter
    rw [collisionPass_no_inside worldOffset _ _ hout, structuralPass_two_by_one]
  rw [hrel] at hd' ⊢
  simp only at hd' ⊢
  refine ⟨by rw [edgeStep_length]; rfl, ?_⟩
  by_cases hgt : d > 1e-7
  · have hgt2 : Vec3.length sqrt (([p0, p1] : List (Vec3 K)).getD 1 0 -
        ([p0, p1] : List (Vec3 K)).getD 0 0) > 1e-7 := by
      rw [hd] at hgt; exact hgt
    have hnew := edgeStep_new_distance hs spacing hsp [p0, p1] 0 1 (by simp) (by simp)
      (by decide) hgt2
    rw [← hd'] at hnew
    have hdd : Vec3.length sqrt (([p0, p1] : List (Vec3 K)).getD 1 0 -
        ([p0, p1] : List (Vec3 K)).getD 0 0) = d := hd.symm
    rw [hdd] at hnew
    by_cases hc : d ≤ 2 * spacing
    · simp only [hc, if_true] at hnew
      rw [hnew]
      simp only [sub_self, abs_zero]
      refine ⟨abs_nonneg _, fun _ hne => abs_pos.mpr (sub_ne_zero.mpr hne)⟩
    · simp only [hc, if_false] at hnew
      have h2 : 2 * spacing < d := not_le.mp hc
      rw [hnew, abs_of_pos (by linarith : 0 < d - spacing - spacing),
        abs_of_pos (by linarith : 0 < d - spacing)]
      exact ⟨by linarith, fun _ _ => by linarith⟩
  · have hskip : edgeStep sqrt spacing (spacing * 0.5) 0 1 [p0, p1] = [p0, p1] := by
      apply edgeStep_skip
      rw [hd] at hgt; exact hgt
    rw [hskip] at hd'
    have : d' = d := by rw [hd', hd]; rfl
    rw [this]
    exact ⟨le_refl _, fun h => absurd h hgt⟩

/-- The edge from `(0,0,0)` to `(3,0,0)` has length `3`. -/
theorem sample_edge_length :
    Vec3.length Real.sqrt ((⟨3, 0, 0⟩ : Vec3 ℝ) - ⟨0, 0, 0⟩) = 3 := by
  have h : Vec3.dot ((⟨3, 0, 0⟩ : Vec3 ℝ) - ⟨0, 0, 0⟩) ((⟨3, 0, 0⟩ : Vec3 ℝ) - ⟨0, 0, 0⟩) =
      3 * 3 := by
    simp [Vec3.dot]
  unfold Vec3.length
  rw [h]
  exact Real.sqrt_mul_self (by norm_num)

/-- With world offset `(0,5,0)` the two sample points stay outside the cube after the
structural pass. -/
theorem sample_edge_outside (p : Vec3 ℝ)
    (hp : p ∈ structuralPass Real.sqrt 2 1 1 (1 * 0.5) [⟨0, 0, 0⟩, ⟨3, 0, 0⟩]) :
    ¬ insideCube (p + ⟨0, 5, 0⟩) := by
  rw [structuralPass_two_by_one] at hp
  have hgt : Vec3.length Real.sqrt (([⟨0, 0, 0⟩, ⟨3, 0, 0⟩] : List (Vec3 ℝ)).getD 1 0 -
      ([⟨0, 0, 0⟩, ⟨3, 0, 0⟩] : List (Vec3 ℝ)).getD 0 0) > 1e-7 := by
    have := sample_edge_length
    simp only [List.getD_cons_zero, List.getD_cons_succ]
    rw [this]; norm_num
  have hpos : 0 < Vec3.length Real.sqrt ((⟨3, 0, 0⟩ : Vec3 ℝ) - ⟨0, 0, 0⟩) := by
    rw [sample_edge_length]; norm_num
  have hy : p.y = 0 := by
    unfold edgeStep at hp
    simp only [hgt, if_true] at hp
    simp only [List.getD_cons_zero, List.getD_cons_succ, List.set_cons_zero,
      List.set_cons_succ, List.mem_cons, List.mem_singleton, List.not_mem_nil, or_false] at hp
    rw [edgeCorr_eq_scale isSqrt_real 1 one_pos _ hpos] at hp
    rcases hp with h | h <;> rw [h] <;> simp
  intro hin
  obtain ⟨_, _, _, h4, _, _⟩ := hin
  simp only [Vec3.add_y, hy, cubeMax] at h4
  norm_num at h4

/-- The points `(0,0,0)` and `(3,0,0)` with `spacing = 1`, far above the cube, as an
instance of `relaxIter_two_points_no_collision`. -/
theorem relaxIter_two_points_no_collision_witness :
    (relaxIter Real.sqrt 2 1 1 (1 * 0.5) (⟨0, 5, 0⟩ : Vec3 ℝ)
      ([⟨0, 0, 0⟩, ⟨3, 0, 0⟩], [⟨0, 0, 0⟩, ⟨0, 0, 0⟩])).1.length = 2 ∧
    |Vec3.length Real.sqrt
        ((relaxIter Real.sqrt 2 1 1 (1 * 0.5) (⟨0, 5, 0⟩ : Vec3 ℝ)
            ([⟨0, 0, 0⟩, ⟨3, 0, 0⟩], [⟨0, 0, 0⟩, ⟨0, 0, 0⟩])).1.getD 1 0 -
          (relaxIter Real.sqrt 2 1 1 (1 * 0.5) (⟨0, 5, 0⟩ : Vec3 ℝ)
            ([⟨0, 0, 0⟩, ⟨3, 0, 0⟩], [⟨0, 0, 0⟩, ⟨0, 0, 0⟩])).1.getD 0 0) - 1| ≤
      |Vec3.length Real.sqrt ((⟨3, 0, 0⟩ : Vec3 ℝ) - ⟨0, 0, 0⟩) - 1| ∧
    (Vec3.length Real.sqrt ((⟨3, 0, 0⟩ : Vec3 ℝ) - ⟨0, 0, 0⟩) > 1e-7 →
      Vec3.length Real.sqrt ((⟨3, 0, 0⟩ : Vec3 ℝ) - ⟨0, 0, 0⟩) ≠ 1 →
      |Vec3.length Real.sqrt
        ((relaxIter Real.sqrt 2 1 1 (1 * 0.5) (⟨0, 5, 0⟩ : Vec3 ℝ)
            ([⟨0, 0, 0⟩, ⟨3, 0, 0⟩], [⟨0, 0, 0⟩, ⟨0, 0, 0⟩])).1.getD 1 0 -
          (relaxIter Real.sqrt 2 1 1 (1 * 0.5) (⟨0, 5, 0⟩ : Vec3 ℝ)
            ([⟨0, 0, 0⟩, ⟨3, 0, 0⟩], [⟨0, 0, 0⟩, ⟨0, 0, 0⟩])).1.getD 0 0) - 1| <
      |Vec3.length Real.sqrt ((⟨3, 0, 0⟩ : Vec3 ℝ) - ⟨0, 0, 0⟩) - 1|) :=
  relaxIter_two_points_no_collision isSqrt_real (1 : ℝ) one_pos ⟨0, 5, 0⟩ ⟨0, 0, 0⟩ ⟨3, 0, 0⟩
    ⟨0, 0, 0⟩ ⟨0, 0, 0⟩ sample_edge_outside _ _ rfl rfl

end Solver

/-! ## Grid builder -/

section Grid

variable {K : Type} [LinearOrderedField K]

theorem foldl_append_flatMap {A T : Type} (f : T → List A) (l : List T) (init : List A) :
    l.foldl (fun acc a => acc ++ f a) init = init ++ l.flatMap f := by
  induction l generalizing init with
  | nil => simp
  | cons t l ih => simp [ih]

theorem flatMap_length_const {A T : Type} (f : T → List A) (c : Nat)
    (hf : ∀ a, (f a).length = c) (l : List T) : (l.flatMap f).length = c * l.length := by
  induction l with
  | nil => simp
  | cons t l ih => simp [ih, hf, Nat.mul_succ, Nat.add_comm]

/-- Block `i` of a concatenation of `n` blocks of equal length `c`. -/
theorem flatMap_range_block {A : Type} (f : Nat → List A) (c : Nat)
    (hf : ∀ a, (f a).length = c) (n i : Nat) (hi : i < n) :
    (((List.range n).flatMap f).drop (c * i)).take c = f i := by
  induction n with
  | zero => omega
  | succ n ih =>
    rw [List.range_succ, List.flatMap_append, List.flatMap_singleton]
    have hlen : ((List.range n).flatMap f).length = c * n := by
      rw [flatMap_length_const f c hf, List.length_range]
    by_cases hin : i < n
    · have h1 : c * i + c ≤ c * n := by
        have : c * (i + 1) ≤ c * n := Nat.mul_le_mul_left c hin
        rwa [Nat.mul_succ] at this
      rw [List.drop_append_of_le_length (by rw [hlen]; omega),
        List.take_append_of_le_length (by rw [List.length_drop, hlen]; omega)]
      exact ih hin
    · have : i = n := by omega
      subst this
      rw [List.drop_left' hlen, List.take_of_length_le (by rw [hf])]

theorem generateIndices_eq_flatMap (width height : Int) :
    generateIndices width height =
      (List.range (height - 1).toNat).flatMap (fun y =>
        (List.range (width - 1).toNat).flatMap (quadIndices width y)) := by
  unfold generateIndices
  simp only [foldl_append_flatMap, List.nil_append]
  rfl

theorem generateVertices_eq_flatMap (width height : Int) (spacing : K) :
    generateVertices width height spacing =
      (List.range height.toNat).flatMap (fun y =>
        (List.range width.toNat).flatMap (vertexRecord width height spacing y)) := by
  unfold generateVertices
  simp only [foldl_append_flatMap, List.nil_append]
  rfl

theorem quadIndices_length (width : Int) (y x : Nat) : (quadIndices width y x).length = 6 :=
  rfl

theorem vertexRecord_length (width height : Int) (spacing : K) (y x : Nat) :
    (vertexRecord width height spacing y x).length = 6 := rfl

theorem generateIndices_length (width height : Int) :
    (generateIndices width height).length =
      6 * (width - 1).toNat * (height - 1).toNat := by
  rw [generateIndices_eq_flatMap,
    flatMap_length_const _ (6 * (width - 1).toNat) (fun y => by
      rw [flatMap_length_const _ 6 (quadIndices_length width y), List.length_range]),
    List.length_range]

theorem generateVertices_length (width height : Int) (spacing : K) :
    (generateVertices width height spacing).length = 6 * width.toNat * height.toNat := by
  rw [generateVertices_eq_flatMap,
    flatMap_length_const _ (6 * width.toNat) (fun y => by
      rw [flatMap_length_const _ 6 (vertexRecord_length width height spacing y),
        List.length_range]),
    List.length_range]

/-- The six entries of a doubly nested block list at block `(y, x)`. -/
theorem flatMap_range_range_block {A : Type} (f : Nat → Nat → List A)
    (hf : ∀ y x, (f y x).length = 6) (m n y x : Nat) (hy : y < m) (hx : x < n) :
    (((List.range m).flatMap (fun y => (List.range n).flatMap (f y))).drop
      (6 * (y * n + x))).take 6 = f y x := by
  have hrow : ∀ y, ((List.range n).flatMap (f y)).length = 6 * n := fun y => by
    rw [flatMap_length_const _ 6 (hf y), List.length_range]
  have hblock := flatMap_range_block (fun y => (List.range n).flatMap (f y)) (6 * n) hrow m y hy
  have hinner := flatMap_range_block (f y) 6 (hf y) n x hx
  have hsplit : 6 * (y * n + x) = 6 * n * y + 6 * x := by ring
  rw [hsplit, ← List.drop_drop, ← hinner]
  have h6 : 6 * x + 6 ≤ 6 * n := by omega
  have htake : ∀ (l : List A), (l.drop (6 * x)).take 6 =
      (((l.take (6 * n)).drop (6 * x))).take 6 := by
    intro l
    rw [List.drop_take, List.take_take]
    congr 1
    omega
  rw [htake, hblock]

/-- C8: for `width ≥ 2` and `height ≥ 2`, `generateIndices` returns exactly
`6*(width-1)*(height-1)` indices, that is `2*(width-1)*(height-1)` triangles of three
indices. -/
theorem generateIndices_count (width height : Int) (hw : 2 ≤ width) (hh : 2 ≤ height) :
    ((generateIndices width height).length : Int) = 6 * (width - 1) * (height - 1) ∧
    ((generateIndices width height).length : Int) = 3 * (2 * (width - 1) * (height - 1)) := by
  have h : ((generateIndices width height).length : Int) = 6 * (width - 1) * (height - 1) := by
    rw [generateIndices_length]
    push_cast
    rw [Int.toNat_of_nonneg (by omega), Int.toNat_of_nonneg (by omega)]
  exact ⟨h, by rw [h]; ring⟩

/-- Witness for C8: the `3 x 4` grid has `36` indices. -/
theorem generateIndices_count_witness :
    ((generateIndices 3 4).length : Int) = 6 * (3 - 1) * (4 - 1) ∧
    ((generateIndices 3 4).length : Int) = 3 * (2 * (3 - 1) * (4 - 1)) :=
  generateIndices_count 3 4 (by decide) (by decide)

/-- C10: for `width ≥ 2`, `height ≥ 2` and a quad `(x, y)` with `0 ≤ x < width-1`,
`0 ≤ y < height-1`, the six entries of `generateIndices` from offset
`6*(y*(width-1)+x)` are `topLeft, bottomLeft, topRight, topRight, bottomLeft,
bottomRight` with `topLeft = y*width+x`, `topRight = topLeft+1`,
`bottomLeft = (y+1)*width+x`, `bottomRight = bottomLeft+1`. -/
theorem generateIndices_quad (width height x y : Int) (hw : 2 ≤ width) (hh : 2 ≤ height)
    (hx0 : 0 ≤ x) (hx : x < width - 1) (hy0 : 0 ≤ y) (hy : y < height - 1) :
    ((((generateIndices width height).drop (6 * (y * (width - 1) + x)).toNat).take 6).map
        (fun n : Nat => (n : Int))) =
      [y * width + x, (y + 1) * width + x, y * width + x + 1,
       y * width + x + 1, (y + 1) * width + x, (y + 1) * width + x + 1] := by
  lift x to ℕ using hx0
  lift y to ℕ using hy0
  have hoff : (6 * ((y : Int) * (width - 1) + x)).toNat = 6 * (y * (width - 1).toNat + x) := by
    have h1 : ((width - 1).toNat : Int) = width - 1 := Int.toNat_of_nonneg (by omega)
    have h2 : (6 * ((y : Int) * (width - 1) + x)) =
        ((6 * (y * (width - 1).toNat + x) : Nat) : Int) := by
      push_cast; rw [h1]
    rw [h2, Int.toNat_ofNat]
  rw [hoff, generateIndices_eq_flatMap,
    flatMap_range_range_block (quadIndices width) (quadIndices_length width) _ _ y x
      (by omega) (by omega)]
  have hwpos : (0 : Int) ≤ width := by omega
  have hyw : (0 : Int) ≤ (y : Int) * width := mul_nonneg (Int.natCast_nonneg y) hwpos
  have hyw1 : (0 : Int) ≤ ((y : Int) + 1) * width :=
    mul_nonneg (by have := Int.natCast_nonneg y; omega) hwpos
  have hxn : (0 : Int) ≤ (x : Int) := Int.natCast_nonneg x
  simp only [quadIndices, List.map_cons, List.map_nil]
  rw [Int.toNat_of_nonneg (by omega), Int.toNat_of_nonneg (by omega),
    Int.toNat_of_nonneg (by omega), Int.toNat_of_nonneg (by omega)]

/-- Witness for C10: quad `(1, 2)` of the `3 x 4` grid. -/
theorem generateIndices_quad_witness :
    ((((generateIndices 3 4).drop (6 * (2 * (3 - 1) + 1) : Int).toNat).take 6).map
        (fun n : Nat => (n : Int))) =
      [2 * 3 + 1, (2 + 1) * 3 + 1, 2 * 3 + 1 + 1,
       2 * 3 + 1 + 1, (2 + 1) * 3 + 1, (2 + 1) * 3 + 1 + 1] :=
  generateIndices_quad 3 4 1 2 (by decide) (by decide) (by decide) (by decide) (by decide)
    (by decide)

/-- Record `y*width + x` of `generateVertices`, for natural grid coordinates. -/
theorem vertexRecord_at (width height : Int) (spacing : K) (x y : Nat)
    (hx : (x : Int) < width) (hy : (y : Int) < height) :
    ((generateVertices width height spacing).drop (6 * (y * width.toNat + x))).take 6 =
      vertexRecord width height spacing y x := by
  rw [generateVertices_eq_flatMap,
    flatMap_range_range_block (vertexRecord width height spacing)
      (vertexRecord_length width height spacing) _ _ y x (by omega) (by omega)]

end Grid

/-! ## Well-formedness -/

section WellFormedness

variable {K : Type} [LinearOrderedField K]

theorem integrate_length (dt : K) (ps vs : List (Vec3 K)) :
    (integrate dt (ps, vs)).1.length = ps.length ∧
    (integrate dt (ps, vs)).2.length = vs.length := by
  unfold integrate
  apply foldl_invariant (fun s : List (Vec3 K) × List (Vec3 K) =>
    s.1.length = ps.length ∧ s.2.length = vs.length)
  · exact ⟨rfl, rfl⟩
  · intro s i h
    simpa using h

theorem cellStep_length (sqrt : K → K) (width height : Int) (restLength maxCorrection : K)
    (y x : Nat) (ps : List (Vec3 K)) :
    (cellStep sqrt width height restLength maxCorrection y x ps).length = ps.length := by
  unfold cellStep
  simp only
  split_ifs <;> simp [edgeStep_length]

theorem new_positions_length (width height : Int) (spacing : K) :
    (Cloth.new width height spacing).positions.length = (width * height).toNat := by
  unfold Cloth.new
  simp only
  apply foldl_invariant (fun s : List (Vec3 K) => s.length = (width * height).toNat)
  · simp
  · intro s i h
    simpa using h

theorem generateIndices_lt (width height : Int) (i : Nat)
    (hi : i ∈ generateIndices width height) : (i : Int) < width * height := by
  rw [generateIndices_eq_flatMap] at hi
  simp only [List.mem_flatMap, List.mem_range] at hi
  obtain ⟨y, hy, x, hx, hq⟩ := hi
  have hy2 : (y : Int) + 1 ≤ height - 1 := by omega
  have hx2 : (x : Int) + 1 ≤ width - 1 := by omega
  have hw : (0 : Int) ≤ width := by omega
  have hy0 : (0 : Int) ≤ (y : Int) := Int.natCast_nonneg y
  have hx0 : (0 : Int) ≤ (x : Int) := Int.natCast_nonneg x
  have h1 : ((y : Int) + 1) * width ≤ (height - 1) * width :=
    mul_le_mul_of_nonneg_right hy2 hw
  have h2 : (y : Int) * width ≤ ((y : Int) + 1) * width :=
    mul_le_mul_of_nonneg_right (by omega) hw
  have h3 : (0 : Int) ≤ (y : Int) * width := mul_nonneg hy0 hw
  have h4 : (height - 1) * width = width * height - width := by ring
  simp only [quadIndices, List.mem_cons, List.mem_singleton, List.not_mem_nil, or_false] at hq
  rcases hq with h | h | h | h | h | h <;> rw [h, Int.toNat_of_nonneg (by omega)] <;> omega

end WellFormedness

/-! ## The rest state -/

section Rest

variable {K : Type} [LinearOrderedField K]

theorem getD_of_drop_take {A : Type} (l r : List A) (o c k : Nat) (d : A)
    (h : (l.drop o).take c = r) (hk : k < c) : l.getD (o + k) d = r.getD k d := by
  rw [List.getD_eq_getElem?_getD, List.getD_eq_getElem?_getD, ← h,
    List.getElem?_take_of_lt hk, List.getElem?_drop]

/-- A loop `for i < n` that stores a value depending on `i` alone at entry `i`. -/
theorem foldl_range_set {A : Type} (g : Nat → A) (d : A) (l : List A) (n k : Nat)
    (hk : k < l.length) :
    ((List.range n).foldl (fun ps i => ps.set i (g i)) l).length = l.length ∧
    ((List.range n).foldl (fun ps i => ps.set i (g i)) l).getD k d =
      if k < n then g k else l.getD k d := by
  induction n with
  | zero => simp
  | succ n ih =>
    obtain ⟨h1, h2⟩ := ih
    rw [List.range_succ, List.foldl_append]
    simp only [List.foldl_cons, List.foldl_nil, List.length_set]
    refine ⟨h1, ?_⟩
    by_cases hkn : k = n
    · subst hkn
      rw [getD_set_eq _ _ _ _ (by rw [h1]; exact hk)]
      simp
    · rw [getD_set_ne _ _ _ _ _ (Ne.symm hkn), h2]
      by_cases hlt : k < n
      · simp [hlt, Nat.lt_succ_of_lt hlt]
      · have : ¬ k < n + 1 := by omega
        simp [hlt, this]

/-- The positions of a freshly constructed cloth form the centred lattice. -/
theorem new_positions_getD (width height : Int) (spacing : K) (x y : Nat)
    (hx : (x : Int) < width) (hy : (y : Int) < height) :
    (Cloth.new width height spacing).positions.getD (y * width.toNat + x) 0 =
      ⟨(x : K) * spacing - ((width - 1 : Int) : K) * spacing * 0.5, 0,
       (y : K) * spacing - ((height - 1 : Int) : K) * spacing * 0.5⟩ := by
  have hw0 : (0 : Int) ≤ width := by omega
  have hh0 : (0 : Int) ≤ height := by omega
  have hxn : x < width.toNat := by omega
  have hyn : y < height.toNat := by omega
  have hnum : (width * height).toNat = width.toNat * height.toNat := by
    lift width to ℕ using hw0
    lift height to ℕ using hh0
    have h : ((width : Int) * (height : Int)) = ((width * height : Nat) : Int) := by
      push_cast; rfl
    rw [h, Int.toNat_ofNat, Int.toNat_ofNat, Int.toNat_ofNat]
  have hidx : y * width.toNat + x < (width * height).toNat := by
    rw [hnum]
    have : (y + 1) * width.toNat ≤ height.toNat * width.toNat :=
      Nat.mul_le_mul_right _ hyn
    rw [Nat.mul_comm width.toNat height.toNat]
    rw [Nat.succ_mul] at this
    omega
  have hrec := vertexRecord_at width height spacing x y hx hy
  have h0 := getD_of_drop_take _ _ _ 6 0 (0 : K) hrec (by norm_num)
  have h1 := getD_of_drop_take _ _ _ 6 1 (0 : K) hrec (by norm_num)
  have h2 := getD_of_drop_take _ _ _ 6 2 (0 : K) hrec (by norm_num)
  have hfold := (foldl_range_set
    (fun i => (⟨(generateVertices width height spacing).getD (i * 6 + 0) 0,
      (generateVertices width height spacing).getD (i * 6 + 1) 0,
      (generateVertices width height spacing).getD (i * 6 + 2) 0⟩ : Vec3 K)) 0
    (List.replicate (width * height).toNat 0) (width * height).toNat
    (y * width.toNat + x) (by rw [List.length_replicate]; exact hidx)).2
  unfold Cloth.new
  simp only
  rw [hfold]
  simp only [hidx, if_true]
  rw [Nat.mul_comm (y * width.toNat + x) 6, h0, h1, h2]
  simp [vertexRecord]

theorem sqrt_mul_self_of_nonneg {sqrt : K → K} (hs : IsSqrt sqrt) (a : K) (ha : 0 ≤ a) :
    sqrt (a * a) = a := by
  obtain ⟨h1, h2⟩ := hs (a * a) (mul_self_nonneg a)
  exact (mul_self_inj h1 ha).mp h2

/-- An edge whose length already equals the rest length is left alone. -/
theorem edgeStep_at_rest {sqrt : K → K} (hs : IsSqrt sqrt) (restLength : K)
    (hL : 0 < restLength) (ps : List (Vec3 K)) (idx j : Nat)
    (hrest : Vec3.length sqrt (ps.getD j 0 - ps.getD idx 0) = restLength) :
    edgeStep sqrt restLength (restLength * 0.5) idx j ps = ps := by
  unfold edgeStep
  simp only [hrest]
  split_ifs with hd
  · have hcorr : edgeCorr sqrt restLength (restLength * 0.5) (ps.getD j 0 - ps.getD idx 0)
        restLength = 0 := by
      unfold edgeCorr
      have hz : ((ps.getD j 0 - ps.getD idx 0).scale 0.5).scale
          ((restLength - restLength) / restLength) = 0 := by
        ext <;> simp
      simp only [hz, Vec3.length_zero hs]
      have : ¬ (0 > restLength * 0.5) := by
        have : (0 : K) < restLength * 0.5 := by norm_num; exact hL
        exact not_lt.mpr (le_of_lt this)
      simp only [this, if_false]
    rw [hcorr]
    have ha : ∀ a : Vec3 K, a + 0 = a := fun a => by ext <;> simp
    have hb : ∀ a : Vec3 K, a - 0 = a := fun a => by ext <;> simp
    rw [ha, set_getD_self, hb, set_getD_self]
  · rfl

/-- On the lattice of a freshly constructed cloth every structural edge is at rest, so
the structural pass changes nothing. -/
theorem structuralPass_new {sqrt : K → K} (hs : IsSqrt sqrt) (width height : Int)
    (spacing : K) (hsp : 0 < spacing) :
    structuralPass sqrt width height spacing (spacing * 0.5)
      (Cloth.new width height spacing).positions = (Cloth.new width height spacing).positions := by
  unfold structuralPass
  apply foldl_invariant_mem (fun s => s = (Cloth.new width height spacing).positions)
  · rfl
  · intro s y hy hs1
    apply foldl_invariant_mem (fun s => s = (Cloth.new width height spacing).positions)
    · exact hs1
    · intro s x hx hs2
      rw [hs2]
      have hyn : y < height.toNat := List.mem_range.mp hy
      have hxn : x < width.toNat := List.mem_range.mp hx
      have hxw : (x : Int) < width := by omega
      have hyh : (y : Int) < height := by omega
      have hwn : (width.toNat : Int) = width := Int.toNat_of_nonneg (by omega)
      have hidx : ((y : Int) * width + x).toNat = y * width.toNat + x := by
        have : ((y : Int) * width + x) = ((y * width.toNat + x : Nat) : Int) := by
          push_cast; rw [hwn]
        rw [this, Int.toNat_ofNat]
      have hidx1 : ((y : Int) * width + x + 1).toNat = y * width.toNat + (x + 1) := by
        have : ((y : Int) * width + x + 1) = ((y * width.toNat + (x + 1) : Nat) : Int) := by
          push_cast; rw [hwn]; ring
        rw [this, Int.toNat_ofNat]
      have hidxw : ((y : Int) * width + x + width).toNat = (y + 1) * width.toNat + x := by
        have : ((y : Int) * width + x + width) = (((y + 1) * width.toNat + x : Nat) : Int) := by
          push_cast; rw [hwn]; ring
        rw [this, Int.toNat_ofNat]
      have hright : (x : Int) < width - 1 →
          edgeStep sqrt spacing (spacing * 0.5) ((y : Int) * width + x).toNat
            ((y : Int) * width + x + 1).toNat (Cloth.new width height spacing).positions =
          (Cloth.new width height spacing).positions := by
        intro hlt
        apply edgeStep_at_rest hs spacing hsp
        rw [hidx, hidx1, new_positions_getD width height spacing x y hxw hyh,
          new_positions_getD width height spacing (x + 1) y (by push_cast; omega) hyh]
        have hdot : Vec3.dot
            ((⟨((x + 1 : Nat) : K) * spacing - ((width - 1 : Int) : K) * spacing * 0.5, 0,
              (y : K) * spacing - ((height - 1 : Int) : K) * spacing * 0.5⟩ : Vec3 K) -
              ⟨(x : K) * spacing - ((width - 1 : Int) : K) * spacing * 0.5, 0,
              (y : K) * spacing - ((height - 1 : Int) : K) * spacing * 0.5⟩)
            ((⟨((x + 1 : Nat) : K) * spacing - ((width - 1 : Int) : K) * spacing * 0.5, 0,
              (y : K) * spacing - ((height - 1 : Int) : K) * spacing * 0.5⟩ : Vec3 K) -
              ⟨(x : K) * spacing - ((width - 1 : Int) : K) * spacing * 0.5, 0,
              (y : K) * spacing - ((height - 1 : Int) : K) * spacing * 0.5⟩) =
            spacing * spacing := by
          simp only [Vec3.dot, Vec3.sub_x, Vec3.sub_y, Vec3.sub_z]
          push_cast
          ring
        unfold Vec3.length
        rw [hdot, sqrt_mul_self_of_nonneg hs spacing (le_of_lt hsp)]
      have hdown : (y : Int) < height - 1 →
          edgeStep sqrt spacing (spacing * 0.5) ((y : Int) * width + x).toNat
            ((y : Int) * width + x + width).toNat (Cloth.new width height spacing).positions =
          (Cloth.new width height spacing).positions := by
        intro hlt
        apply edgeStep_at_rest hs spacing hsp
        rw [hidx, hidxw, new_positions_getD width height spacing x y hxw hyh,
          new_positions_getD width height spacing x (y + 1) hxw (by push_cast; omega)]
        have hdot : Vec3.dot
            ((⟨(x : K) * spacing - ((width - 1 : Int) : K) * spacing * 0.5, 0,
              ((y + 1 : Nat) : K) * spacing - ((height - 1 : Int) : K) * spacing * 0.5⟩ :
                Vec3 K) -
              ⟨(x : K) * spacing - ((width - 1 : Int) : K) * spacing * 0.5, 0,
              (y : K) * spacing - ((height - 1 : Int) : K) * spacing * 0.5⟩)
            ((⟨(x : K) * spacing - ((width - 1 : Int) : K) * spacing * 0.5, 0,
              ((y + 1 : Nat) : K) * spacing - ((height - 1 : Int) : K) * spacing * 0.5⟩ :
                Vec3 K) -
              ⟨(x : K) * spacing - ((width - 1 : Int) : K) * spacing * 0.5, 0,
              (y : K) * spacing - ((height - 1 : Int) : K) * spacing * 0.5⟩) =
            spacing * spacing := by
          simp only [Vec3.dot, Vec3.sub_x, Vec3.sub_y, Vec3.sub_z]
          push_cast
          ring
        unfold Vec3.length
        rw [hdot, sqrt_mul_self_of_nonneg hs spacing (le_of_lt hsp)]
      unfold cellStep
      simp only
      by_cases h1 : (x : Int) < width - 1
      · simp only [h1, if_true]
        rw [hright h1]
        by_cases h2 : (y : Int) < height - 1
        · simp only [h2, if_true]; exact hdown h2
        · simp only [h2, if_false]
      · simp only [h1, if_false]
        by_cases h2 : (y : Int) < height - 1
        · simp only [h2, if_true]; exact hdown h2
        · simp only [h2, if_false]

theorem getD_replicate_zero (n i : Nat) : (List.replicate n (0 : Vec3 K)).getD i 0 = 0 := by
  rw [List.getD_eq_getElem?_getD, List.getElem?_replicate]
  split_ifs <;> rfl

/-- Integration with `deltaTime = 0` from zero velocities changes nothing. -/
theorem integrate_zero (ps : List (Vec3 K)) (n : Nat) :
    integrate 0 (ps, List.replicate n (0 : Vec3 K)) = (ps, List.replicate n 0) := by
  unfold integrate
  apply foldl_invariant (fun s => s = (ps, List.replicate n (0 : Vec3 K)))
  · rfl
  · intro s i hs
    rw [hs]
    have h1 : (0 : Vec3 K) + (gravity : Vec3 K).scale 0 = 0 := by ext <;> simp
    have h2 : ((0 : Vec3 K)).scale damping = 0 := by ext <;> simp
    have h3 : ∀ a : Vec3 K, a + (0 : Vec3 K).scale 0 = a := fun a => by ext <;> simp
    simp only [getD_replicate_zero, h1, h2, h3, set_getD_self]
    have h4 : (List.replicate n (0 : Vec3 K)).set i 0 = List.replicate n 0 := by
      have := set_getD_self (List.replicate n (0 : Vec3 K)) i 0
      rw [getD_replicate_zero] at this
      exact this
    simp only [h4, getD_replicate_zero, h2, h3, set_getD_self]

/-- One `Cloth::update` with `deltaTime = 0` on the rest state of a fresh cloth keeps
positions, velocities and configuration. -/
theorem update_rest {sqrt : K → K} (hs : IsSqrt sqrt) (width height : Int) (spacing : K)
    (hsp : 0 < spacing) (worldOffset : Vec3 K)
    (hout : ∀ p, p ∈ (Cloth.new width height spacing).positions →
      ¬ insideCube (p + worldOffset))
    (c : Cloth K)
    (hc : c.positions = (Cloth.new width height spacing).positions ∧
      c.velocities = List.replicate (width * height).toNat 0 ∧
      c.clothWidth = width ∧ c.clothHeight = height ∧ c.spacing = spacing ∧
      c.position = worldOffset) :
    (c.update sqrt 0).positions = (Cloth.new width height spacing).positions ∧
    (c.update sqrt 0).velocities = List.replicate (width * height).toNat 0 ∧
    (c.update sqrt 0).clothWidth = width ∧ (c.update sqrt 0).clothHeight = height ∧
    (c.update sqrt 0).spacing = spacing ∧ (c.update sqrt 0).position = worldOffset := by
  obtain ⟨h1, h2, h3, h4, h5, h6⟩ := hc
  have hrel : relaxIter sqrt width height spacing (spacing * 0.5) worldOffset
      ((Cloth.new width height spacing).positions, List.replicate (width * height).toNat 0) =
      ((Cloth.new width height spacing).positions, List.replicate (width * height).toNat 0) := by
    unfold relaxIter
    simp only
    rw [structuralPass_new hs width height spacing hsp]
    exact collisionPass_no_inside worldOffset _ _ hout
  have hloop : (List.range constraintIterations).foldl (fun pv _ =>
      relaxIter sqrt width height spacing (spacing * 0.5) worldOffset pv)
      ((Cloth.new width height spacing).positions, List.replicate (width * height).toNat 0) =
      ((Cloth.new width height spacing).positions, List.replicate (width * height).toNat 0) := by
    apply foldl_invariant (fun s => s = ((Cloth.new width height spacing).positions,
      List.replicate (width * height).toNat (0 : Vec3 K)))
    · rfl
    · intro s _ hs2
      rw [hs2]; exact hrel
  unfold Cloth.update Cloth.recomputeNormals
  simp only [h1, h2, h3, h4, h5, h6, integrate_zero, hloop, and_self]

/-- C6: a freshly constructed cloth (zero velocities, `spacing > 0`) whose world offset
puts no point strictly inside the cube keeps, after any number `n` of `Cloth::update`
steps with `deltaTime = 0`, every position unchanged and every velocity zero. -/
theorem update_zero_deltaTime_fixed {sqrt : K → K} (hs : IsSqrt sqrt) (width height : Int)
    (spacing : K) (hsp : 0 < spacing) (worldOffset : Vec3 K)
    (hout : ∀ p, p ∈ (Cloth.new width height spacing).positions →
      ¬ insideCube (p + worldOffset))
    (n : Nat) :
    ((Cloth.update sqrt 0)^[n]
        ((Cloth.new width height spacing).setPosition worldOffset)).positions =
      (Cloth.new width height spacing).positions ∧
    (∀ v, v ∈ ((Cloth.update sqrt 0)^[n]
        ((Cloth.new width height spacing).setPosition worldOffset)).velocities → v = 0) := by
  have hinv : ∀ n : Nat,
      ((Cloth.update sqrt 0)^[n]
          ((Cloth.new width height spacing).setPosition worldOffset)).positions =
        (Cloth.new width height spacing).positions ∧
      ((Cloth.update sqrt 0)^[n]
          ((Cloth.new width height spacing).setPosition worldOffset)).velocities =
        List.replicate (width * height).toNat 0 ∧
      ((Cloth.update sqrt 0)^[n]
          ((Cloth.new width height spacing).setPosition worldOffset)).clothWidth = width ∧
      ((Cloth.update sqrt 0)^[n]
          ((Cloth.new width height spacing).setPosition worldOffset)).clothHeight = height ∧
      ((Cloth.update sqrt 0)^[n]
          ((Cloth.new width height spacing).setPosition worldOffset)).spacing = spacing ∧
      ((Cloth.update sqrt 0)^[n]
          ((Cloth.new width height spacing).setPosition worldOffset)).position =
        worldOffset := by
    intro n
    induction n with
    | zero => exact ⟨rfl, rfl, rfl, rfl, rfl, rfl⟩
    | succ n ih =>
      rw [Function.iterate_succ_apply']
      exact update_rest hs width height spacing hsp worldOffset hout _ ih
  obtain ⟨h1, h2, _⟩ := hinv n
  refine ⟨h1, fun v hv => ?_⟩
  rw [h2] at hv
  exact List.eq_of_mem_replicate hv

/-- The lattice of the `2 x 2` cloth with `spacing = 1`. -/
theorem sample_new_positions :
    (Cloth.new 2 2 (1 : ℝ)).positions =
      [⟨-0.5, 0, -0.5⟩, ⟨0.5, 0, -0.5⟩, ⟨-0.5, 0, 0.5⟩, ⟨0.5, 0, 0.5⟩] := by
  simp [Cloth.new, generateVertices, List.range_succ, List.replicate]
  norm_num

/-- With world offset `(0,5,0)` no point of the `2 x 2` cloth is inside the cube. -/
theorem sample_new_outside (p : Vec3 ℝ) (hp : p ∈ (Cloth.new 2 2 (1 : ℝ)).positions) :
    ¬ insideCube (p + ⟨0, 5, 0⟩) := by
  rw [sample_new_positions] at hp
  simp only [List.mem_cons, List.mem_singleton, List.not_mem_nil, or_false] at hp
  intro hin
  obtain ⟨_, _, _, h4, _, _⟩ := hin
  rcases hp with h | h | h | h <;> rw [h] at h4 <;>
    simp only [Vec3.add_y, cubeMax] at h4 <;> norm_num at h4

/-- Witness for C6: three steps of the `2 x 2` cloth with `spacing = 1`, five units above
the cube centre, over the reals. -/
theorem update_zero_deltaTime_fixed_witness :
    ((Cloth.update Real.sqrt 0)^[3]
        ((Cloth.new 2 2 (1 : ℝ)).setPosition ⟨0, 5, 0⟩)).positions =
      (Cloth.new 2 2 (1 : ℝ)).positions ∧
    (∀ v, v ∈ ((Cloth.update Real.sqrt 0)^[3]
        ((Cloth.new 2 2 (1 : ℝ)).setPosition ⟨0, 5, 0⟩)).velocities → v = 0) :=
  update_zero_deltaTime_fixed isSqrt_real 2 2 (1 : ℝ) one_pos ⟨0, 5, 0⟩ sample_new_outside 3

end Rest

/-! ## Degenerate grids and the frame of the collision pass -/

section Frame

variable {K : Type} [LinearOrderedField K]

/-- For `width, height ≥ 1` neither `reserve` call throws, and the two generators are
their loops. -/
theorem generateChecked_eq (width height : Int) (spacing : K) (hw : 1 ≤ width)
    (hh : 1 ≤ height) :
    generateVerticesChecked width height spacing = some (generateVertices width height spacing) ∧
    generateIndicesChecked width height = some (generateIndices width height) := by
  have h1 : ¬ width * height * 6 < 0 := by
    have : 0 ≤ width * height := mul_nonneg (by omega) (by omega)
    omega
  have h2 : ¬ (width - 1) * (height - 1) * 6 < 0 := by
    have : 0 ≤ (width - 1) * (height - 1) := mul_nonneg (by omega) (by omega)
    omega
  simp only [generateVerticesChecked, generateIndicesChecked, h1, h2, if_false, and_self]

/-- With `width < 2` or `height < 2` the loops of `generateIndices` push nothing. -/
theorem generateIndices_loops_empty (width height : Int) (h : width < 2 ∨ height < 2) :
    generateIndices width height = [] := by
  rw [generateIndices_eq_flatMap]
  rcases h with h | h
  · have hw : (width - 1).toNat = 0 := Int.toNat_eq_zero.mpr (by omega)
    rw [hw]
    simp
  · have hh : (height - 1).toNat = 0 := Int.toNat_eq_zero.mpr (by omega)
    rw [hh]
    simp

/-- Counterexample to C11 as stated: `width = 2`, `height = 0` has `height < 2`, but the
argument of `reserve` is `(2 - 1) * (0 - 1) * 6 = -6`, so `generateIndices(2, 0)` throws
`std::length_error` instead of returning the empty index list; the same happens for
`(0, 2)` and `(4, -3)`. -/
theorem generateIndices_degenerate_counterexample :
    ((2 : Int) < 2 ∨ (0 : Int) < 2) ∧ ((2 : Int) - 1) * ((0 : Int) - 1) * 6 = -6 ∧
    generateIndicesChecked 2 0 = none ∧ generateIndicesChecked 2 0 ≠ some [] ∧
    generateIndicesChecked 0 2 = none ∧ generateIndicesChecked 4 (-3) = none := by
  refine ⟨Or.inr (by decide), by decide, ?_, ?_, ?_, ?_⟩ <;> simp [generateIndicesChecked]

/-- C11 (amended): for all integers `width`, `height` with `width < 2` or `height < 2`
for which the argument of the `reserve` call is not negative,
`(width - 1) * (height - 1) ≥ 0` (that is `width = 1`, or `height = 1`, or both at most
`1`), `generateIndices` returns the empty index list. -/
theorem generateIndices_degenerate (width height : Int) (h : width < 2 ∨ height < 2)
    (hr : 0 ≤ (width - 1) * (height - 1)) :
    generateIndicesChecked width height = some [] := by
  have h1 : ¬ (width - 1) * (height - 1) * 6 < 0 := by omega
  simp only [generateIndicesChecked, h1, if_false, generateIndices_loops_empty width height h]

/-- Witness for C11: a single column of five points, a single row of three points, the
single point, and the empty grid `0 x 0`. -/
theorem generateIndices_degenerate_witness :
    generateIndicesChecked 1 5 = some [] ∧ generateIndicesChecked 3 1 = some [] ∧
    generateIndicesChecked 1 1 = some [] ∧ generateIndicesChecked 0 0 = some [] :=
  ⟨generateIndices_degenerate 1 5 (Or.inl (by decide)) (by decide),
   generateIndices_degenerate 3 1 (Or.inr (by decide)) (by decide),
   generateIndices_degenerate 1 1 (Or.inl (by decide)) (by decide),
   generateIndices_degenerate 0 0 (Or.inl (by decide)) (by decide)⟩

/-- C12: a point whose world position is not strictly inside the cube (a point on a
face plane included) keeps its position and its velocity in the collision pass, and the
loop body for point `i` changes the position and velocity of no other point `k`. -/
theorem collisionPass_frame (worldOffset : Vec3 K) (positions velocities : List (Vec3 K))
    (hv : velocities.length = positions.length) :
    (∀ i, i < positions.length → ¬ insideCube (positions.getD i 0 + worldOffset) →
      (collisionPass worldOffset (positions, velocities)).1.getD i 0 = positions.getD i 0 ∧
      (collisionPass worldOffset (positions, velocities)).2.getD i 0 = velocities.getD i 0) ∧
    (∀ (s : List (Vec3 K) × List (Vec3 K)) (i k : Nat), k ≠ i →
      (collideAt worldOffset s i).1.getD k 0 = s.1.getD k 0 ∧
      (collideAt worldOffset s i).2.getD k 0 = s.2.getD k 0) := by
  refine ⟨fun i hi hout => ?_, fun s i k hk => collideAt_ne worldOffset s i k hk⟩
  obtain ⟨_, _, h⟩ := collisionPass_pointwise worldOffset positions velocities i hi (by omega)
  simp only [collidePoint, hout, if_false] at h
  exact ⟨congrArg Prod.fst h, congrArg Prod.snd h⟩

/-- Witness for C12: one point on the right face plane, one at the cube centre. -/
theorem collisionPass_frame_witness :
    (∀ i, i < ([⟨0.55, 0, 0⟩, ⟨0, 0, 0⟩] : List (Vec3 ℚ)).length →
      ¬ insideCube (([⟨0.55, 0, 0⟩, ⟨0, 0, 0⟩] : List (Vec3 ℚ)).getD i 0 + ⟨0, 0, 0⟩) →
      (collisionPass (⟨0, 0, 0⟩ : Vec3 ℚ)
        ([⟨0.55, 0, 0⟩, ⟨0, 0, 0⟩], [⟨-1, 0, 0⟩, ⟨0, 0, 0⟩])).1.getD i 0 =
          ([⟨0.55, 0, 0⟩, ⟨0, 0, 0⟩] : List (Vec3 ℚ)).getD i 0 ∧
      (collisionPass (⟨0, 0, 0⟩ : Vec3 ℚ)
        ([⟨0.55, 0, 0⟩, ⟨0, 0, 0⟩], [⟨-1, 0, 0⟩, ⟨0, 0, 0⟩])).2.getD i 0 =
          ([⟨-1, 0, 0⟩, ⟨0, 0, 0⟩] : List (Vec3 ℚ)).getD i 0) ∧
    (∀ (s : List (Vec3 ℚ) × List (Vec3 ℚ)) (i k : Nat), k ≠ i →
      (collideAt (⟨0, 0, 0⟩ : Vec3 ℚ) s i).1.getD k 0 = s.1.getD k 0 ∧
      (collideAt (⟨0, 0, 0⟩ : Vec3 ℚ) s i).2.getD k 0 = s.2.getD k 0) :=
  collisionPass_frame (⟨0, 0, 0⟩ : Vec3 ℚ) [⟨0.55, 0, 0⟩, ⟨0, 0, 0⟩]
    [⟨-1, 0, 0⟩, ⟨0, 0, 0⟩] rfl

end Frame

/-! ## The constraint pass divides by no zero -/

section Checked

variable {K : Type} [LinearOrderedField K]

theorem foldlM_some {S T : Type} (f : S → T → S) (g : S → T → Option S) (l : List T)
    (h : ∀ s t, g s t = some (f s t)) (s : S) : l.foldlM g s = some (l.foldl f s) := by
  induction l generalizing s with
  | nil => rfl
  | cons t l ih =>
    rw [List.foldlM_cons, h]
    exact ih (f s t)

theorem edgeCorrChecked_eq (sqrt : K → K) (restLength maxCorrection : K)
    (hM : 0 < maxCorrection) (delta : Vec3 K) (d : K) (hd : d ≠ 0) :
    edgeCorrChecked sqrt restLength maxCorrection delta d =
      some (edgeCorr sqrt restLength maxCorrection delta d) := by
  unfold edgeCorrChecked edgeCorr checkedDiv
  simp only [hd, if_false, Option.some_bind]
  split_ifs with hc h0
  · exfalso
    unfold Vec3.length at hc
    rw [h0] at hc
    exact absurd (lt_trans hM hc) (lt_irrefl 0)
  · rfl
  · rfl

theorem edgeStepChecked_eq (sqrt : K → K) (restLength maxCorrection : K)
    (hM : 0 < maxCorrection) (idx j : Nat) (ps : List (Vec3 K)) :
    edgeStepChecked sqrt restLength maxCorrection idx j ps =
      some (edgeStep sqrt restLength maxCorrection idx j ps) := by
  unfold edgeStepChecked edgeStep
  simp only
  split_ifs with hd
  · have h0 : Vec3.length sqrt (ps.getD j 0 - ps.getD idx 0) ≠ 0 :=
      ne_of_gt (lt_trans (by norm_num) hd)
    rw [edgeCorrChecked_eq sqrt restLength maxCorrection hM _ _ h0]
    rfl
  · rfl

theorem cellStepChecked_eq (sqrt : K → K) (width height : Int) (restLength maxCorrection : K)
    (hM : 0 < maxCorrection) (y x : Nat) (ps : List (Vec3 K)) :
    cellStepChecked sqrt width height restLength maxCorrection y x ps =
      some (cellStep sqrt width height restLength maxCorrection y x ps) := by
  unfold cellStepChecked cellStep
  simp only [edgeStepChecked_eq sqrt restLength maxCorrection hM]
  split_ifs <;> rfl

theorem structuralPassChecked_eq (sqrt : K → K) (width height : Int)
    (restLength maxCorrection : K) (hM : 0 < maxCorrection) (ps : List (Vec3 K)) :
    structuralPassChecked sqrt width height restLength maxCorrection ps =
      some (structuralPass sqrt width height restLength maxCorrection ps) := by
  unfold structuralPassChecked structuralPass
  apply foldlM_some
  intro s y
  apply foldlM_some
  intro s x
  exact cellStepChecked_eq sqrt width height restLength maxCorrection hM y x s

/-- C16: with `spacing > 0` the structural pass, read with every division checked,
never meets a zero divisor and computes what the unchecked pass computes; the division
by `d` stands under the guard `d > 1e-7`, where `d ≠ 0`; a vector `corr` that is
normalised has `|corr| > maxCorrection > 0`, so its length is not zero and `corr ≠ 0`;
and an edge with `d ≤ 1e-7` is skipped, leaving the position vector as it was. -/
theorem structuralPass_no_zero_division {sqrt : K → K} (hs : IsSqrt sqrt) (spacing : K)
    (hsp : 0 < spacing) :
    (∀ (width height : Int) (positions : List (Vec3 K)),
      structuralPassChecked sqrt width height spacing (spacing * 0.5) positions =
        some (structuralPass sqrt width height spacing (spacing * 0.5) positions)) ∧
    (∀ (positions : List (Vec3 K)) (idx j : Nat),
      edgeStepChecked sqrt spacing (spacing * 0.5) idx j positions =
        some (edgeStep sqrt spacing (spacing * 0.5) idx j positions)) ∧
    (∀ d : K, d > 1e-7 → d ≠ 0) ∧
    (∀ corr : Vec3 K, Vec3.length sqrt corr > spacing * 0.5 →
      0 < spacing * 0.5 ∧ sqrt (Vec3.dot corr corr) ≠ 0 ∧ corr ≠ 0) ∧
    (∀ (positions : List (Vec3 K)) (idx j : Nat),
      ¬ Vec3.length sqrt (positions.getD j 0 - positions.getD idx 0) > 1e-7 →
      edgeStep sqrt spacing (spacing * 0.5) idx j positions = positions) := by
  have hM : (0 : K) < spacing * 0.5 := by norm_num; exact hsp
  refine ⟨fun w h ps => structuralPassChecked_eq sqrt w h spacing _ hM ps,
    fun ps idx j => edgeStepChecked_eq sqrt spacing _ hM idx j ps,
    fun d hd => ne_of_gt (lt_trans (by norm_num) hd),
    fun corr hc => ⟨hM, ne_of_gt (lt_trans hM hc), ?_⟩,
    fun ps idx j hd => edgeStep_skip sqrt spacing _ ps idx j hd⟩
  intro h0
  rw [h0, Vec3.length_zero hs] at hc
  exact absurd (lt_trans hM hc) (lt_irrefl 0)

/-- Witness for C16: `spacing = 1` over the reals. -/
theorem structuralPass_no_zero_division_witness :
    (∀ (width height : Int) (positions : List (Vec3 ℝ)),
      structuralPassChecked Real.sqrt width height 1 (1 * 0.5) positions =
        some (structuralPass Real.sqrt width height 1 (1 * 0.5) positions)) ∧
    (∀ (positions : List (Vec3 ℝ)) (idx j : Nat),
      edgeStepChecked Real.sqrt 1 (1 * 0.5) idx j positions =
        some (edgeStep Real.sqrt 1 (1 * 0.5) idx j positions)) ∧
    (∀ d : ℝ, d > 1e-7 → d ≠ 0) ∧
    (∀ corr : Vec3 ℝ, Vec3.length Real.sqrt corr > 1 * 0.5 →
      0 < (1 : ℝ) * 0.5 ∧ Real.sqrt (Vec3.dot corr corr) ≠ 0 ∧ corr ≠ 0) ∧
    (∀ (positions : List (Vec3 ℝ)) (idx j : Nat),
      ¬ Vec3.length Real.sqrt (positions.getD j 0 - positions.getD idx 0) > 1e-7 →
      edgeStep Real.sqrt 1 (1 * 0.5) idx j positions = positions) :=
  structuralPass_no_zero_division isSqrt_real (1 : ℝ) one_pos

end Checked

/-! ## Exact projection of one edge -/

section Projection

variable {K : Type} [LinearOrderedField K]

/-- Length of the unclamped correction vector: half the error of the edge. -/
theorem unclamped_corr_length {sqrt : K → K} (hs : IsSqrt sqrt) (restLength : K)
    (delta : Vec3 K) (hd : 0 < Vec3.length sqrt delta) :
    Vec3.length sqrt ((delta.scale 0.5).scale
        ((Vec3.length sqrt delta - restLength) / Vec3.length sqrt delta)) =
      0.5 * |Vec3.length sqrt delta - restLength| := by
  rw [Vec3.scale_scale, Vec3.length_scale hs]
  generalize Vec3.length sqrt delta = d at hd ⊢
  rw [abs_mul, abs_div, abs_of_pos hd]
  have h5 : |(0.5 : K)| = 0.5 := abs_of_pos (by norm_num)
  rw [h5]
  field_simp

/-- The edge from `(0,0,0)` to `(5e-8,0,0)` has length `5e-8`. -/
theorem tiny_edge_length :
    Vec3.length Real.sqrt ((⟨5e-8, 0, 0⟩ : Vec3 ℝ) - ⟨0, 0, 0⟩) = 5e-8 := by
  have h : Vec3.dot ((⟨5e-8, 0, 0⟩ : Vec3 ℝ) - ⟨0, 0, 0⟩) ((⟨5e-8, 0, 0⟩ : Vec3 ℝ) - ⟨0, 0, 0⟩) =
      5e-8 * 5e-8 := by
    simp [Vec3.dot]
  unfold Vec3.length
  rw [h]
  exact Real.sqrt_mul_self (by norm_num)

/-- Counterexample for C18: with `spacing = restLength = 1e-8` the edge from `(0,0,0)` to
`(5e-8,0,0)` has `d = 5e-8 > 2 * restLength`, yet `d ≤ 1e-7`, so the edge is skipped and
the distance stays `5e-8` instead of becoming `d - restLength = 4e-8`. -/
theorem edgeStep_clamped_counterexample :
    (0 : ℝ) < 1e-8 ∧
    Vec3.length Real.sqrt ((⟨5e-8, 0, 0⟩ : Vec3 ℝ) - ⟨0, 0, 0⟩) > 2 * 1e-8 ∧
    Vec3.length Real.sqrt
        ((edgeStep Real.sqrt 1e-8 (1e-8 * 0.5) 0 1 [⟨0, 0, 0⟩, ⟨5e-8, 0, 0⟩]).getD 1 0 -
          (edgeStep Real.sqrt 1e-8 (1e-8 * 0.5) 0 1 [⟨0, 0, 0⟩, ⟨5e-8, 0, 0⟩]).getD 0 0) ≠
      Vec3.length Real.sqrt ((⟨5e-8, 0, 0⟩ : Vec3 ℝ) - ⟨0, 0, 0⟩) - 1e-8 := by
  have hskip : edgeStep Real.sqrt 1e-8 (1e-8 * 0.5) 0 1
      ([⟨0, 0, 0⟩, ⟨5e-8, 0, 0⟩] : List (Vec3 ℝ)) = [⟨0, 0, 0⟩, ⟨5e-8, 0, 0⟩] := by
    apply edgeStep_skip
    simp only [List.getD_cons_zero, List.getD_cons_succ]
    rw [tiny_edge_length]
    norm_num
  rw [hskip]
  simp only [List.getD_cons_zero, List.getD_cons_succ]
  rw [tiny_edge_length]
  refine ⟨by norm_num, by norm_num, by norm_num⟩

/-- C18 (amended): for `spacing = restLength > 0` and an edge that is not skipped
(`d > 1e-7`): if `d ≤ 2 * restLength` the correction is not clamped and the new distance
is exactly `restLength`; if `d > 2 * restLength` the correction is clamped to length
`restLength * 0.5` and the new distance is `d - restLength`; in both cases the new
difference vector is a positive multiple of the old one. -/
theorem edgeStep_exact_projection {sqrt : K → K} (hs : IsSqrt sqrt) (spacing : K)
    (hsp : 0 < spacing) (positions : List (Vec3 K)) (idx j : Nat)
    (hidx : idx < positions.length) (hj : j < positions.length) (hne : idx ≠ j)
    (delta delta' : Vec3 K) (d : K)
    (hdelta : delta = positions.getD j 0 - positions.getD idx 0)
    (hdelta' : delta' = (edgeStep sqrt spacing (spacing * 0.5) idx j positions).getD j 0 -
      (edgeStep sqrt spacing (spacing * 0.5) idx j positions).getD idx 0)
    (hd : d = Vec3.length sqrt delta) (hgt : d > 1e-7) :
    (d ≤ 2 * spacing →
      ¬ (Vec3.length sqrt ((delta.scale 0.5).scale ((d - spacing) / d)) > spacing * 0.5) ∧
      edgeCorr sqrt spacing (spacing * 0.5) delta d =
        (delta.scale 0.5).scale ((d - spacing) / d) ∧
      Vec3.length sqrt delta' = spacing ∧
      delta' = delta.scale (spacing / d) ∧ 0 < spacing / d) ∧
    (2 * spacing < d →
      Vec3.length sqrt ((delta.scale 0.5).scale ((d - spacing) / d)) > spacing * 0.5 ∧
      edgeCorr sqrt spacing (spacing * 0.5) delta d =
        (Vec3.normalize sqrt ((delta.scale 0.5).scale ((d - spacing) / d))).scale
          (spacing * 0.5) ∧
      Vec3.length sqrt (edgeCorr sqrt spacing (spacing * 0.5) delta d) = spacing * 0.5 ∧
      Vec3.length sqrt delta' = d - spacing ∧
      delta' = delta.scale ((d - spacing) / d) ∧ 0 < (d - spacing) / d) := by
  have hpos : 0 < d := lt_trans (by norm_num) hgt
  have hgt2 : Vec3.length sqrt (positions.getD j 0 - positions.getD idx 0) > 1e-7 := by
    rw [← hdelta, ← hd]; exact hgt
  have hnd := edgeStep_new_delta hs spacing hsp positions idx j hidx hj hne hgt2
  have hdist := edgeStep_new_distance hs spacing hsp positions idx j hidx hj hne hgt2
  rw [← hdelta', ← hdelta, ← hd] at hnd hdist
  have hlen : Vec3.length sqrt ((delta.scale 0.5).scale ((d - spacing) / d)) =
      0.5 * |d - spacing| := by
    have := unclamped_corr_length hs spacing delta (by rw [← hd]; exact hpos)
    rw [← hd] at this
    exact this
  constructor
  · intro hle
    have habs : |d - spacing| ≤ spacing := by
      rw [abs_le]; constructor <;> linarith
    have hnot : ¬ (Vec3.length sqrt ((delta.scale 0.5).scale ((d - spacing) / d)) >
        spacing * 0.5) := by
      rw [hlen]
      intro h
      have : spacing * 0.5 < 0.5 * spacing := lt_of_lt_of_le h
        (mul_le_mul_of_nonneg_left habs (by norm_num))
      linarith
    simp only [hle, if_true] at hnd hdist
    refine ⟨hnot, ?_, hdist, hnd, div_pos hsp hpos⟩
    unfold edgeCorr
    simp only [hnot, if_false]
  · intro hlt
    have habs : |d - spacing| = d - spacing := abs_of_pos (by linarith)
    have hyes : Vec3.length sqrt ((delta.scale 0.5).scale ((d - spacing) / d)) >
        spacing * 0.5 := by
      rw [hlen, habs]
      have h2 : (0 : K) < 0.5 * (d - 2 * spacing) := mul_pos (by norm_num) (by linarith)
      have : (0.5 : K) * (d - spacing) - spacing * 0.5 = 0.5 * (d - 2 * spacing) := by ring
      linarith
    have hncase : ¬ d ≤ 2 * spacing := not_le.mpr hlt
    simp only [hncase, if_false] at hnd hdist
    have hcorr : edgeCorr sqrt spacing (spacing * 0.5) delta d =
        (Vec3.normalize sqrt ((delta.scale 0.5).scale ((d - spacing) / d))).scale
          (spacing * 0.5) := by
      unfold edgeCorr
      simp only [hyes, if_true]
    have hM : (0 : K) < spacing * 0.5 := by norm_num; exact hsp
    have hclen : Vec3.length sqrt (edgeCorr sqrt spacing (spacing * 0.5) delta d) =
        spacing * 0.5 := by
      rw [hcorr]
      unfold Vec3.normalize
      rw [Vec3.length_scale hs, Vec3.length_scale hs]
      have hl2 : sqrt (Vec3.dot ((delta.scale 0.5).scale ((d - spacing) / d))
          ((delta.scale 0.5).scale ((d - spacing) / d))) = 0.5 * |d - spacing| := hlen
      rw [hl2, hlen, habs, abs_of_pos hM]
      have hne0 : (0.5 : K) * (d - spacing) ≠ 0 :=
        ne_of_gt (mul_pos (by norm_num) (by linarith))
      rw [abs_of_pos (one_div_pos.mpr (lt_of_le_of_ne (le_of_lt
        (mul_pos (by norm_num) (by linarith))) (Ne.symm hne0)))]
      field_simp
    exact ⟨hyes, hcorr, hclen, hdist, hnd, div_pos (by linarith) hpos⟩

/-- Witness for C18 (amended): the edge from `(0,0,0)` to `(3,0,0)` with `spacing = 1` is
clamped and ends at distance `3 - 1`. -/
theorem edgeStep_exact_projection_witness :
    Vec3.length Real.sqrt
        ((edgeStep Real.sqrt 1 (1 * 0.5) 0 1 [⟨0, 0, 0⟩, ⟨3, 0, 0⟩]).getD 1 0 -
          (edgeStep Real.sqrt 1 (1 * 0.5) 0 1 [⟨0, 0, 0⟩, ⟨3, 0, 0⟩]).getD 0 0) =
      Vec3.length Real.sqrt (([⟨0, 0, 0⟩, ⟨3, 0, 0⟩] : List (Vec3 ℝ)).getD 1 0 -
        ([⟨0, 0, 0⟩, ⟨3, 0, 0⟩] : List (Vec3 ℝ)).getD 0 0) - 1 :=
  ((edgeStep_exact_projection isSqrt_real (1 : ℝ) one_pos [⟨0, 0, 0⟩, ⟨3, 0, 0⟩] 0 1
    (by simp) (by simp) (by decide) _ _ _ rfl rfl rfl
    (by simp only [List.getD_cons_zero, List.getD_cons_succ]
        rw [sample_edge_length]; norm_num)).2
    (by simp only [List.getD_cons_zero, List.getD_cons_succ]
        rw [sample_edge_length]; norm_num)).2.2.2.1

end Projection

/-! ## Centroid conservation -/

section Centroid

variable {K : Type} [LinearOrderedField K]

theorem foldl_add_coord (f : Vec3 K → K) (hadd : ∀ a b, f (a + b) = f a + f b)
    (ps : List (Vec3 K)) (a : Vec3 K) :
    f (ps.foldl (fun acc p => acc + p) a) = f a + (ps.map f).sum := by
  induction ps generalizing a with
  | nil => simp
  | cons p ps ih =>
    simp only [List.foldl_cons, List.map_cons, List.sum_cons]
    rw [ih, hadd]
    ring

theorem sum_map_set (f : Vec3 K → K) (l : List (Vec3 K)) (i : Nat) (a : Vec3 K)
    (hi : i < l.length) :
    ((l.set i a).map f).sum = (l.map f).sum - f (l.getD i 0) + f a := by
  induction l generalizing i with
  | nil => simp at hi
  | cons p l ih =>
    cases i with
    | zero =>
      simp only [List.set_cons_zero, List.map_cons, List.sum_cons, List.getD_cons_zero]
      ring
    | succ i =>
      have hi2 : i < l.length := by simpa using hi
      simp only [List.set_cons_succ, List.map_cons, List.sum_cons, List.getD_cons_succ]
      rw [ih i hi2]
      ring

/-- One edge correction keeps every additive coordinate of the sum of positions. -/
theorem edgeStep_sum_coord (f : Vec3 K → K) (hadd : ∀ a b, f (a + b) = f a + f b)
    (hsub : ∀ a b, f (a - b) = f a - f b) (sqrt : K → K) (restLength maxCorrection : K)
    (ps : List (Vec3 K)) (idx j : Nat) (hidx : idx < ps.length) (hj : j < ps.length)
    (hne : idx ≠ j) :
    ((edgeStep sqrt restLength maxCorrection idx j ps).map f).sum = (ps.map f).sum := by
  unfold edgeStep
  simp only
  split_ifs with hd
  · rw [sum_map_set f _ j _ (by simpa using hj), sum_map_set f _ idx _ hidx,
      getD_set_ne _ _ _ _ _ hne, hadd, hsub]
    ring
  · rfl

theorem cellStep_sum_coord (f : Vec3 K → K) (hadd : ∀ a b, f (a + b) = f a + f b)
    (hsub : ∀ a b, f (a - b) = f a - f b) (sqrt : K → K) (width height : Int)
    (restLength maxCorrection : K) (y x : Nat) (hy : y < height.toNat) (hx : x < width.toNat)
    (ps : List (Vec3 K)) (hlen : (ps.length : Int) = width * height) :
    ((cellStep sqrt width height restLength maxCorrection y x ps).map f).sum =
      (ps.map f).sum := by
  have hw : (1 : Int) ≤ width := by omega
  have hh : (1 : Int) ≤ height := by omega
  have hy0 : (0 : Int) ≤ (y : Int) := Int.natCast_nonneg y
  have hx0 : (0 : Int) ≤ (x : Int) := Int.natCast_nonneg x
  have hyw : (0 : Int) ≤ (y : Int) * width := mul_nonneg hy0 (by omega)
  have h1 : ((y : Int) + 1) * width ≤ height * width :=
    mul_le_mul_of_nonneg_right (by omega) (by omega)
  have h2 : ((y : Int) + 1) * width = (y : Int) * width + width := by ring
  have h3 : height * width = width * height := by ring
  have hidx : ((y : Int) * width + x).toNat < ps.length := by
    have : (((y : Int) * width + x).toNat : Int) = (y : Int) * width + x :=
      Int.toNat_of_nonneg (by omega)
    omega
  unfold cellStep
  simp only
  by_cases hr : (x : Int) < width - 1
  · have hj : ((y : Int) * width + x + 1).toNat < ps.length := by
      have : (((y : Int) * width + x + 1).toNat : Int) = (y : Int) * width + x + 1 :=
        Int.toNat_of_nonneg (by omega)
      omega
    have hne : ((y : Int) * width + x).toNat ≠ ((y : Int) * width + x + 1).toNat := by omega
    simp only [hr, if_true]
    by_cases hdn : (y : Int) < height - 1
    · have h4 : ((y : Int) + 2) * width ≤ height * width :=
        mul_le_mul_of_nonneg_right (by omega) (by omega)
      have h5 : ((y : Int) + 2) * width = (y : Int) * width + 2 * width := by ring
      have hj2 : ((y : Int) * width + x + width).toNat < ps.length := by
        have : (((y : Int) * width + x + width).toNat : Int) = (y : Int) * width + x + width :=
          Int.toNat_of_nonneg (by omega)
        omega
      have hne2 : ((y : Int) * width + x).toNat ≠ ((y : Int) * width + x + width).toNat := by
        omega
      simp only [hdn, if_true]
      rw [edgeStep_sum_coord f hadd hsub sqrt _ _ _ _ _ (by rw [edgeStep_length]; exact hidx)
        (by rw [edgeStep_length]; exact hj2) hne2,
        edgeStep_sum_coord f hadd hsub sqrt _ _ _ _ _ hidx hj hne]
    · simp only [hdn, if_false]
      exact edgeStep_sum_coord f hadd hsub sqrt _ _ _ _ _ hidx hj hne
  · simp only [hr, if_false]
    by_cases hdn : (y : Int) < height - 1
    · have h4 : ((y : Int) + 2) * width ≤ height * width :=
        mul_le_mul_of_nonneg_right (by omega) (by omega)
      have h5 : ((y : Int) + 2) * width = (y : Int) * width + 2 * width := by ring
      have hj2 : ((y : Int) * width + x + width).toNat < ps.length := by
        have : (((y : Int) * width + x + width).toNat : Int) = (y : Int) * width + x + width :=
          Int.toNat_of_nonneg (by omega)
        omega
      have hne2 : ((y : Int) * width + x).toNat ≠ ((y : Int) * width + x + width).toNat := by
        omega
      simp only [hdn, if_true]
      exact edgeStep_sum_coord f hadd hsub sqrt _ _ _ _ _ hidx hj2 hne2
    · simp only [hdn, if_false]

theorem structuralPass_sum_coord (f : Vec3 K → K) (hadd : ∀ a b, f (a + b) = f a + f b)
    (hsub : ∀ a b, f (a - b) = f a - f b) (sqrt : K → K) (width height : Int)
    (restLength maxCorrection : K) (ps : List (Vec3 K))
    (hlen : (ps.length : Int) = width * height) :
    ((structuralPass sqrt width height restLength maxCorrection ps).map f).sum =
      (ps.map f).sum := by
  unfold structuralPass
  have key := foldl_invariant_mem
    (fun s : List (Vec3 K) => s.length = ps.length ∧ (s.map f).sum = (ps.map f).sum)
    (fun positions (y : Nat) =>
      (List.range width.toNat).foldl (fun positions (x : Nat) =>
        cellStep sqrt width height restLength maxCorrection y x positions) positions)
    (List.range height.toNat) ps ⟨rfl, rfl⟩
    (fun s y hy hs => by
      apply foldl_invariant_mem
        (fun s : List (Vec3 K) => s.length = ps.length ∧ (s.map f).sum = (ps.map f).sum)
      · exact hs
      · intro s x hx hs2
        refine ⟨by rw [cellStep_length]; exact hs2.1, ?_⟩
        rw [cellStep_sum_coord f hadd hsub sqrt width height _ _ y x (List.mem_range.mp hy)
          (List.mem_range.mp hx) s (by rw [hs2.1]; exact hlen)]
        exact hs2.2)
  exact key.2

theorem sumPositions_eq_of_coords (ps qs : List (Vec3 K))
    (hx : (ps.map Vec3.x).sum = (qs.map Vec3.x).sum)
    (hy : (ps.map Vec3.y).sum = (qs.map Vec3.y).sum)
    (hz : (ps.map Vec3.z).sum = (qs.map Vec3.z).sum) :
    sumPositions ps = sumPositions qs := by
  unfold sumPositions
  ext
  · rw [foldl_add_coord Vec3.x (fun _ _ => rfl), foldl_add_coord Vec3.x (fun _ _ => rfl), hx]
  · rw [foldl_add_coord Vec3.y (fun _ _ => rfl), foldl_add_coord Vec3.y (fun _ _ => rfl), hy]
  · rw [foldl_add_coord Vec3.z (fun _ _ => rfl), foldl_add_coord Vec3.z (fun _ _ => rfl), hz]

/-- C19: on a position vector of `width*height` points, every edge correction between
two distinct points leaves `pos[i] + pos[j]` unchanged, and one full structural pass
over the grid leaves the sum of all point positions unchanged. -/
theorem structuralPass_centroid (sqrt : K → K) (width height : Int)
    (restLength maxCorrection : K) (positions : List (Vec3 K))
    (hlen : (positions.length : Int) = width * height) :
    (∀ idx j, idx < positions.length → j < positions.length → idx ≠ j →
      (edgeStep sqrt restLength maxCorrection idx j positions).getD idx 0 +
        (edgeStep sqrt restLength maxCorrection idx j positions).getD j 0 =
      positions.getD idx 0 + positions.getD j 0) ∧
    sumPositions (structuralPass sqrt width height restLength maxCorrection positions) =
      sumPositions positions := by
  constructor
  · intro idx j hidx hj hne
    by_cases hd : Vec3.length sqrt (positions.getD j 0 - positions.getD idx 0) > 1e-7
    · obtain ⟨h1, h2⟩ := edgeStep_getD sqrt restLength maxCorrection positions idx j hidx hj
        hne hd
      rw [h1, h2]
      ext <;> simp
    · rw [edgeStep_skip sqrt restLength maxCorrection positions idx j hd]
  · apply sumPositions_eq_of_coords
    · exact structuralPass_sum_coord Vec3.x (fun _ _ => rfl) (fun _ _ => rfl) sqrt width
        height restLength maxCorrection positions hlen
    · exact structuralPass_sum_coord Vec3.y (fun _ _ => rfl) (fun _ _ => rfl) sqrt width
        height restLength maxCorrection positions hlen
    · exact structuralPass_sum_coord Vec3.z (fun _ _ => rfl) (fun _ _ => rfl) sqrt width
        height restLength maxCorrection positions hlen

/-- Witness for C19: a stretched `2 x 2` grid with `restLength = 1` over the reals. -/
theorem structuralPass_centroid_witness :
    (∀ idx j, idx < ([⟨0, 0, 0⟩, ⟨3, 0, 0⟩, ⟨0, 0, 2⟩, ⟨3, 1, 2⟩] : List (Vec3 ℝ)).length →
      j < ([⟨0, 0, 0⟩, ⟨3, 0, 0⟩, ⟨0, 0, 2⟩, ⟨3, 1, 2⟩] : List (Vec3 ℝ)).length → idx ≠ j →
      (edgeStep Real.sqrt 1 (1 * 0.5) idx j
          [⟨0, 0, 0⟩, ⟨3, 0, 0⟩, ⟨0, 0, 2⟩, ⟨3, 1, 2⟩]).getD idx 0 +
        (edgeStep Real.sqrt 1 (1 * 0.5) idx j
          [⟨0, 0, 0⟩, ⟨3, 0, 0⟩, ⟨0, 0, 2⟩, ⟨3, 1, 2⟩]).getD j 0 =
      ([⟨0, 0, 0⟩, ⟨3, 0, 0⟩, ⟨0, 0, 2⟩, ⟨3, 1, 2⟩] : List (Vec3 ℝ)).getD idx 0 +
        ([⟨0, 0, 0⟩, ⟨3, 0, 0⟩, ⟨0, 0, 2⟩, ⟨3, 1, 2⟩] : List (Vec3 ℝ)).getD j 0) ∧
    sumPositions (structuralPass Real.sqrt 2 2 1 (1 * 0.5)
        [⟨0, 0, 0⟩, ⟨3, 0, 0⟩, ⟨0, 0, 2⟩, ⟨3, 1, 2⟩]) =
      sumPositions ([⟨0, 0, 0⟩, ⟨3, 0, 0⟩, ⟨0, 0, 2⟩, ⟨3, 1, 2⟩] : List (Vec3 ℝ)) :=
  structuralPass_centroid Real.sqrt 2 2 1 (1 * 0.5)
    [⟨0, 0, 0⟩, ⟨3, 0, 0⟩, ⟨0, 0, 2⟩, ⟨3, 1, 2⟩] (by decide)

end Centroid

/-! ## A single point at the cube centre -/

section SinglePoint

variable {K : Type} [LinearOrderedField K]

/-- Resolving a point a second time changes nothing. -/
theorem collidePoint_idempotent (off : Vec3 K) (pv : Vec3 K × Vec3 K) :
    collidePoint off (collidePoint off pv) = collidePoint off pv := by
  by_cases hin : insideCube (pv.1 + off)
  · have h1 : (collidePoint off pv).1 + off =
        faceTarget (pv.1 + off) (selectFace (pv.1 + off)).2 := by
      simp only [collidePoint, hin, if_true]
      rw [Vec3.sub_add_cancel]
    have hout : ¬ insideCube ((collidePoint off pv).1 + off) := by
      rw [h1]; exact faceTarget_not_inside _ _ (selectFace_spec _).1
    generalize collidePoint off pv = q at hout ⊢
    simp only [collidePoint, hout, if_false]
  · have : collidePoint off pv = pv := by
      simp only [collidePoint, hin, if_false]
    rw [this, this]

theorem integrate_single (dt : K) (p v : Vec3 K) :
    integrate dt ([p], [v]) =
      ([(integratePoint dt (p, v)).1], [(integratePoint dt (p, v)).2]) := by
  simp [integrate, integratePoint, List.range_succ]

theorem collisionPass_single (off p v : Vec3 K) :
    collisionPass off ([p], [v]) =
      ([(collidePoint off (p, v)).1], [(collidePoint off (p, v)).2]) := by
  simp only [collisionPass, List.length_singleton, List.range_succ, List.range_zero,
    List.nil_append, List.foldl_cons, List.foldl_nil, collideAt, collidePoint,
    List.getD_cons_zero]
  split_ifs <;> simp

theorem structuralPass_single (sqrt : K → K) (restLength maxCorrection : K)
    (ps : List (Vec3 K)) : structuralPass sqrt 1 1 restLength maxCorrection ps = ps := by
  simp [structuralPass, cellStep, List.range_succ]

theorem relaxIter_single (sqrt : K → K) (restLength maxCorrection : K) (off p v : Vec3 K) :
    relaxIter sqrt 1 1 restLength maxCorrection off ([p], [v]) =
      ([(collidePoint off (p, v)).1], [(collidePoint off (p, v)).2]) := by
  unfold relaxIter
  rw [structuralPass_single]
  exact collisionPass_single off p v

/-- Any positive number of relaxation iterations on a single point resolves it once. -/
theorem relaxIter_single_loop (sqrt : K → K) (restLength maxCorrection : K)
    (off p v : Vec3 K) (n : Nat) :
    (List.range (n + 1)).foldl (fun pv _ =>
        relaxIter sqrt 1 1 restLength maxCorrection off pv) ([p], [v]) =
      ([(collidePoint off (p, v)).1], [(collidePoint off (p, v)).2]) := by
  induction n with
  | zero =>
    simp only [List.range_succ, List.range_zero, List.nil_append, List.foldl_cons,
      List.foldl_nil]
    exact relaxIter_single sqrt restLength maxCorrection off p v
  | succ n ih =>
    rw [List.range_succ, List.foldl_append, ih]
    simp only [List.foldl_cons, List.foldl_nil]
    rw [relaxIter_single]
    have : collidePoint off ((collidePoint off (p, v)).1, (collidePoint off (p, v)).2) =
        collidePoint off (p, v) := collidePoint_idempotent off (p, v)
    rw [this]

theorem new_single (spacing : K) :
    (Cloth.new 1 1 spacing).positions = [0] ∧ (Cloth.new 1 1 spacing).velocities = [0] ∧
    (Cloth.new 1 1 spacing).position = 0 ∧ (Cloth.new 1 1 spacing).clothWidth = 1 ∧
    (Cloth.new 1 1 spacing).clothHeight = 1 ∧ (Cloth.new 1 1 spacing).spacing = spacing := by
  refine ⟨?_, rfl, rfl, rfl, rfl, rfl⟩
  simp [Cloth.new, generateVertices, List.replicate, List.range_succ]
  rfl

/-- One `Cloth::update` of the single-point cloth: integrate, then resolve once. -/
theorem update_single (sqrt : K → K) (dt spacing : K) :
    ((Cloth.new 1 1 spacing).update sqrt dt).positions =
      [(collidePoint 0 (integratePoint dt (0, 0))).1] ∧
    ((Cloth.new 1 1 spacing).update sqrt dt).velocities =
      [(collidePoint 0 (integratePoint dt (0, 0))).2] := by
  obtain ⟨h1, h2, h3, h4, h5, h6⟩ := new_single spacing
  have hloop := relaxIter_single_loop sqrt spacing (spacing * 0.5) 0
    (integratePoint dt ((0 : Vec3 K), (0 : Vec3 K))).1
    (integratePoint dt ((0 : Vec3 K), (0 : Vec3 K))).2 29
  unfold Cloth.update Cloth.recomputeNormals
  simp only [h1, h2, h3, h4, h5, h6, integrate_single]
  have h30 : constraintIterations = 29 + 1 := rfl
  rw [h30, hloop]
  exact ⟨rfl, rfl⟩

/-- The single point after integration: it has fallen by `0.098 * dt * dt`. -/
theorem integratePoint_centre (dt : K) :
    integratePoint dt ((0 : Vec3 K), (0 : Vec3 K)) =
      (⟨0, -(0.098 * dt * dt), 0⟩, ⟨0, -(0.098 * dt), 0⟩) := by
  have e : (0.098 : K) = 0.1 * 0.98 := by norm_num
  simp only [integratePoint, gravity, damping, e]
  apply Prod.ext <;> ext <;>
    simp only [Vec3.add_x, Vec3.add_y, Vec3.add_z, Vec3.scale_x, Vec3.scale_y, Vec3.scale_z,
      Vec3.zero_x, Vec3.zero_y, Vec3.zero_z] <;> ring

/-- Resolution of the single point when it is still inside the cube after a fall by
`a > 0`: the Bottom face is nearest. -/
theorem collidePoint_below_centre (a b : K) (ha : 0 < a) (ha2 : a < 0.55) (hb : 0 ≤ b) :
    collidePoint (0 : Vec3 K) (⟨0, -a, 0⟩, ⟨0, -b, 0⟩) = (⟨0, -0.55 - 0.001, 0⟩, ⟨0, -b, 0⟩) := by
  have hin : insideCube ((⟨0, -a, 0⟩ : Vec3 K) + 0) := by
    simp only [insideCube, cubeMin, cubeMax, Vec3.add_x, Vec3.add_y, Vec3.add_z, Vec3.zero_x,
      Vec3.zero_y, Vec3.zero_z]
    refine ⟨by norm_num, by norm_num, by linarith, by linarith, by norm_num, by norm_num⟩
  have hface : (selectFace ((⟨0, -a, 0⟩ : Vec3 K) + 0)).2 = 2 := by
    obtain ⟨hf, hmin, hfirst⟩ := selectFace_spec ((⟨0, -a, 0⟩ : Vec3 K) + 0)
    have h2 := hmin 2 (by norm_num)
    generalize (selectFace ((⟨0, -a, 0⟩ : Vec3 K) + 0)).2 = f at hf hmin hfirst h2 ⊢
    interval_cases f
    · rw [faceDist_0, faceDist_2] at h2
      simp only [cubeMin, Vec3.add_x, Vec3.add_y, Vec3.zero_x, Vec3.zero_y] at h2
      linarith
    · rw [faceDist_1, faceDist_2] at h2
      simp only [cubeMin, cubeMax, Vec3.add_x, Vec3.add_y, Vec3.zero_x, Vec3.zero_y] at h2
      have : (0.55 : K) = - -0.55 := by norm_num
      linarith
    · rfl
    · rw [faceDist_3, faceDist_2] at h2
      simp only [cubeMin, cubeMax, Vec3.add_y, Vec3.zero_y] at h2
      have : (0.55 : K) = - -0.55 := by norm_num
      linarith
    · rw [faceDist_4, faceDist_2] at h2
      simp only [cubeMin, Vec3.add_z, Vec3.add_y, Vec3.zero_z, Vec3.zero_y] at h2
      linarith
    · rw [faceDist_5, faceDist_2] at h2
      simp only [cubeMin, cubeMax, Vec3.add_z, Vec3.add_y, Vec3.zero_z, Vec3.zero_y] at h2
      have : (0.55 : K) = - -0.55 := by norm_num
      linarith
  simp only [collidePoint, hin, if_true, hface, faceNormal, faceTarget, cubeMin, eps]
  have hvn : ¬ (Vec3.dot (⟨0, -b, 0⟩ : Vec3 K) ⟨0, -1, 0⟩ < 0) := by
    simp only [Vec3.dot]
    intro h
    have : (0 : K) * 0 + -b * -1 + 0 * 0 = b := by ring
    rw [this] at h
    exact absurd h (not_lt.mpr hb)
  simp only [hvn, if_false]
  apply Prod.ext
  · ext <;> simp
  · rfl

/-- Resolution of the single point at rest at the cube centre: the Left face wins the
tie. -/
theorem collidePoint_centre :
    collidePoint (0 : Vec3 K) (⟨0, 0, 0⟩, ⟨0, 0, 0⟩) = (⟨-0.55 - 0.001, 0, 0⟩, ⟨0, 0, 0⟩) := by
  have hin : insideCube ((⟨0, 0, 0⟩ : Vec3 K) + 0) := by
    simp only [insideCube, cubeMin, cubeMax, Vec3.add_x, Vec3.add_y, Vec3.add_z, Vec3.zero_x,
      Vec3.zero_y, Vec3.zero_z]
    norm_num
  have hface : (selectFace ((⟨0, 0, 0⟩ : Vec3 K) + 0)).2 = 0 := by
    obtain ⟨hf, hmin, hfirst⟩ := selectFace_spec ((⟨0, 0, 0⟩ : Vec3 K) + 0)
    by_contra hne
    have h0 := hfirst 0 (Nat.pos_of_ne_zero hne)
    generalize (selectFace ((⟨0, 0, 0⟩ : Vec3 K) + 0)).2 = f at hf hmin hfirst h0 hne
    have e : (0.55 : K) = - -0.55 := by norm_num
    interval_cases f
    · exact hne rfl
    · rw [faceDist_0, faceDist_1] at h0
      simp only [cubeMin, cubeMax, Vec3.add_x, Vec3.zero_x] at h0
      linarith
    · rw [faceDist_0, faceDist_2] at h0
      simp only [cubeMin, Vec3.add_x, Vec3.add_y, Vec3.zero_x, Vec3.zero_y] at h0
      linarith
    · rw [faceDist_0, faceDist_3] at h0
      simp only [cubeMin, cubeMax, Vec3.add_x, Vec3.add_y, Vec3.zero_x, Vec3.zero_y] at h0
      linarith
    · rw [faceDist_0, faceDist_4] at h0
      simp only [cubeMin, Vec3.add_x, Vec3.add_z, Vec3.zero_x, Vec3.zero_z] at h0
      linarith
    · rw [faceDist_0, faceDist_5] at h0
      simp only [cubeMin, cubeMax, Vec3.add_x, Vec3.add_z, Vec3.zero_x, Vec3.zero_z] at h0
      linarith
  simp only [collidePoint, hin, if_true, hface, faceNormal, faceTarget, cubeMin, eps]
  have hvn : ¬ (Vec3.dot (⟨0, 0, 0⟩ : Vec3 K) ⟨-1, 0, 0⟩ < 0) := by
    simp [Vec3.dot]
  simp only [hvn, if_false]
  apply Prod.ext
  · ext <;> simp
  · rfl

/-- Counterexample for C15: the single point at the cube centre, world offset zero,
one `Cloth::update` with `deltaTime = 1`: gravity moves the point down before the
collision loop runs, the Bottom face is then the nearest, and the x-coordinate stays `0`
instead of becoming `-0.55 - eps`. -/
theorem update_single_point_counterexample :
    (Cloth.new 1 1 (1 : ℝ)).positions = [⟨0, 0, 0⟩] ∧
    (Cloth.new 1 1 (1 : ℝ)).velocities = [⟨0, 0, 0⟩] ∧
    (Cloth.new 1 1 (1 : ℝ)).position = ⟨0, 0, 0⟩ ∧
    (0 : ℝ) ≤ 1 ∧
    ((Cloth.new 1 1 (1 : ℝ)).update Real.sqrt 1).positions = [⟨0, -0.55 - 0.001, 0⟩] ∧
    (((Cloth.new 1 1 (1 : ℝ)).update Real.sqrt 1).positions.getD 0 0).x ≠ -0.55 - 0.001 := by
  obtain ⟨h1, h2, h3, _⟩ := new_single (1 : ℝ)
  have hup : ((Cloth.new 1 1 (1 : ℝ)).update Real.sqrt 1).positions =
      [⟨0, -0.55 - 0.001, 0⟩] := by
    rw [(update_single Real.sqrt 1 (1 : ℝ)).1, integratePoint_centre,
      collidePoint_below_centre (0.098 * 1 * 1) (0.098 * 1) (by norm_num) (by norm_num)
        (by norm_num)]
  refine ⟨h1, h2, h3, by norm_num, hup, ?_⟩
  rw [hup]
  simp only [List.getD_cons_zero]
  norm_num

/-- C15 (amended): for the cloth of a single point at local `(0,0,0)` with zero velocity
and world offset `(0,0,0)`, one `Cloth::update` with `deltaTime = 0` resolves the point to
the Left face, `x = -0.55 - eps`.  With arithmetic read as exact reals, for every
`deltaTime > 0` the integration first moves the point down by `0.098 * deltaTime^2`, and
it is resolved to the Bottom face (`y = -0.55 - eps`, `x = 0`) while that fall is below
`0.55`, and left where it fell otherwise. -/
theorem update_single_point_centre (sqrt : K → K) (spacing deltaTime : K)
    (hdt : 0 ≤ deltaTime) :
    (Cloth.new 1 1 spacing).positions = [⟨0, 0, 0⟩] ∧
    (Cloth.new 1 1 spacing).velocities = [⟨0, 0, 0⟩] ∧
    (Cloth.new 1 1 spacing).position = ⟨0, 0, 0⟩ ∧
    (deltaTime = 0 →
      ((Cloth.new 1 1 spacing).update sqrt deltaTime).positions = [⟨-0.55 - 0.001, 0, 0⟩]) ∧
    (0 < deltaTime → 0.098 * deltaTime * deltaTime < 0.55 →
      ((Cloth.new 1 1 spacing).update sqrt deltaTime).positions = [⟨0, -0.55 - 0.001, 0⟩]) ∧
    (0 < deltaTime → 0.55 ≤ 0.098 * deltaTime * deltaTime →
      ((Cloth.new 1 1 spacing).update sqrt deltaTime).positions =
        [⟨0, -(0.098 * deltaTime * deltaTime), 0⟩]) := by
  obtain ⟨h1, h2, h3, _⟩ := new_single spacing
  have hup := (update_single sqrt deltaTime spacing).1
  rw [integratePoint_centre] at hup
  refine ⟨h1, h2, h3, fun h0 => ?_, fun hpos hlt => ?_, fun hpos hge => ?_⟩
  · rw [hup, h0]
    have e1 : (⟨0, -(0.098 * 0 * 0), 0⟩ : Vec3 K) = ⟨0, 0, 0⟩ := by ext <;> simp
    have e2 : (⟨0, -(0.098 * 0), 0⟩ : Vec3 K) = ⟨0, 0, 0⟩ := by ext <;> simp
    rw [e1, e2, collidePoint_centre]
  · rw [hup, collidePoint_below_centre (0.098 * deltaTime * deltaTime) (0.098 * deltaTime)
      (mul_pos (mul_pos (by norm_num) hpos) hpos) hlt (mul_nonneg (by norm_num) hdt)]
  · rw [hup]
    have hout : ¬ insideCube ((⟨0, -(0.098 * deltaTime * deltaTime), 0⟩ : Vec3 K) + 0) := by
      intro hin
      obtain ⟨_, _, h3, _⟩ := hin
      simp only [cubeMin, Vec3.add_y, Vec3.zero_y] at h3
      linarith
    simp only [collidePoint, hout, if_false]

/-- Witness for C15 (amended): `deltaTime = 0` over the reals. -/
theorem update_single_point_centre_witness :
    ((Cloth.new 1 1 (1 : ℝ)).update Real.sqrt 0).positions = [⟨-0.55 - 0.001, 0, 0⟩] :=
  (update_single_point_centre Real.sqrt (1 : ℝ) 0 (le_refl 0)).2.2.2.1 rfl

end SinglePoint

/-! ## Normal recomputation: position fields and idempotence -/

section Normals

variable {K : Type} [LinearOrderedField K]

theorem recomputeNormals_eq (sqrt : K → K) (indexData : List Nat) (vd : List K) :
    recomputeNormals sqrt indexData vd =
      normalizeNormals sqrt (accumulateNormals sqrt indexData (zeroNormals vd)) := rfl

theorem getD_set_if {A : Type} (l : List A) (i k : Nat) (a d : A) :
    (l.set i a).getD k d = if i = k ∧ i < l.length then a else l.getD k d := by
  by_cases h : i = k
  · subst h
    by_cases hi : i < l.length
    · simp only [hi, and_self, if_true]
      exact getD_set_eq l i a d hi
    · simp only [hi, and_false, if_false]
      rw [List.set_eq_of_length_le (by omega)]
  · simp only [h, false_and, if_false]
    exact getD_set_ne l i k a d h

theorem ext_getD {l1 l2 : List K} (hlen : l1.length = l2.length)
    (h : ∀ k, k < l1.length → l1.getD k 0 = l2.getD k 0) : l1 = l2 := by
  apply List.ext_getElem hlen
  intro k h1 h2
  have := h k h1
  rw [List.getD_eq_getElem l1 0 h1, List.getD_eq_getElem l2 0 h2] at this
  exact this

theorem getD_set_zero (l : List K) (i k : Nat) :
    (l.set i 0).getD k 0 = if i = k then 0 else l.getD k 0 := by
  rw [getD_set_if]
  by_cases h : i = k
  · subst h
    by_cases hi : i < l.length
    · simp [hi]
    · simp only [hi, and_false, if_false, if_true]
      exact List.getD_eq_default l 0 (by omega)
  · simp [h]

/-- The zeroing loop after `m` records. -/
theorem zeroNormals_loop (vd : List K) (m : Nat) :
    ((List.range m).foldl (fun vd i =>
      ((vd.set (i * 6 + 3) 0).set (i * 6 + 4) 0).set (i * 6 + 5) 0) vd).length = vd.length ∧
    ∀ k, ((List.range m).foldl (fun vd i =>
      ((vd.set (i * 6 + 3) 0).set (i * 6 + 4) 0).set (i * 6 + 5) 0) vd).getD k 0 =
        if 3 ≤ k % 6 ∧ k / 6 < m then 0 else vd.getD k 0 := by
  induction m with
  | zero => simp
  | succ m ih =>
    obtain ⟨h1, h2⟩ := ih
    rw [List.range_succ, List.foldl_append]
    simp only [List.foldl_cons, List.foldl_nil, List.length_set]
    refine ⟨h1, fun k => ?_⟩
    rw [getD_set_zero, getD_set_zero, getD_set_zero, h2]
    by_cases c5 : m * 6 + 5 = k
    · have : 3 ≤ k % 6 ∧ k / 6 < m + 1 := by omega
      simp [c5, this]
    · by_cases c4 : m * 6 + 4 = k
      · have : 3 ≤ k % 6 ∧ k / 6 < m + 1 := by omega
        simp [c4, this]
      · by_cases c3 : m * 6 + 3 = k
        · have : 3 ≤ k % 6 ∧ k / 6 < m + 1 := by omega
          simp [c3, this]
        · simp only [c5, c4, c3, if_false]
          by_cases hc : 3 ≤ k % 6 ∧ k / 6 < m
          · have : 3 ≤ k % 6 ∧ k / 6 < m + 1 := by omega
            simp [hc, this]
          · have : ¬ (3 ≤ k % 6 ∧ k / 6 < m + 1) := by omega
            simp [hc, this]

theorem zeroNormals_length (vd : List K) : (zeroNormals vd).length = vd.length :=
  (zeroNormals_loop vd _).1

/-- After the zeroing loop on a buffer of whole records, every normal field is `0` and
every position field is as before. -/
theorem zeroNormals_getD (vd : List K) (n : Nat) (hlen : vd.length = 6 * n) (k : Nat) :
    (zeroNormals vd).getD k 0 = if 3 ≤ k % 6 then 0 else vd.getD k 0 := by
  unfold zeroNormals
  rw [(zeroNormals_loop vd _).2 k]
  by_cases h3 : 3 ≤ k % 6
  · by_cases hk : k / 6 < vd.length / 6
    · simp [h3, hk]
    · simp only [h3, hk, and_false, if_false, if_true]
      exact List.getD_eq_default vd 0 (by omega)
  · simp [h3]

theorem zeroNormals_congr (v w : List K) (n : Nat) (hv : v.length = 6 * n)
    (h : SamePositions v w) : zeroNormals v = zeroNormals w := by
  have hw : w.length = 6 * n := by rw [← h.1]; exact hv
  apply ext_getD
  · rw [zeroNormals_length, zeroNormals_length]; exact h.1
  · intro k _
    rw [zeroNormals_getD v n hv, zeroNormals_getD w n hw]
    by_cases h3 : 3 ≤ k % 6
    · simp [h3]
    · simp only [h3, if_false]
      exact h.2 k (by omega)

theorem samePositions_refl (v : List K) : SamePositions v v := ⟨rfl, fun _ _ => rfl⟩

theorem samePositions_trans {u v w : List K} (h1 : SamePositions u v)
    (h2 : SamePositions v w) : SamePositions u w :=
  ⟨h1.1.trans h2.1, fun k hk => (h1.2 k hk).trans (h2.2 k hk)⟩

theorem zeroNormals_same (vd : List K) : SamePositions (zeroNormals vd) vd := by
  refine ⟨zeroNormals_length vd, fun k hk => ?_⟩
  unfold zeroNormals
  rw [(zeroNormals_loop vd _).2 k]
  have : ¬ (3 ≤ k % 6 ∧ k / 6 < vd.length / 6) := by omega
  simp [this]

theorem normalizeNormals_same (sqrt : K → K) (vd : List K) :
    SamePositions (normalizeNormals sqrt vd) vd := by
  unfold normalizeNormals
  apply foldl_invariant (fun s : List K => SamePositions s vd)
  · exact samePositions_refl vd
  · intro s i hs
    refine ⟨by simpa using hs.1, fun k hk => ?_⟩
    simp only
    rw [getD_set_ne _ _ _ _ _ (by omega), getD_set_ne _ _ _ _ _ (by omega),
      getD_set_ne _ _ _ _ _ (by omega)]
    exact hs.2 k hk

theorem addAt_length (v : List K) (k : Nat) (a : K) : (addAt v k a).length = v.length := by
  simp [addAt]

theorem uidx_eq (i o n : Nat) (hi : i < n) (ho : o < 6) (hn : 6 * n ≤ 4294967296) :
    uidx i o = i * 6 + o := by
  unfold uidx
  exact Nat.mod_eq_of_lt (by omega)

theorem addAt_normal_same (v : List K) (i o n : Nat) (a : K) (hi : i < n) (ho : o < 6)
    (ho3 : 3 ≤ o) (hn : 6 * n ≤ 4294967296) : SamePositions (addAt v (uidx i o) a) v := by
  refine ⟨addAt_length v _ a, fun k hk => ?_⟩
  rw [uidx_eq i o n hi ho hn]
  unfold addAt
  exact getD_set_ne _ _ _ _ _ (by omega)

/-- Every index read by the accumulation loop is below the number of records. -/
theorem index_read_lt (indexData : List Nat) (n t r : Nat)
    (hidx : ∀ i, i ∈ indexData → i < n) (ht : t < (indexData.length + 2) / 3) :
    indexData.getD (3 * t + r) 0 < n := by
  have hpos : 0 < indexData.length := by omega
  have hn : 0 < n := by
    have := hidx (indexData.get ⟨0, hpos⟩) (List.get_mem indexData 0 hpos)
    omega
  by_cases hk : 3 * t + r < indexData.length
  · rw [List.getD_eq_getElem indexData 0 hk]
    exact hidx _ (List.getElem_mem hk)
  · rw [List.getD_eq_default indexData 0 (by omega)]
    exact hn

theorem accumulateTriangle_same (sqrt : K → K) (indexData : List Nat) (vd : List K)
    (n t : Nat) (hidx : ∀ i, i ∈ indexData → i < n) (hn : 6 * n ≤ 4294967296)
    (ht : t < (indexData.length + 2) / 3) :
    SamePositions (accumulateTriangle sqrt indexData vd t) vd := by
  have h0 := index_read_lt indexData n t 0 hidx ht
  have h1 := index_read_lt indexData n t 1 hidx ht
  have h2 := index_read_lt indexData n t 2 hidx ht
  unfold accumulateTriangle
  simp only
  exact samePositions_trans (addAt_normal_same _ _ 5 n _ h2 (by norm_num) (by norm_num) hn)
    (samePositions_trans (addAt_normal_same _ _ 4 n _ h2 (by norm_num) (by norm_num) hn)
    (samePositions_trans (addAt_normal_same _ _ 3 n _ h2 (by norm_num) (by norm_num) hn)
    (samePositions_trans (addAt_normal_same _ _ 5 n _ h1 (by norm_num) (by norm_num) hn)
    (samePositions_trans (addAt_normal_same _ _ 4 n _ h1 (by norm_num) (by norm_num) hn)
    (samePositions_trans (addAt_normal_same _ _ 3 n _ h1 (by norm_num) (by norm_num) hn)
    (samePositions_trans (addAt_normal_same _ _ 5 n _ h0 (by norm_num) (by norm_num) hn)
    (samePositions_trans (addAt_normal_same _ _ 4 n _ h0 (by norm_num) (by norm_num) hn)
      (addAt_normal_same _ _ 3 n _ h0 (by norm_num) (by norm_num) hn))))))))

theorem accumulateNormals_same (sqrt : K → K) (indexData : List Nat) (vd : List K) (n : Nat)
    (hidx : ∀ i, i ∈ indexData → i < n) (hn : 6 * n ≤ 4294967296) :
    SamePositions (accumulateNormals sqrt indexData vd) vd := by
  unfold accumulateNormals
  apply foldl_invariant_mem (fun s : List K => SamePositions s vd)
  · exact samePositions_refl vd
  · intro s t ht hs
    exact samePositions_trans
      (accumulateTriangle_same sqrt indexData s n t hidx hn (List.mem_range.mp ht)) hs

/-- On a well-formed buffer `recomputeNormals` keeps the size and every position field. -/
theorem recomputeNormals_same (sqrt : K → K) (indexData : List Nat) (vd : List K) (n : Nat)
    (hwf : BufferWellFormed indexData vd n) :
    SamePositions (recomputeNormals sqrt indexData vd) vd := by
  rw [recomputeNormals_eq]
  exact samePositions_trans (normalizeNormals_same sqrt _)
    (samePositions_trans (accumulateNormals_same sqrt indexData _ n hwf.2.1 hwf.2.2)
      (zeroNormals_same vd))

/-- C13: on a well-formed vertex buffer and index list, `recomputeNormals` leaves the size
and the position fields unchanged, its result is the same for any two buffers with
the same position fields (the previous normals do not matter), and so calling it twice
in a row yields the same vertex buffer as calling it once. -/
theorem recomputeNormals_idempotent (sqrt : K → K) (indexData : List Nat)
    (vertexData : List K) (n : Nat) (hwf : BufferWellFormed indexData vertexData n) :
    SamePositions (recomputeNormals sqrt indexData vertexData) vertexData ∧
    (∀ other : List K, SamePositions vertexData other →
      recomputeNormals sqrt indexData other = recomputeNormals sqrt indexData vertexData) ∧
    recomputeNormals sqrt indexData (recomputeNormals sqrt indexData vertexData) =
      recomputeNormals sqrt indexData vertexData := by
  have hsame := recomputeNormals_same sqrt indexData vertexData n hwf
  have hcongr : ∀ other : List K, SamePositions vertexData other →
      recomputeNormals sqrt indexData other = recomputeNormals sqrt indexData vertexData := by
    intro other ho
    rw [recomputeNormals_eq, recomputeNormals_eq,
      zeroNormals_congr vertexData other n hwf.1 ho]
  refine ⟨hsame, hcongr, hcongr _ ?_⟩
  exact ⟨hsame.1.symm, fun k hk => (hsame.2 k hk).symm⟩

/-- Witness for C13: the freshly generated `2 x 2` grid over the reals. -/
theorem recomputeNormals_idempotent_witness :
    SamePositions (recomputeNormals Real.sqrt (generateIndices 2 2)
      (generateVertices 2 2 (1 : ℝ))) (generateVertices 2 2 (1 : ℝ)) ∧
    (∀ other : List ℝ, SamePositions (generateVertices 2 2 (1 : ℝ)) other →
      recomputeNormals Real.sqrt (generateIndices 2 2) other =
        recomputeNormals Real.sqrt (generateIndices 2 2) (generateVertices 2 2 (1 : ℝ))) ∧
    recomputeNormals Real.sqrt (generateIndices 2 2)
        (recomputeNormals Real.sqrt (generateIndices 2 2) (generateVertices 2 2 (1 : ℝ))) =
      recomputeNormals Real.sqrt (generateIndices 2 2) (generateVertices 2 2 (1 : ℝ)) :=
  recomputeNormals_idempotent Real.sqrt (generateIndices 2 2) (generateVertices 2 2 (1 : ℝ)) 4
    ⟨by rw [generateVertices_length]; rfl,
     fun i hi => by have := generateIndices_lt 2 2 i hi; omega,
     by norm_num⟩

end Normals

/-! ## After the step: box exclusion and the published buffer -/

section PostStep

variable {K : Type} [LinearOrderedField K]

end PostStep

/-! ## Free fall of the flat grid -/

section Fall

variable {K : Type} [LinearOrderedField K]

/-- A structural pass over a grid whose edges all have the rest length changes nothing. -/
theorem structuralPass_at_rest {sqrt : K → K} (hs : IsSqrt sqrt) (width height : Int)
    (spacing : K) (hsp : 0 < spacing) (ps : List (Vec3 K))
    (hright : ∀ x y : Nat, (x : Int) < width - 1 → (y : Int) < height →
      Vec3.length sqrt (ps.getD ((y : Int) * width + x + 1).toNat 0 -
        ps.getD ((y : Int) * width + x).toNat 0) = spacing)
    (hdown : ∀ x y : Nat, (x : Int) < width → (y : Int) < height - 1 →
      Vec3.length sqrt (ps.getD ((y : Int) * width + x + width).toNat 0 -
        ps.getD ((y : Int) * width + x).toNat 0) = spacing) :
    structuralPass sqrt width height spacing (spacing * 0.5) ps = ps := by
  unfold structuralPass
  apply foldl_invariant_mem (fun s => s = ps)
  · rfl
  · intro s y hy hs1
    apply foldl_invariant_mem (fun s => s = ps)
    · exact hs1
    · intro s x hx hs2
      rw [hs2]
      have hyn : y < height.toNat := List.mem_range.mp hy
      have hxn : x < width.toNat := List.mem_range.mp hx
      unfold cellStep
      simp only
      by_cases h1 : (x : Int) < width - 1
      · simp only [h1, if_true]
        rw [edgeStep_at_rest hs spacing hsp ps _ _ (hright x y h1 (by omega))]
        by_cases h2 : (y : Int) < height - 1
        · simp only [h2, if_true]
          exact edgeStep_at_rest hs spacing hsp ps _ _ (hdown x y (by omega) h2)
        · simp only [h2, if_false]
      · simp only [h1, if_false]
        by_cases h2 : (y : Int) < height - 1
        · simp only [h2, if_true]
          exact edgeStep_at_rest hs spacing hsp ps _ _ (hdown x y (by omega) h2)
        · simp only [h2, if_false]

theorem getD_map_add (l : List (Vec3 K)) (t : Vec3 K) (k : Nat) (hk : k < l.length) :
    (l.map (fun p => p + t)).getD k 0 = l.getD k 0 + t := by
  rw [List.getD_eq_getElem _ 0 (by simpa using hk), List.getD_eq_getElem _ 0 hk,
    List.getElem_map]

theorem Vec3.add_sub_add_right (a b t : Vec3 K) : (a + t) - (b + t) = a - b := by
  ext <;> simp

theorem length_axis_x {sqrt : K → K} (hs : IsSqrt sqrt) (s : K) (hsp : 0 ≤ s) :
    Vec3.length sqrt (⟨s, 0, 0⟩ : Vec3 K) = s := by
  unfold Vec3.length
  have : Vec3.dot (⟨s, 0, 0⟩ : Vec3 K) ⟨s, 0, 0⟩ = s * s := by simp [Vec3.dot]
  rw [this, sqrt_mul_self_of_nonneg hs s hsp]

theorem length_axis_z {sqrt : K → K} (hs : IsSqrt sqrt) (s : K) (hsp : 0 ≤ s) :
    Vec3.length sqrt (⟨0, 0, s⟩ : Vec3 K) = s := by
  unfold Vec3.length
  have : Vec3.dot (⟨0, 0, s⟩ : Vec3 K) ⟨0, 0, s⟩ = s * s := by simp [Vec3.dot]
  rw [this, sqrt_mul_self_of_nonneg hs s hsp]

/-- Index of grid point `(x, y)` and bound, in natural numbers. -/
theorem grid_index (width height : Int) (x y : Nat) (hx : (x : Int) < width)
    (hy : (y : Int) < height) (spacing : K) :
    ((y : Int) * width + x).toNat = y * width.toNat + x ∧
    y * width.toNat + x < (Cloth.new width height spacing).positions.length := by
  have hwn : (width.toNat : Int) = width := Int.toNat_of_nonneg (by omega)
  have hhn : (height.toNat : Int) = height := Int.toNat_of_nonneg (by omega)
  have h1 : ((y : Int) * width + x).toNat = y * width.toNat + x := by
    have : ((y : Int) * width + x) = ((y * width.toNat + x : Nat) : Int) := by
      push_cast; rw [hwn]
    rw [this, Int.toNat_ofNat]
  refine ⟨h1, ?_⟩
  rw [new_positions_length]
  have hnum : (width * height).toNat = width.toNat * height.toNat := by
    have h : width * height = ((width.toNat * height.toNat : Nat) : Int) := by
      push_cast; rw [hwn, hhn]
    rw [h, Int.toNat_ofNat]
  rw [hnum]
  have hyn : y < height.toNat := by omega
  have hxn : x < width.toNat := by omega
  have : (y + 1) * width.toNat ≤ height.toNat * width.toNat := Nat.mul_le_mul_right _ hyn
  rw [Nat.mul_comm width.toNat height.toNat]
  rw [Nat.succ_mul] at this
  omega

/-- Right neighbours on the fresh lattice differ by `(spacing, 0, 0)`. -/
theorem new_edge_right (width height : Int) (spacing : K) (x y : Nat)
    (hx : (x : Int) < width - 1) (hy : (y : Int) < height) :
    (Cloth.new width height spacing).positions.getD ((y : Int) * width + x + 1).toNat 0 -
      (Cloth.new width height spacing).positions.getD ((y : Int) * width + x).toNat 0 =
      ⟨spacing, 0, 0⟩ := by
  have h0 := (grid_index width height x y (by omega) hy spacing).1
  have h1 := (grid_index width height (x + 1) y (by push_cast; omega) hy spacing).1
  have e : (y : Int) * width + x + 1 = (y : Int) * width + ((x + 1 : Nat) : Int) := by
    push_cast; ring
  rw [e, h0, h1, new_positions_getD width height spacing x y (by omega) hy,
    new_positions_getD width height spacing (x + 1) y (by push_cast; omega) hy]
  ext <;> simp only [Vec3.sub_x, Vec3.sub_y, Vec3.sub_z] <;> push_cast <;> ring

/-- Down neighbours on the fresh lattice differ by `(0, 0, spacing)`. -/
theorem new_edge_down (width height : Int) (spacing : K) (x y : Nat)
    (hx : (x : Int) < width) (hy : (y : Int) < height - 1) :
    (Cloth.new width height spacing).positions.getD ((y : Int) * width + x + width).toNat 0 -
      (Cloth.new width height spacing).positions.getD ((y : Int) * width + x).toNat 0 =
      ⟨0, 0, spacing⟩ := by
  have h0 := (grid_index width height x y hx (by omega) spacing).1
  have h1 := (grid_index width height x (y + 1) hx (by push_cast; omega) spacing).1
  have e : (y : Int) * width + x + width = ((y + 1 : Nat) : Int) * width + (x : Int) := by
    push_cast; ring
  rw [e, h0, h1, new_positions_getD width height spacing x y hx (by omega),
    new_positions_getD width height spacing x (y + 1) hx (by push_cast; omega)]
  ext <;> simp only [Vec3.sub_x, Vec3.sub_y, Vec3.sub_z] <;> push_cast <;> ring

theorem ext_getD_vec {l1 l2 : List (Vec3 K)} (hlen : l1.length = l2.length)
    (h : ∀ k, k < l1.length → l1.getD k 0 = l2.getD k 0) : l1 = l2 := by
  apply List.ext_getElem hlen
  intro k h1 h2
  have := h k h1
  rw [List.getD_eq_getElem l1 0 h1, List.getD_eq_getElem l2 0 h2] at this
  exact this

theorem getD_replicate_vec (n k : Nat) (v : Vec3 K) (hk : k < n) :
    (List.replicate n v).getD k 0 = v := by
  rw [List.getD_eq_getElem _ 0 (by simpa using hk), List.getElem_replicate]

/-- A structural pass over the moved lattice changes nothing. -/
theorem structuralPass_translated {sqrt : K → K} (hs : IsSqrt sqrt) (width height : Int)
    (spacing : K) (hsp : 0 < spacing) (t : Vec3 K) :
    structuralPass sqrt width height spacing (spacing * 0.5)
      ((Cloth.new width height spacing).positions.map (fun p => p + t)) =
      (Cloth.new width height spacing).positions.map (fun p => p + t) := by
  apply structuralPass_at_rest hs width height spacing hsp
  · intro x y hx hy
    have b0 := grid_index width height x y (by omega) hy spacing
    have b1 := grid_index width height (x + 1) y (by push_cast; omega) hy spacing
    have e : (y : Int) * width + x + 1 = (y : Int) * width + ((x + 1 : Nat) : Int) := by
      push_cast; ring
    have hr := new_edge_right width height spacing x y hx hy
    rw [e] at hr ⊢
    rw [b0.1, b1.1] at hr ⊢
    rw [getD_map_add _ t _ b0.2, getD_map_add _ t _ b1.2, Vec3.add_sub_add_right, hr]
    exact length_axis_x hs spacing (le_of_lt hsp)
  · intro x y hx hy
    have b0 := grid_index width height x y hx (by omega) spacing
    have b1 := grid_index width height x (y + 1) hx (by push_cast; omega) spacing
    have e : (y : Int) * width + x + width = ((y + 1 : Nat) : Int) * width + (x : Int) := by
      push_cast; ring
    have hr := new_edge_down width height spacing x y hx hy
    rw [e] at hr ⊢
    rw [b0.1, b1.1] at hr ⊢
    rw [getD_map_add _ t _ b0.2, getD_map_add _ t _ b1.2, Vec3.add_sub_add_right, hr]
    exact length_axis_z hs spacing (le_of_lt hsp)

/-- Integration of the moved lattice with a common vertical velocity. -/
theorem integrate_translated (dt Y V : K) (l : List (Vec3 K)) :
    integrate dt (l.map (fun p => p + ⟨0, Y, 0⟩), List.replicate l.length ⟨0, V, 0⟩) =
      (l.map (fun p => p + ⟨0, Y + (V + -0.1 * dt) * 0.98 * dt, 0⟩),
       List.replicate l.length ⟨0, (V + -0.1 * dt) * 0.98, 0⟩) := by
  have hl := integrate_length dt (l.map (fun p => p + (⟨0, Y, 0⟩ : Vec3 K)))
    (List.replicate l.length (⟨0, V, 0⟩ : Vec3 K))
  have hpt : ∀ k, k < l.length →
      ((integrate dt (l.map (fun p => p + (⟨0, Y, 0⟩ : Vec3 K)),
          List.replicate l.length (⟨0, V, 0⟩ : Vec3 K))).1.getD k 0,
        (integrate dt (l.map (fun p => p + (⟨0, Y, 0⟩ : Vec3 K)),
          List.replicate l.length (⟨0, V, 0⟩ : Vec3 K))).2.getD k 0) =
      (l.getD k 0 + ⟨0, Y + (V + -0.1 * dt) * 0.98 * dt, 0⟩,
        ⟨0, (V + -0.1 * dt) * 0.98, 0⟩) := by
    intro k hk
    obtain ⟨_, _, h⟩ := integrate_pointwise dt (l.map (fun p => p + (⟨0, Y, 0⟩ : Vec3 K)))
      (List.replicate l.length (⟨0, V, 0⟩ : Vec3 K)) k (by simpa using hk) (by simpa using hk)
    rw [h, getD_map_add _ _ _ hk, getD_replicate_vec _ _ _ hk]
    simp only [integratePoint, gravity, damping]
    apply Prod.ext <;> ext <;>
      simp only [Vec3.add_x, Vec3.add_y, Vec3.add_z, Vec3.scale_x, Vec3.scale_y,
        Vec3.scale_z] <;> ring
  apply Prod.ext
  · apply ext_getD_vec
    · rw [hl.1]; simp
    · intro k hk
      have hk2 : k < l.length := by rw [hl.1] at hk; simpa using hk
      rw [getD_map_add _ _ _ hk2]
      exact congrArg Prod.fst (hpt k hk2)
  · apply ext_getD_vec
    · rw [hl.2]; simp
    · intro k hk
      have hk2 : k < l.length := by rw [hl.2] at hk; simpa using hk
      rw [getD_replicate_vec _ _ _ hk2]
      exact congrArg Prod.snd (hpt k hk2)

/-- One `Cloth::update` of a falling lattice that meets no collision is a falling
lattice again, lower by `|V'| * dt` with the new velocity `V'`. -/
theorem update_fall_step {sqrt : K → K} (hs : IsSqrt sqrt) (width height : Int)
    (spacing : K) (hsp : 0 < spacing) (dt : K) (off : Vec3 K) (c : Cloth K) (Y V : K)
    (hc : FallState width height spacing off c Y V)
    (hclear : ∀ p, p ∈ (integrate dt (c.positions, c.velocities)).1 →
      ¬ insideCube (p + off)) :
    FallState width height spacing off (c.update sqrt dt)
      (Y + (V + -0.1 * dt) * 0.98 * dt) ((V + -0.1 * dt) * 0.98) := by
  obtain ⟨h1, h2, h3, h4, h5, h6⟩ := hc
  rw [h1, h2, integrate_translated] at hclear
  have hrel : relaxIter sqrt width height spacing (spacing * 0.5) off
      ((Cloth.new width height spacing).positions.map
          (fun p => p + (⟨0, Y + (V + -0.1 * dt) * 0.98 * dt, 0⟩ : Vec3 K)),
        List.replicate (Cloth.new width height spacing).positions.length
          (⟨0, (V + -0.1 * dt) * 0.98, 0⟩ : Vec3 K)) =
      ((Cloth.new width height spacing).positions.map
          (fun p => p + (⟨0, Y + (V + -0.1 * dt) * 0.98 * dt, 0⟩ : Vec3 K)),
        List.replicate (Cloth.new width height spacing).positions.length
          (⟨0, (V + -0.1 * dt) * 0.98, 0⟩ : Vec3 K)) := by
    unfold relaxIter
    simp only
    rw [structuralPass_translated hs width height spacing hsp]
    exact collisionPass_no_inside off _ _ hclear
  have hloop : (List.range constraintIterations).foldl (fun pv _ =>
      relaxIter sqrt width height spacing (spacing * 0.5) off pv)
      ((Cloth.new width height spacing).positions.map
          (fun p => p + (⟨0, Y + (V + -0.1 * dt) * 0.98 * dt, 0⟩ : Vec3 K)),
        List.replicate (Cloth.new width height spacing).positions.length
          (⟨0, (V + -0.1 * dt) * 0.98, 0⟩ : Vec3 K)) =
      ((Cloth.new width height spacing).positions.map
          (fun p => p + (⟨0, Y + (V + -0.1 * dt) * 0.98 * dt, 0⟩ : Vec3 K)),
        List.replicate (Cloth.new width height spacing).positions.length
          (⟨0, (V + -0.1 * dt) * 0.98, 0⟩ : Vec3 K)) := by
    apply foldl_invariant (fun s => s =
      ((Cloth.new width height spacing).positions.map
          (fun p => p + (⟨0, Y + (V + -0.1 * dt) * 0.98 * dt, 0⟩ : Vec3 K)),
        List.replicate (Cloth.new width height spacing).positions.length
          (⟨0, (V + -0.1 * dt) * 0.98, 0⟩ : Vec3 K)))
    · rfl
    · intro s _ hs2
      rw [hs2]; exact hrel
  unfold FallState Cloth.update Cloth.recomputeNormals
  simp only [h1, h2, h3, h4, h5, h6, integrate_translated, hloop, and_self]

theorem map_add_zero (l : List (Vec3 K)) : l.map (fun p => p + (⟨0, 0, 0⟩ : Vec3 K)) = l := by
  have : (fun p : Vec3 K => p + (⟨0, 0, 0⟩ : Vec3 K)) = id := by
    funext p
    ext <;> simp
  rw [this, List.map_id]

theorem fallState_init (width height : Int) (spacing : K) (off : Vec3 K) :
    FallState width height spacing off ((Cloth.new width height spacing).setPosition off)
      0 0 := by
  refine ⟨?_, ?_, rfl, rfl, rfl, rfl⟩
  · rw [map_add_zero]; rfl
  · rw [new_positions_length]; rfl

/-- As long as the integrated cloth stays clear of the cube, the cloth after `k` steps is
the fresh lattice moved down, with a common downward velocity. -/
theorem fall_invariant {sqrt : K → K} (hs : IsSqrt sqrt) (width height : Int)
    (spacing : K) (hsp : 0 < spacing) (dt : K) (hdt : 0 < dt) (off : Vec3 K) (N : Nat)
    (hfar : ∀ j, j < N → ∀ p,
      p ∈ (integrate dt
        (((Cloth.update sqrt dt)^[j] ((Cloth.new width height spacing).setPosition off)).positions,
         ((Cloth.update sqrt dt)^[j]
          ((Cloth.new width height spacing).setPosition off)).velocities)).1 →
      ¬ insideCube (p + off))
    (k : Nat) (hk : k ≤ N) :
    ∃ Y V, FallState width height spacing off
      ((Cloth.update sqrt dt)^[k] ((Cloth.new width height spacing).setPosition off)) Y V ∧
      V ≤ 0 := by
  induction k with
  | zero => exact ⟨0, 0, fallState_init width height spacing off, le_refl 0⟩
  | succ k ih =>
    obtain ⟨Y, V, hst, hV⟩ := ih (by omega)
    rw [Function.iterate_succ_apply']
    refine ⟨_, _, update_fall_step hs width height spacing hsp dt off _ Y V hst
      (hfar k (by omega)), ?_⟩
    have h1 : V + -0.1 * dt ≤ 0 := by
      have : (0 : K) ≤ 0.1 * dt := mul_nonneg (by norm_num) (le_of_lt hdt)
      linarith
    exact mul_nonpos_of_nonpos_of_nonneg h1 (by norm_num)

/-- One step of the fall: every point gets strictly lower and every structural edge
keeps the rest length. -/
theorem fall_step_properties {sqrt : K → K} (hs : IsSqrt sqrt) (width height : Int)
    (spacing : K) (hsp : 0 < spacing) (dt : K) (hdt : 0 < dt) (off : Vec3 K) (c : Cloth K)
    (Y V : K) (hV : V ≤ 0) (hc : FallState width height spacing off c Y V)
    (hclear : ∀ p, p ∈ (integrate dt (c.positions, c.velocities)).1 →
      ¬ insideCube (p + off)) :
    (c.update sqrt dt).positions.length = (Cloth.new width height spacing).positions.length ∧
    (∀ i, i < (Cloth.new width height spacing).positions.length →
      ((c.update sqrt dt).positions.getD i 0).y < (c.positions.getD i 0).y) ∧
    (∀ x y : Nat, (x : Int) < width - 1 → (y : Int) < height →
      Vec3.length sqrt
        ((c.update sqrt dt).positions.getD ((y : Int) * width + x + 1).toNat 0 -
          (c.update sqrt dt).positions.getD ((y : Int) * width + x).toNat 0) = spacing) ∧
    (∀ x y : Nat, (x : Int) < width → (y : Int) < height - 1 →
      Vec3.length sqrt
        ((c.update sqrt dt).positions.getD ((y : Int) * width + x + width).toNat 0 -
          (c.update sqrt dt).positions.getD ((y : Int) * width + x).toNat 0) = spacing) := by
  have hnext := update_fall_step hs width height spacing hsp dt off c Y V hc hclear
  have hV2 : (V + -0.1 * dt) * 0.98 * dt < 0 := by
    have h0 : (0 : K) < 0.1 * dt := mul_pos (by norm_num) hdt
    have h1 : V + -0.1 * dt < 0 := by linarith
    have h2 : (V + -0.1 * dt) * 0.98 < 0 := mul_neg_of_neg_of_pos h1 (by norm_num)
    exact mul_neg_of_neg_of_pos h2 hdt
  rw [hnext.1, hc.1]
  refine ⟨by simp, fun i hi => ?_, fun x y hx hy => ?_, fun x y hx hy => ?_⟩
  · rw [getD_map_add _ _ _ hi, getD_map_add _ _ _ hi]
    simp only [Vec3.add_y]
    linarith
  · have b0 := grid_index width height x y (by omega) hy spacing
    have b1 := grid_index width height (x + 1) y (by push_cast; omega) hy spacing
    have e : (y : Int) * width + x + 1 = (y : Int) * width + ((x + 1 : Nat) : Int) := by
      push_cast; ring
    have hr := new_edge_right width height spacing x y hx hy
    rw [e] at hr ⊢
    rw [b0.1, b1.1] at hr ⊢
    rw [getD_map_add _ _ _ b0.2, getD_map_add _ _ _ b1.2, Vec3.add_sub_add_right, hr]
    exact length_axis_x hs spacing (le_of_lt hsp)
  · have b0 := grid_index width height x y hx (by omega) spacing
    have b1 := grid_index width height x (y + 1) hx (by push_cast; omega) spacing
    have e : (y : Int) * width + x + width = ((y + 1 : Nat) : Int) * width + (x : Int) := by
      push_cast; ring
    have hr := new_edge_down width height spacing x y hx hy
    rw [e] at hr ⊢
    rw [b0.1, b1.1] at hr ⊢
    rw [getD_map_add _ _ _ b0.2, getD_map_add _ _ _ b1.2, Vec3.add_sub_add_right, hr]
    exact length_axis_z hs spacing (le_of_lt hsp)

/-- C14: a freshly constructed `4 x 4` cloth with `spacing = 0.1`, at a world offset for
which no point comes strictly inside the cube when the integrated positions are tested,
during `100` steps of `Cloth::update` with `deltaTime = 0.016`: at every step every
point's y-position decreases, and after every step the distance of every pair of right
and of down neighbours lies in `[0.05, 0.15]` (it equals `spacing`). -/
theorem fall_scenario {sqrt : K → K} (hs : IsSqrt sqrt) (worldOffset : Vec3 K)
    (hfar : ∀ j, j < 100 → ∀ p,
      p ∈ (integrate 0.016
        (((Cloth.update sqrt 0.016)^[j]
            ((Cloth.new 4 4 (0.1 : K)).setPosition worldOffset)).positions,
         ((Cloth.update sqrt 0.016)^[j]
            ((Cloth.new 4 4 (0.1 : K)).setPosition worldOffset)).velocities)).1 →
      ¬ insideCube (p + worldOffset))
    (k : Nat) (hk : k < 100) :
    ((Cloth.update sqrt 0.016)^[k + 1]
      ((Cloth.new 4 4 (0.1 : K)).setPosition worldOffset)).positions.length = 16 ∧
    (∀ i, i < 16 →
      (((Cloth.update sqrt 0.016)^[k + 1]
        ((Cloth.new 4 4 (0.1 : K)).setPosition worldOffset)).positions.getD i 0).y <
      (((Cloth.update sqrt 0.016)^[k]
        ((Cloth.new 4 4 (0.1 : K)).setPosition worldOffset)).positions.getD i 0).y) ∧
    (∀ x y : Nat, x + 1 < 4 → y < 4 →
      0.05 ≤ Vec3.length sqrt
        (((Cloth.update sqrt 0.016)^[k + 1]
            ((Cloth.new 4 4 (0.1 : K)).setPosition worldOffset)).positions.getD
              (y * 4 + x + 1) 0 -
          ((Cloth.update sqrt 0.016)^[k + 1]
            ((Cloth.new 4 4 (0.1 : K)).setPosition worldOffset)).positions.getD
              (y * 4 + x) 0) ∧
      Vec3.length sqrt
        (((Cloth.update sqrt 0.016)^[k + 1]
            ((Cloth.new 4 4 (0.1 : K)).setPosition worldOffset)).positions.getD
              (y * 4 + x + 1) 0 -
          ((Cloth.update sqrt 0.016)^[k + 1]
            ((Cloth.new 4 4 (0.1 : K)).setPosition worldOffset)).positions.getD
              (y * 4 + x) 0) ≤ 0.15) ∧
    (∀ x y : Nat, x < 4 → y + 1 < 4 →
      0.05 ≤ Vec3.length sqrt
        (((Cloth.update sqrt 0.016)^[k + 1]
            ((Cloth.new 4 4 (0.1 : K)).setPosition worldOffset)).positions.getD
              ((y + 1) * 4 + x) 0 -
          ((Cloth.update sqrt 0.016)^[k + 1]
            ((Cloth.new 4 4 (0.1 : K)).setPosition worldOffset)).positions.getD
              (y * 4 + x) 0) ∧
      Vec3.length sqrt
        (((Cloth.update sqrt 0.016)^[k + 1]
            ((Cloth.new 4 4 (0.1 : K)).setPosition worldOffset)).positions.getD
              ((y + 1) * 4 + x) 0 -
          ((Cloth.update sqrt 0.016)^[k + 1]
            ((Cloth.new 4 4 (0.1 : K)).setPosition worldOffset)).positions.getD
              (y * 4 + x) 0) ≤ 0.15) := by
  obtain ⟨Y, V, hst, hV⟩ := fall_invariant hs 4 4 (0.1 : K) (by norm_num) 0.016
    (by norm_num) worldOffset 100 hfar k (le_of_lt hk)
  obtain ⟨p1, p2, p3, p4⟩ := fall_step_properties hs 4 4 (0.1 : K) (by norm_num) 0.016
    (by norm_num) worldOffset _ Y V hV hst (hfar k hk)
  have h16 : (Cloth.new 4 4 (0.1 : K)).positions.length = 16 := by
    rw [new_positions_length]; rfl
  rw [Function.iterate_succ_apply']
  rw [h16] at p1 p2
  refine ⟨p1, p2, fun x y hx hy => ?_, fun x y hx hy => ?_⟩
  · have := p3 x y (by omega) (by omega)
    have e1 : ((y : Int) * 4 + x + 1).toNat = y * 4 + x + 1 := by omega
    have e2 : ((y : Int) * 4 + x).toNat = y * 4 + x := by omega
    rw [e1, e2] at this
    rw [this]
    constructor <;> norm_num
  · have := p4 x y (by omega) (by omega)
    have e1 : ((y : Int) * 4 + x + 4).toNat = (y + 1) * 4 + x := by omega
    have e2 : ((y : Int) * 4 + x).toNat = y * 4 + x := by omega
    rw [e1, e2] at this
    rw [this]
    constructor <;> norm_num

/-- If the vertical line through every lattice point misses the cube, the falling cloth
never meets a collision. -/
theorem fall_clear_of_column {sqrt : K → K} (hs : IsSqrt sqrt) (width height : Int)
    (spacing : K) (hsp : 0 < spacing) (dt : K) (off : Vec3 K)
    (hcol : ∀ (Y : K) (p : Vec3 K), p ∈ (Cloth.new width height spacing).positions →
      ¬ insideCube (p + ⟨0, Y, 0⟩ + off))
    (j : Nat) :
    (∃ Y V, FallState width height spacing off
      ((Cloth.update sqrt dt)^[j] ((Cloth.new width height spacing).setPosition off)) Y V) ∧
    (∀ p, p ∈ (integrate dt
        (((Cloth.update sqrt dt)^[j] ((Cloth.new width height spacing).setPosition off)).positions,
         ((Cloth.update sqrt dt)^[j]
          ((Cloth.new width height spacing).setPosition off)).velocities)).1 →
      ¬ insideCube (p + off)) := by
  have hsecond : ∀ (c : Cloth K) (Y V : K), FallState width height spacing off c Y V →
      ∀ p, p ∈ (integrate dt (c.positions, c.velocities)).1 → ¬ insideCube (p + off) := by
    intro c Y V hc p hp
    rw [hc.1, hc.2.1, integrate_translated] at hp
    simp only [List.mem_map] at hp
    obtain ⟨q, hq, hqp⟩ := hp
    rw [← hqp]
    exact hcol _ q hq
  induction j with
  | zero =>
    exact ⟨⟨0, 0, fallState_init width height spacing off⟩,
      hsecond _ 0 0 (fallState_init width height spacing off)⟩
  | succ j ih =>
    obtain ⟨⟨Y, V, hst⟩, hcl⟩ := ih
    have hnext := update_fall_step hs width height spacing hsp dt off _ Y V hst hcl
    rw [Function.iterate_succ_apply']
    exact ⟨⟨_, _, hnext⟩, hsecond _ _ _ hnext⟩

/-- Five units to the side of the cube the `4 x 4` cloth with `spacing = 0.1` misses it at
every height. -/
theorem sample_column_clear (Y : ℝ) (p : Vec3 ℝ)
    (hp : p ∈ (Cloth.new 4 4 (0.1 : ℝ)).positions) :
    ¬ insideCube (p + ⟨0, Y, 0⟩ + ⟨5, 0, 0⟩) := by
  obtain ⟨i, hi, hpi⟩ := List.mem_iff_getElem.mp hp
  have h16 : (Cloth.new 4 4 (0.1 : ℝ)).positions.length = 16 := by
    rw [new_positions_length]; rfl
  have hget := new_positions_getD 4 4 (0.1 : ℝ) (i % 4) (i / 4)
    (by have := Nat.mod_lt i (by norm_num : 4 > 0); omega) (by omega)
  have hidx : i / 4 * (4 : Int).toNat + i % 4 = i := by
    have : (4 : Int).toNat = 4 := rfl
    rw [this]; omega
  rw [hidx, List.getD_eq_getElem _ 0 hi, hpi] at hget
  intro hin
  obtain ⟨_, h2, _⟩ := hin
  rw [hget] at h2
  simp only [Vec3.add_x, cubeMax] at h2
  have hx : (0 : ℝ) ≤ ((i % 4 : Nat) : ℝ) := Nat.cast_nonneg _
  norm_num at h2
  linarith

/-- Witness for C14: the cloth five units to the side of the cube, over the reals,
step `7`. -/
theorem fall_scenario_witness :
    (((Cloth.update Real.sqrt 0.016)^[7 + 1]
      ((Cloth.new 4 4 (0.1 : ℝ)).setPosition ⟨5, 0, 0⟩)).positions.getD 5 0).y <
    (((Cloth.update Real.sqrt 0.016)^[7]
      ((Cloth.new 4 4 (0.1 : ℝ)).setPosition ⟨5, 0, 0⟩)).positions.getD 5 0).y :=
  (fall_scenario isSqrt_real (⟨5, 0, 0⟩ : Vec3 ℝ)
    (fun j _ => (fall_clear_of_column isSqrt_real 4 4 (0.1 : ℝ) (by norm_num) 0.016
      ⟨5, 0, 0⟩ sample_column_clear j).2) 7 (by norm_num)).2.1 5 (by norm_num)

end Fall

/-! ## Normals of the flat grid -/

section FlatNormals

variable {K : Type} [LinearOrderedField K]

/-- Float `r` of record `(x, y)` of the generated vertex buffer. -/
theorem generateVertices_getD (W H : Nat) (spacing : K) (x y r : Nat) (hx : x < W)
    (hy : y < H) (hr : r < 6) :
    (generateVertices (W : Int) (H : Int) spacing).getD (6 * (y * W + x) + r) 0 =
      (vertexRecord (W : Int) (H : Int) spacing y x).getD r 0 := by
  have h := vertexRecord_at (W : Int) (H : Int) spacing x y (by omega) (by omega)
  rw [Int.toNat_ofNat] at h
  exact getD_of_drop_take _ _ _ 6 r 0 h hr

/-- Entry `r` of quad `(x, y)` of the generated index list. -/
theorem generateIndices_getD (W H : Nat) (x y r : Nat) (hx : x + 1 < W) (hy : y + 1 < H)
    (hr : r < 6) :
    (generateIndices (W : Int) (H : Int)).getD (6 * (y * (W - 1) + x) + r) 0 =
      (quadIndices (W : Int) y x).getD r 0 := by
  have hW : ((W : Int) - 1).toNat = W - 1 := by omega
  have hH : ((H : Int) - 1).toNat = H - 1 := by omega
  have h := flatMap_range_range_block (quadIndices (W : Int)) (quadIndices_length (W : Int))
    (H - 1) (W - 1) y x (by omega) (by omega)
  rw [generateIndices_eq_flatMap, hW, hH]
  exact getD_of_drop_take _ _ _ 6 r 0 h hr

/-- The six indices of quad `(x, y)` in natural numbers. -/
theorem quadIndices_nat (W x y : Nat) :
    quadIndices (W : Int) y x =
      [y * W + x, (y + 1) * W + x, y * W + x + 1,
       y * W + x + 1, (y + 1) * W + x, (y + 1) * W + x + 1] := by
  have e1 : ((y : Int) * (W : Int) + (x : Int)) = ((y * W + x : Nat) : Int) := by push_cast; rfl
  have e2 : (((y : Int) + 1) * (W : Int) + (x : Int)) = (((y + 1) * W + x : Nat) : Int) := by
    push_cast; rfl
  have e3 : ((y : Int) * (W : Int) + (x : Int) + 1) = ((y * W + x + 1 : Nat) : Int) := by
    push_cast; rfl
  have e4 : (((y : Int) + 1) * (W : Int) + (x : Int) + 1) =
      (((y + 1) * W + x + 1 : Nat) : Int) := by
    push_cast; rfl
  have e5 : ∀ m : Nat, ((m : Int) + 1).toNat = m + 1 := fun m => by omega
  simp only [quadIndices, e1, e2, Int.toNat_ofNat, e5]

theorem addAt_getD (v : List K) (k j : Nat) (a : K) :
    (addAt v k a).getD j 0 = if k = j ∧ k < v.length then v.getD j 0 + a else v.getD j 0 := by
  unfold addAt
  rw [getD_set_if]
  by_cases h : k = j
  · subst h
    rfl
  · simp [h]

theorem addAt_zero (v : List K) (k : Nat) : addAt v k 0 = v := by
  unfold addAt
  rw [add_zero, set_getD_self]

/-- Normalising an upward vector gives `(0, 1, 0)`. -/
theorem normalize_up {sqrt : K → K} (hs : IsSqrt sqrt) (c : K) (hc : 0 < c) :
    Vec3.normalize sqrt (⟨0, c, 0⟩ : Vec3 K) = ⟨0, 1, 0⟩ := by
  unfold Vec3.normalize
  have hd : Vec3.dot (⟨0, c, 0⟩ : Vec3 K) ⟨0, c, 0⟩ = c * c := by simp [Vec3.dot]
  rw [hd, sqrt_mul_self_of_nonneg hs c (le_of_lt hc)]
  ext
  · simp
  · simp only [Vec3.scale_y]
    field_simp
  · simp

/-- First triangle of a quad (`topLeft, bottomLeft, topRight`): face normal `(0,1,0)`. -/
theorem faceNormal_first {sqrt : K → K} (hs : IsSqrt sqrt) (s : K) (hsp : 0 < s)
    (a c : K) :
    Vec3.normalize sqrt (Vec3.cross ((⟨a, 0, c + s⟩ : Vec3 K) - ⟨a, 0, c⟩)
      ((⟨a + s, 0, c⟩ : Vec3 K) - ⟨a, 0, c⟩)) = ⟨0, 1, 0⟩ := by
  have h : Vec3.cross ((⟨a, 0, c + s⟩ : Vec3 K) - ⟨a, 0, c⟩)
      ((⟨a + s, 0, c⟩ : Vec3 K) - ⟨a, 0, c⟩) = ⟨0, s * s, 0⟩ := by
    ext <;> simp only [Vec3.cross, Vec3.sub_x, Vec3.sub_y, Vec3.sub_z] <;> ring
  rw [h]
  exact normalize_up hs (s * s) (mul_pos hsp hsp)

/-- Second triangle of a quad (`topRight, bottomLeft, bottomRight`): face normal
`(0,1,0)`. -/
theorem faceNormal_second {sqrt : K → K} (hs : IsSqrt sqrt) (s : K) (hsp : 0 < s)
    (a c : K) :
    Vec3.normalize sqrt (Vec3.cross ((⟨a, 0, c + s⟩ : Vec3 K) - ⟨a + s, 0, c⟩)
      ((⟨a + s, 0, c + s⟩ : Vec3 K) - ⟨a + s, 0, c⟩)) = ⟨0, 1, 0⟩ := by
  have h : Vec3.cross ((⟨a, 0, c + s⟩ : Vec3 K) - ⟨a + s, 0, c⟩)
      ((⟨a + s, 0, c + s⟩ : Vec3 K) - ⟨a + s, 0, c⟩) = ⟨0, s * s, 0⟩ := by
    ext <;> simp only [Vec3.cross, Vec3.sub_x, Vec3.sub_y, Vec3.sub_z] <;> ring
  rw [h]
  exact normalize_up hs (s * s) (mul_pos hsp hsp)

/-- Triangle `t` of the generated index list belongs to quad `(x, y)` with
`x = (t/2) % (W-1)`, `y = (t/2) / (W-1)`; its entries are entries `3*(t%2) + r` of that
quad. -/
theorem triangle_indices (W H t r : Nat) (hW : 2 ≤ W) (hH : 2 ≤ H)
    (ht : t < 2 * ((W - 1) * (H - 1))) (hr : r < 3) :
    (t / 2) % (W - 1) + 1 < W ∧ (t / 2) / (W - 1) + 1 < H ∧
    (generateIndices (W : Int) (H : Int)).getD (3 * t + r) 0 =
      (quadIndices (W : Int) ((t / 2) / (W - 1)) ((t / 2) % (W - 1))).getD
        (3 * (t % 2) + r) 0 := by
  have hW1 : 0 < W - 1 := by omega
  have hx : (t / 2) % (W - 1) < W - 1 := Nat.mod_lt _ hW1
  have hq : t / 2 < (W - 1) * (H - 1) := by omega
  have hy : (t / 2) / (W - 1) < H - 1 := by
    rw [Nat.div_lt_iff_lt_mul hW1, Nat.mul_comm]
    exact hq
  have hdm : (t / 2) / (W - 1) * (W - 1) + (t / 2) % (W - 1) = t / 2 := by
    rw [Nat.mul_comm]; exact Nat.div_add_mod _ _
  refine ⟨by omega, by omega, ?_⟩
  have hidx : 3 * t + r = 6 * ((t / 2) / (W - 1) * (W - 1) + (t / 2) % (W - 1)) +
      (3 * (t % 2) + r) := by
    rw [hdm]; omega
  rw [hidx]
  exact generateIndices_getD W H _ _ _ (by omega) (by omega) (by omega)

/-- Reading the position of grid point `(x, y)` from a buffer that has the position fields
of the generated vertex buffer. -/
theorem position_read (W H : Nat) (spacing : K) (vd : List K)
    (hsame : SamePositions vd (generateVertices (W : Int) (H : Int) spacing))
    (hfit : 6 * (W * H) ≤ 4294967296) (x y : Nat) (hx : x < W) (hy : y < H) :
    (⟨vd.getD (uidx (y * W + x) 0) 0, vd.getD (uidx (y * W + x) 1) 0,
      vd.getD (uidx (y * W + x) 2) 0⟩ : Vec3 K) =
      ⟨(x : K) * spacing - (((W : Int) - 1 : Int) : K) * spacing * 0.5, 0,
       (y : K) * spacing - (((H : Int) - 1 : Int) : K) * spacing * 0.5⟩ := by
  have hlt : y * W + x < W * H := by
    have : (y + 1) * W ≤ H * W := Nat.mul_le_mul_right _ hy
    rw [Nat.succ_mul] at this
    rw [Nat.mul_comm W H]
    omega
  have hread : ∀ r, r < 3 → vd.getD (uidx (y * W + x) r) 0 =
      (vertexRecord (W : Int) (H : Int) spacing y x).getD r 0 := by
    intro r hr
    rw [uidx_eq _ r (W * H) hlt (by omega) hfit, hsame.2 _ (by omega),
      Nat.mul_comm (y * W + x) 6, generateVertices_getD W H spacing x y r hx hy (by omega)]
  rw [hread 0 (by norm_num), hread 1 (by norm_num), hread 2 (by norm_num)]
  rfl

/-- A triangle whose face normal is `(0,1,0)` adds `1` to the y-normal field of its three
vertices and nothing else. -/
theorem accumulateTriangle_of_up (sqrt : K → K) (indexData : List Nat) (vd : List K)
    (t n i0 i1 i2 : Nat) (e0 : indexData.getD (3 * t + 0) 0 = i0)
    (e1 : indexData.getD (3 * t + 1) 0 = i1) (e2 : indexData.getD (3 * t + 2) 0 = i2)
    (h0 : i0 < n) (h1 : i1 < n) (h2 : i2 < n) (hfit : 6 * n ≤ 4294967296)
    (hn : Vec3.normalize sqrt (Vec3.cross
      ((⟨vd.getD (uidx i1 0) 0, vd.getD (uidx i1 1) 0, vd.getD (uidx i1 2) 0⟩ : Vec3 K) -
        ⟨vd.getD (uidx i0 0) 0, vd.getD (uidx i0 1) 0, vd.getD (uidx i0 2) 0⟩)
      ((⟨vd.getD (uidx i2 0) 0, vd.getD (uidx i2 1) 0, vd.getD (uidx i2 2) 0⟩ : Vec3 K) -
        ⟨vd.getD (uidx i0 0) 0, vd.getD (uidx i0 1) 0, vd.getD (uidx i0 2) 0⟩)) =
      ⟨0, 1, 0⟩) :
    accumulateTriangle sqrt indexData vd t =
      addAt (addAt (addAt vd (i0 * 6 + 4) 1) (i1 * 6 + 4) 1) (i2 * 6 + 4) 1 := by
  unfold accumulateTriangle
  simp only [e0, e1, e2, hn, addAt_zero]
  rw [uidx_eq i0 4 n h0 (by norm_num) hfit, uidx_eq i1 4 n h1 (by norm_num) hfit,
    uidx_eq i2 4 n h2 (by norm_num) hfit]

theorem grid_index_lt (W H x y : Nat) (hx : x < W) (hy : y < H) : y * W + x < W * H := by
  have : (y + 1) * W ≤ H * W := Nat.mul_le_mul_right _ hy
  rw [Nat.succ_mul] at this
  rw [Nat.mul_comm W H]
  omega

/-- On a buffer with the position fields of the flat grid, every triangle of the
generated index list adds `1` to the y-normal field of its three vertices. -/
theorem accumulateTriangle_flat {sqrt : K → K} (hs : IsSqrt sqrt) (W H : Nat) (hW : 2 ≤ W)
    (hH : 2 ≤ H) (spacing : K) (hsp : 0 < spacing) (vd : List K)
    (hsame : SamePositions vd (generateVertices (W : Int) (H : Int) spacing))
    (hfit : 6 * (W * H) ≤ 4294967296) (t : Nat) (ht : t < 2 * ((W - 1) * (H - 1))) :
    (generateIndices (W : Int) (H : Int)).getD (3 * t + 0) 0 < W * H ∧
    (generateIndices (W : Int) (H : Int)).getD (3 * t + 1) 0 < W * H ∧
    (generateIndices (W : Int) (H : Int)).getD (3 * t + 2) 0 < W * H ∧
    accumulateTriangle sqrt (generateIndices (W : Int) (H : Int)) vd t =
      addAt (addAt (addAt vd
        ((generateIndices (W : Int) (H : Int)).getD (3 * t + 0) 0 * 6 + 4) 1)
        ((generateIndices (W : Int) (H : Int)).getD (3 * t + 1) 0 * 6 + 4) 1)
        ((generateIndices (W : Int) (H : Int)).getD (3 * t + 2) 0 * 6 + 4) 1 := by
  obtain ⟨hx, hy, q0⟩ := triangle_indices W H t 0 hW hH ht (by norm_num)
  obtain ⟨_, _, q1⟩ := triangle_indices W H t 1 hW hH ht (by norm_num)
  obtain ⟨_, _, q2⟩ := triangle_indices W H t 2 hW hH ht (by norm_num)
  generalize (t / 2) % (W - 1) = x at hx q0 q1 q2
  generalize (t / 2) / (W - 1) = y at hy q0 q1 q2
  rw [quadIndices_nat] at q0 q1 q2
  have pr := fun x y hx hy => position_read W H spacing vd hsame hfit x y hx hy
  have hcx : ((x + 1 : Nat) : K) * spacing - (((W : Int) - 1 : Int) : K) * spacing * 0.5 =
      (x : K) * spacing - (((W : Int) - 1 : Int) : K) * spacing * 0.5 + spacing := by
    push_cast; ring
  have hcy : ((y + 1 : Nat) : K) * spacing - (((H : Int) - 1 : Int) : K) * spacing * 0.5 =
      (y : K) * spacing - (((H : Int) - 1 : Int) : K) * spacing * 0.5 + spacing := by
    push_cast; ring
  rcases Nat.mod_two_eq_zero_or_one t with hb | hb
  · rw [hb] at q0 q1 q2
    have e0 : (generateIndices (W : Int) (H : Int)).getD (3 * t + 0) 0 = y * W + x := by
      rw [q0]; rfl
    have e1 : (generateIndices (W : Int) (H : Int)).getD (3 * t + 1) 0 = (y + 1) * W + x := by
      rw [q1]; rfl
    have e2 : (generateIndices (W : Int) (H : Int)).getD (3 * t + 2) 0 = y * W + (x + 1) := by
      rw [q2]; rfl
    have b0 := grid_index_lt W H x y (by omega) (by omega)
    have b1 := grid_index_lt W H x (y + 1) (by omega) (by omega)
    have b2 := grid_index_lt W H (x + 1) y (by omega) (by omega)
    refine ⟨by rw [e0]; exact b0, by rw [e1]; exact b1, by rw [e2]; exact b2, ?_⟩
    rw [accumulateTriangle_of_up sqrt _ vd t (W * H) _ _ _ e0 e1 e2 b0 b1 b2 hfit ?_, e0, e1, e2]
    rw [pr x y (by omega) (by omega), pr x (y + 1) (by omega) (by omega),
      pr (x + 1) y (by omega) (by omega), hcx, hcy]
    exact faceNormal_first hs spacing hsp _ _
  · rw [hb] at q0 q1 q2
    have e0 : (generateIndices (W : Int) (H : Int)).getD (3 * t + 0) 0 = y * W + (x + 1) := by
      rw [q0]; rfl
    have e1 : (generateIndices (W : Int) (H : Int)).getD (3 * t + 1) 0 = (y + 1) * W + x := by
      rw [q1]; rfl
    have e2 : (generateIndices (W : Int) (H : Int)).getD (3 * t + 2) 0 =
        (y + 1) * W + (x + 1) := by
      rw [q2]; rfl
    have b0 := grid_index_lt W H (x + 1) y (by omega) (by omega)
    have b1 := grid_index_lt W H x (y + 1) (by omega) (by omega)
    have b2 := grid_index_lt W H (x + 1) (y + 1) (by omega) (by omega)
    refine ⟨by rw [e0]; exact b0, by rw [e1]; exact b1, by rw [e2]; exact b2, ?_⟩
    rw [accumulateTriangle_of_up sqrt _ vd t (W * H) _ _ _ e0 e1 e2 b0 b1 b2 hfit ?_, e0, e1, e2]
    rw [pr (x + 1) y (by omega) (by omega), pr x (y + 1) (by omega) (by omega),
      pr (x + 1) (y + 1) (by omega) (by omega), hcx, hcy]
    exact faceNormal_second hs spacing hsp _ _

/-- Adding `1` to a y-normal field: other kinds of field are untouched, no field
decreases, and the field itself grows by `1`. -/
theorem addAt_up (v : List K) (i n : Nat) (hi : i < n) (hlen : v.length = 6 * n) :
    (addAt v (i * 6 + 4) 1).length = v.length ∧
    (∀ j, j % 6 ≠ 4 → (addAt v (i * 6 + 4) 1).getD j 0 = v.getD j 0) ∧
    (∀ j, v.getD j 0 ≤ (addAt v (i * 6 + 4) 1).getD j 0) ∧
    v.getD (i * 6 + 4) 0 + 1 ≤ (addAt v (i * 6 + 4) 1).getD (i * 6 + 4) 0 := by
  refine ⟨addAt_length _ _ _, fun j hj => ?_, fun j => ?_, ?_⟩
  · rw [addAt_getD, if_neg (fun h => hj (by omega))]
  · rw [addAt_getD]
    split_ifs
    · linarith
    · exact le_refl _
  · rw [addAt_getD, if_pos ⟨rfl, by omega⟩]

/-- The state of the accumulation loop on the flat grid after `t` triangles: position
fields as generated, x- and z-normal fields zero, y-normal fields non-negative and at
least `1` at every vertex of a triangle already visited. -/
theorem accumulate_flat_inv {sqrt : K → K} (hs : IsSqrt sqrt) (W H : Nat) (hW : 2 ≤ W)
    (hH : 2 ≤ H) (spacing : K) (hsp : 0 < spacing) (hfit : 6 * (W * H) ≤ 4294967296)
    (t : Nat) (ht : t ≤ 2 * ((W - 1) * (H - 1))) :
    SamePositions ((List.range t).foldl
        (accumulateTriangle sqrt (generateIndices (W : Int) (H : Int)))
        (zeroNormals (generateVertices (W : Int) (H : Int) spacing)))
      (generateVertices (W : Int) (H : Int) spacing) ∧
    (∀ j, (j % 6 = 3 ∨ j % 6 = 5) → ((List.range t).foldl
        (accumulateTriangle sqrt (generateIndices (W : Int) (H : Int)))
        (zeroNormals (generateVertices (W : Int) (H : Int) spacing))).getD j 0 = 0) ∧
    (∀ j, j % 6 = 4 → 0 ≤ ((List.range t).foldl
        (accumulateTriangle sqrt (generateIndices (W : Int) (H : Int)))
        (zeroNormals (generateVertices (W : Int) (H : Int) spacing))).getD j 0) ∧
    (∀ t2 r, t2 < t → r < 3 → 1 ≤ ((List.range t).foldl
        (accumulateTriangle sqrt (generateIndices (W : Int) (H : Int)))
        (zeroNormals (generateVertices (W : Int) (H : Int) spacing))).getD
          ((generateIndices (W : Int) (H : Int)).getD (3 * t2 + r) 0 * 6 + 4) 0) := by
  have hlen0 : (generateVertices (W : Int) (H : Int) spacing).length = 6 * (W * H) := by
    rw [generateVertices_length, Int.toNat_ofNat, Int.toNat_ofNat, Nat.mul_assoc]
  induction t with
  | zero =>
    simp only [List.range_zero, List.foldl_nil]
    refine ⟨zeroNormals_same _, fun j hj => ?_, fun j hj => ?_, fun t2 r h => ?_⟩
    · rw [zeroNormals_getD _ _ hlen0, if_pos (by omega)]
    · rw [zeroNormals_getD _ _ hlen0, if_pos (by omega)]
    · omega
  | succ t ih =>
    obtain ⟨i1, i2, i3, i4⟩ := ih (by omega)
    rw [List.range_succ, List.foldl_append]
    simp only [List.foldl_cons, List.foldl_nil]
    generalize (List.range t).foldl
      (accumulateTriangle sqrt (generateIndices (W : Int) (H : Int)))
      (zeroNormals (generateVertices (W : Int) (H : Int) spacing)) = vd at i1 i2 i3 i4 ⊢
    obtain ⟨b0, b1, b2, hacc⟩ := accumulateTriangle_flat hs W H hW hH spacing hsp vd i1 hfit t
      (by omega)
    rw [hacc]
    generalize hg0 : (generateIndices (W : Int) (H : Int)).getD (3 * t + 0) 0 = a0 at b0 ⊢
    generalize hg1 : (generateIndices (W : Int) (H : Int)).getD (3 * t + 1) 0 = a1 at b1 ⊢
    generalize hg2 : (generateIndices (W : Int) (H : Int)).getD (3 * t + 2) 0 = a2 at b2 ⊢
    have hlen : vd.length = 6 * (W * H) := by rw [i1.1]; exact hlen0
    obtain ⟨p1, p2, p3, p4⟩ := addAt_up vd a0 (W * H) b0 hlen
    obtain ⟨q1, q2, q3, q4⟩ := addAt_up (addAt vd (a0 * 6 + 4) 1) a1 (W * H) b1
      (by rw [p1]; exact hlen)
    obtain ⟨r1, r2, r3, r4⟩ := addAt_up (addAt (addAt vd (a0 * 6 + 4) 1) (a1 * 6 + 4) 1) a2
      (W * H) b2 (by rw [q1, p1]; exact hlen)
    have hmono : ∀ j, vd.getD j 0 ≤
        (addAt (addAt (addAt vd (a0 * 6 + 4) 1) (a1 * 6 + 4) 1) (a2 * 6 + 4) 1).getD j 0 :=
      fun j => le_trans (p3 j) (le_trans (q3 j) (r3 j))
    refine ⟨⟨by rw [r1, q1, p1]; exact i1.1, fun j hj => ?_⟩, fun j hj => ?_, fun j hj => ?_,
      fun t2 r ht2 hr => ?_⟩
    · rw [r2 j (by omega), q2 j (by omega), p2 j (by omega)]
      exact i1.2 j hj
    · rw [r2 j (by omega), q2 j (by omega), p2 j (by omega)]
      exact i2 j hj
    · exact le_trans (i3 j hj) (hmono j)
    · by_cases hlt : t2 < t
      · exact le_trans (i4 t2 r hlt hr) (hmono _)
      · have ht2e : t2 = t := by omega
        subst ht2e
        have z0 := i3 (a0 * 6 + 4) (by omega)
        have z1 := i3 (a1 * 6 + 4) (by omega)
        have z2 := i3 (a2 * 6 + 4) (by omega)
        have c0 : 1 ≤ (addAt (addAt (addAt vd (a0 * 6 + 4) 1) (a1 * 6 + 4) 1)
            (a2 * 6 + 4) 1).getD (a0 * 6 + 4) 0 := by
          have := le_trans p4 (le_trans (q3 _) (r3 _))
          linarith
        have c1 : 1 ≤ (addAt (addAt (addAt vd (a0 * 6 + 4) 1) (a1 * 6 + 4) 1)
            (a2 * 6 + 4) 1).getD (a1 * 6 + 4) 0 := by
          have := le_trans q4 (r3 _)
          have := p3 (a1 * 6 + 4)
          linarith
        have c2 : 1 ≤ (addAt (addAt (addAt vd (a0 * 6 + 4) 1) (a1 * 6 + 4) 1)
            (a2 * 6 + 4) 1).getD (a2 * 6 + 4) 0 := by
          have := le_trans (p3 (a2 * 6 + 4)) (q3 (a2 * 6 + 4))
          linarith
        interval_cases r
        · rw [hg0]; exact c0
        · rw [hg1]; exact c1
        · rw [hg2]; exact c2

/-- Every vertex of the grid is a vertex of some triangle of the generated index list. -/
theorem vertex_covered (W H : Nat) (hW : 2 ≤ W) (hH : 2 ≤ H) (v : Nat) (hv : v < W * H) :
    ∃ t r, t < 2 * ((W - 1) * (H - 1)) ∧ r < 3 ∧
      (generateIndices (W : Int) (H : Int)).getD (3 * t + r) 0 = v := by
  have hWpos : 0 < W := by omega
  have hx : v % W < W := Nat.mod_lt _ hWpos
  have hy : v / W < H := Nat.div_lt_of_lt_mul hv
  have hdm : v / W * W + v % W = v := by
    rw [Nat.mul_comm]; exact Nat.div_add_mod _ _
  generalize v % W = x at hx hdm
  generalize v / W = y at hy hdm
  have quad : ∀ qx qy e, qx + 1 < W → qy + 1 < H → e < 6 →
      qy * (W - 1) + qx < (W - 1) * (H - 1) ∧
      (generateIndices (W : Int) (H : Int)).getD (6 * (qy * (W - 1) + qx) + e) 0 =
        ([qy * W + qx, (qy + 1) * W + qx, qy * W + qx + 1,
          qy * W + qx + 1, (qy + 1) * W + qx, (qy + 1) * W + qx + 1] : List Nat).getD e 0 := by
    intro qx qy e h1 h2 h3
    refine ⟨grid_index_lt (W - 1) (H - 1) qx qy (by omega) (by omega), ?_⟩
    rw [generateIndices_getD W H qx qy e h1 h2 h3, quadIndices_nat]
  by_cases cx : x + 1 < W
  · by_cases cy : y + 1 < H
    · obtain ⟨hq, hval⟩ := quad x y 0 cx cy (by norm_num)
      refine ⟨2 * (y * (W - 1) + x), 0, by omega, by norm_num, ?_⟩
      have e : 3 * (2 * (y * (W - 1) + x)) + 0 = 6 * (y * (W - 1) + x) + 0 := by omega
      rw [e, hval, ← hdm]
      rfl
    · obtain ⟨hq, hval⟩ := quad x (y - 1) 1 cx (by omega) (by norm_num)
      refine ⟨2 * ((y - 1) * (W - 1) + x), 1, by omega, by norm_num, ?_⟩
      have e : 3 * (2 * ((y - 1) * (W - 1) + x)) + 1 = 6 * ((y - 1) * (W - 1) + x) + 1 := by
        omega
      have hy1 : y - 1 + 1 = y := by omega
      rw [e, hval, ← hdm]
      simp only [List.getD_cons_succ, List.getD_cons_zero, hy1]
  · by_cases cy : y + 1 < H
    · obtain ⟨hq, hval⟩ := quad (x - 1) y 2 (by omega) cy (by norm_num)
      refine ⟨2 * (y * (W - 1) + (x - 1)), 2, by omega, by norm_num, ?_⟩
      have e : 3 * (2 * (y * (W - 1) + (x - 1))) + 2 = 6 * (y * (W - 1) + (x - 1)) + 2 := by
        omega
      rw [e, hval, ← hdm]
      simp only [List.getD_cons_succ, List.getD_cons_zero]
      omega
    · obtain ⟨hq, hval⟩ := quad (x - 1) (y - 1) 5 (by omega) (by omega) (by norm_num)
      refine ⟨2 * ((y - 1) * (W - 1) + (x - 1)) + 1, 2, by omega, by norm_num, ?_⟩
      have e : 3 * (2 * ((y - 1) * (W - 1) + (x - 1)) + 1) + 2 =
          6 * ((y - 1) * (W - 1) + (x - 1)) + 5 := by omega
      have hy1 : y - 1 + 1 = y := by omega
      rw [e, hval, ← hdm]
      simp only [List.getD_cons_succ, List.getD_cons_zero, hy1]
      omega

/-- The normalising loop after `m` records. -/
theorem normalizeNormals_loop (sqrt : K → K) (vd : List K) (m : Nat)
    (hm : 6 * m ≤ vd.length) :
    ((List.range m).foldl (fun vd i =>
      ((vd.set (i * 6 + 3) (Vec3.normalize sqrt
          ⟨vd.getD (i * 6 + 3) 0, vd.getD (i * 6 + 4) 0, vd.getD (i * 6 + 5) 0⟩).x).set
        (i * 6 + 4) (Vec3.normalize sqrt
          ⟨vd.getD (i * 6 + 3) 0, vd.getD (i * 6 + 4) 0, vd.getD (i * 6 + 5) 0⟩).y).set
        (i * 6 + 5) (Vec3.normalize sqrt
          ⟨vd.getD (i * 6 + 3) 0, vd.getD (i * 6 + 4) 0, vd.getD (i * 6 + 5) 0⟩).z)
      vd).length = vd.length ∧
    ∀ k, ((List.range m).foldl (fun vd i =>
      ((vd.set (i * 6 + 3) (Vec3.normalize sqrt
          ⟨vd.getD (i * 6 + 3) 0, vd.getD (i * 6 + 4) 0, vd.getD (i * 6 + 5) 0⟩).x).set
        (i * 6 + 4) (Vec3.normalize sqrt
          ⟨vd.getD (i * 6 + 3) 0, vd.getD (i * 6 + 4) 0, vd.getD (i * 6 + 5) 0⟩).y).set
        (i * 6 + 5) (Vec3.normalize sqrt
          ⟨vd.getD (i * 6 + 3) 0, vd.getD (i * 6 + 4) 0, vd.getD (i * 6 + 5) 0⟩).z)
      vd).getD k 0 =
        if 3 ≤ k % 6 ∧ k / 6 < m then
          (Vec3.normalize sqrt ⟨vd.getD (k / 6 * 6 + 3) 0, vd.getD (k / 6 * 6 + 4) 0,
            vd.getD (k / 6 * 6 + 5) 0⟩).coord (k % 6 - 3)
        else vd.getD k 0 := by
  induction m with
  | zero => simp
  | succ m ih =>
    obtain ⟨h1, h2⟩ := ih (by omega)
    rw [List.range_succ, List.foldl_append]
    simp only [List.foldl_cons, List.foldl_nil]
    generalize (List.range m).foldl (fun vd i =>
      ((vd.set (i * 6 + 3) (Vec3.normalize sqrt
          ⟨vd.getD (i * 6 + 3) 0, vd.getD (i * 6 + 4) 0, vd.getD (i * 6 + 5) 0⟩).x).set
        (i * 6 + 4) (Vec3.normalize sqrt
          ⟨vd.getD (i * 6 + 3) 0, vd.getD (i * 6 + 4) 0, vd.getD (i * 6 + 5) 0⟩).y).set
        (i * 6 + 5) (Vec3.normalize sqrt
          ⟨vd.getD (i * 6 + 3) 0, vd.getD (i * 6 + 4) 0, vd.getD (i * 6 + 5) 0⟩).z)
      vd = s at h1 h2 ⊢
    have r3 : s.getD (m * 6 + 3) 0 = vd.getD (m * 6 + 3) 0 := by
      rw [h2, if_neg (by omega)]
    have r4 : s.getD (m * 6 + 4) 0 = vd.getD (m * 6 + 4) 0 := by
      rw [h2, if_neg (by omega)]
    have r5 : s.getD (m * 6 + 5) 0 = vd.getD (m * 6 + 5) 0 := by
      rw [h2, if_neg (by omega)]
    rw [r3, r4, r5]
    refine ⟨by simp [h1], fun k => ?_⟩
    rw [getD_set_if, getD_set_if, getD_set_if, h2 k]
    simp only [List.length_set, h1]
    by_cases c5 : m * 6 + 5 = k
    · have e1 : k % 6 - 3 = 2 := by omega
      have e2 : k / 6 = m := by omega
      have hc : 3 ≤ k % 6 ∧ k / 6 < m + 1 := by omega
      have hb : m * 6 + 5 = k ∧ m * 6 + 5 < vd.length := ⟨c5, by omega⟩
      rw [if_pos hb, if_pos hc, e1, e2]
      simp [Vec3.coord]
    · rw [if_neg (fun h => c5 h.1)]
      by_cases c4 : m * 6 + 4 = k
      · have e1 : k % 6 - 3 = 1 := by omega
        have e2 : k / 6 = m := by omega
        have hc : 3 ≤ k % 6 ∧ k / 6 < m + 1 := by omega
        have hb : m * 6 + 4 = k ∧ m * 6 + 4 < vd.length := ⟨c4, by omega⟩
        rw [if_pos hb, if_pos hc, e1, e2]
        simp [Vec3.coord]
      · rw [if_neg (fun h => c4 h.1)]
        by_cases c3 : m * 6 + 3 = k
        · have e1 : k % 6 - 3 = 0 := by omega
          have e2 : k / 6 = m := by omega
          have hc : 3 ≤ k % 6 ∧ k / 6 < m + 1 := by omega
          have hb : m * 6 + 3 = k ∧ m * 6 + 3 < vd.length := ⟨c3, by omega⟩
          rw [if_pos hb, if_pos hc, e1, e2]
          simp [Vec3.coord]
        · rw [if_neg (fun h => c3 h.1)]
          by_cases hc : 3 ≤ k % 6 ∧ k / 6 < m
          · have hc2 : 3 ≤ k % 6 ∧ k / 6 < m + 1 := ⟨hc.1, by omega⟩
            rw [if_pos hc, if_pos hc2]
          · have hc2 : ¬ (3 ≤ k % 6 ∧ k / 6 < m + 1) := by omega
            rw [if_neg hc, if_neg hc2]

theorem normalizeNormals_getD (sqrt : K → K) (vd : List K) (k : Nat) :
    (normalizeNormals sqrt vd).getD k 0 =
      if 3 ≤ k % 6 ∧ k / 6 < vd.length / 6 then
        (Vec3.normalize sqrt ⟨vd.getD (k / 6 * 6 + 3) 0, vd.getD (k / 6 * 6 + 4) 0,
          vd.getD (k / 6 * 6 + 5) 0⟩).coord (k % 6 - 3)
      else vd.getD k 0 :=
  (normalizeNormals_loop sqrt vd (vd.length / 6) (by omega)).2 k

/-- Recomputing the normals of the freshly generated flat grid gives back the generated
vertex buffer (natural dimensions). -/
theorem flat_grid_normals_nat {sqrt : K → K} (hs : IsSqrt sqrt) (W H : Nat) (hW : 2 ≤ W)
    (hH : 2 ≤ H) (spacing : K) (hsp : 0 < spacing) (hfit : 6 * (W * H) ≤ 4294967296) :
    recomputeNormals sqrt (generateIndices (W : Int) (H : Int))
      (generateVertices (W : Int) (H : Int) spacing) =
      generateVertices (W : Int) (H : Int) spacing := by
  have hlen0 : (generateVertices (W : Int) (H : Int) spacing).length = 6 * (W * H) := by
    rw [generateVertices_length, Int.toNat_ofNat, Int.toNat_ofNat, Nat.mul_assoc]
  have hT : ((generateIndices (W : Int) (H : Int)).length + 2) / 3 =
      2 * ((W - 1) * (H - 1)) := by
    have e1 : ((W : Int) - 1).toNat = W - 1 := by omega
    have e2 : ((H : Int) - 1).toNat = H - 1 := by omega
    rw [generateIndices_length, e1, e2, Nat.mul_assoc]
    omega
  obtain ⟨i1, i2, i3, i4⟩ := accumulate_flat_inv hs W H hW hH spacing hsp hfit
    (2 * ((W - 1) * (H - 1))) (le_refl _)
  rw [recomputeNormals_eq]
  unfold accumulateNormals
  rw [hT]
  generalize (List.range (2 * ((W - 1) * (H - 1)))).foldl
    (accumulateTriangle sqrt (generateIndices (W : Int) (H : Int)))
    (zeroNormals (generateVertices (W : Int) (H : Int) spacing)) = a at i1 i2 i3 i4 ⊢
  have hlena : a.length = 6 * (W * H) := by rw [i1.1]; exact hlen0
  apply ext_getD
  · rw [(normalizeNormals_same sqrt a).1, i1.1]
  · intro k hk
    rw [(normalizeNormals_same sqrt a).1, hlena] at hk
    rw [normalizeNormals_getD]
    by_cases hpos : 3 ≤ k % 6
    · have hcond : 3 ≤ k % 6 ∧ k / 6 < a.length / 6 := ⟨hpos, by omega⟩
      rw [if_pos hcond]
      have hv : k / 6 < W * H := by omega
      obtain ⟨t, r, ht, hr, hidx⟩ := vertex_covered W H hW hH (k / 6) hv
      have hone := i4 t r ht hr
      rw [hidx] at hone
      have hx0 := i2 (k / 6 * 6 + 3) (Or.inl (by omega))
      have hz0 := i2 (k / 6 * 6 + 5) (Or.inr (by omega))
      rw [hx0, hz0, normalize_up hs _ (lt_of_lt_of_le one_pos hone)]
      -- the generated buffer holds the normal (0, 1, 0) in record k / 6
      have hWpos : 0 < W := by omega
      have hxm : (k / 6) % W < W := Nat.mod_lt _ hWpos
      have hym : (k / 6) / W < H := Nat.div_lt_of_lt_mul hv
      have hdm : (k / 6) / W * W + (k / 6) % W = k / 6 := by
        rw [Nat.mul_comm]; exact Nat.div_add_mod _ _
      have hk6 : k = 6 * ((k / 6) / W * W + (k / 6) % W) + k % 6 := by
        rw [hdm]; omega
      have hrec := generateVertices_getD W H spacing ((k / 6) % W) ((k / 6) / W) (k % 6) hxm hym
        (Nat.mod_lt _ (by norm_num))
      rw [← hk6] at hrec
      rw [hrec]
      have h345 : k % 6 = 3 ∨ k % 6 = 4 ∨ k % 6 = 5 := by omega
      rcases h345 with h | h | h <;> rw [h] <;> simp [Vec3.coord, vertexRecord]
    · have hcond : ¬ (3 ≤ k % 6 ∧ k / 6 < a.length / 6) := fun h => hpos h.1
      rw [if_neg hcond]
      exact i1.2 k (by omega)

/-- C20: for `width ≥ 2`, `height ≥ 2` and `spacing > 0` (the buffer size `width*height*6`
within the 32-bit index range), `recomputeNormals` applied to the freshly generated flat
grid returns the generated vertex buffer unchanged: every vertex has the normal
`(0,1,0)`, every vertex occurs in the index list, and every triangle adds the face
normal `(0,1,0)`, that is `1` in the y-normal field of its three vertices and nothing
else. -/
theorem recomputeNormals_flat {sqrt : K → K} (hs : IsSqrt sqrt) (width height : Int)
    (hw : 2 ≤ width) (hh : 2 ≤ height) (spacing : K) (hsp : 0 < spacing)
    (hfit : width * height * 6 ≤ 4294967296) :
    recomputeNormals sqrt (generateIndices width height)
      (generateVertices width height spacing) = generateVertices width height spacing ∧
    (∀ v : Nat, (v : Int) < width * height →
      (recomputeNormals sqrt (generateIndices width height)
        (generateVertices width height spacing)).getD (6 * v + 3) 0 = 0 ∧
      (recomputeNormals sqrt (generateIndices width height)
        (generateVertices width height spacing)).getD (6 * v + 4) 0 = 1 ∧
      (recomputeNormals sqrt (generateIndices width height)
        (generateVertices width height spacing)).getD (6 * v + 5) 0 = 0) ∧
    (∀ v : Nat, (v : Int) < width * height → v ∈ generateIndices width height) ∧
    (∀ t : Nat, 3 * t < (generateIndices width height).length →
      accumulateTriangle sqrt (generateIndices width height)
        (generateVertices width height spacing) t =
      addAt (addAt (addAt (generateVertices width height spacing)
        ((generateIndices width height).getD (3 * t + 0) 0 * 6 + 4) 1)
        ((generateIndices width height).getD (3 * t + 1) 0 * 6 + 4) 1)
        ((generateIndices width height).getD (3 * t + 2) 0 * 6 + 4) 1) := by
  lift width to ℕ using (by omega) with W
  lift height to ℕ using (by omega) with H
  have hW : 2 ≤ W := by omega
  have hH : 2 ≤ H := by omega
  have hfitn : 6 * (W * H) ≤ 4294967296 := by
    have : ((6 * (W * H) : Nat) : Int) ≤ 4294967296 := by
      push_cast; linarith
    exact_mod_cast this
  have hmain := flat_grid_normals_nat hs W H hW hH spacing hsp hfitn
  have hlenI : (generateIndices (W : Int) (H : Int)).length = 6 * ((W - 1) * (H - 1)) := by
    have e1 : ((W : Int) - 1).toNat = W - 1 := by omega
    have e2 : ((H : Int) - 1).toNat = H - 1 := by omega
    rw [generateIndices_length, e1, e2, Nat.mul_assoc]
  refine ⟨hmain, fun v hv => ?_, fun v hv => ?_, fun t ht => ?_⟩
  · have hvn : v < W * H := by exact_mod_cast hv
    have hWpos : 0 < W := by omega
    have hxm : v % W < W := Nat.mod_lt _ hWpos
    have hym : v / W < H := Nat.div_lt_of_lt_mul hvn
    have hdm : v / W * W + v % W = v := by
      rw [Nat.mul_comm]; exact Nat.div_add_mod _ _
    have hrec := fun r hr => generateVertices_getD W H spacing (v % W) (v / W) r hxm hym hr
    rw [hdm] at hrec
    rw [hmain, hrec 3 (by norm_num), hrec 4 (by norm_num), hrec 5 (by norm_num)]
    simp [vertexRecord]
  · have hvn : v < W * H := by exact_mod_cast hv
    obtain ⟨t, r, ht, hr, hidx⟩ := vertex_covered W H hW hH v hvn
    have hin : 3 * t + r < (generateIndices (W : Int) (H : Int)).length := by
      rw [hlenI]; omega
    rw [List.getD_eq_getElem _ 0 hin] at hidx
    rw [← hidx]
    exact List.getElem_mem hin
  · rw [hlenI] at ht
    exact (accumulateTriangle_flat hs W H hW hH spacing hsp _ (samePositions_refl _) hfitn t
      (by omega)).2.2.2

/-- Witness for C20: the `2 x 2` grid with `spacing = 1` over the reals. -/
theorem recomputeNormals_flat_witness :
    recomputeNormals Real.sqrt (generateIndices 2 2) (generateVertices 2 2 (1 : ℝ)) =
      generateVertices 2 2 (1 : ℝ) :=
  (recomputeNormals_flat isSqrt_real 2 2 (by decide) (by decide) (1 : ℝ) one_pos
    (by decide)).1

end FlatNormals

/-! ## Constraint solver: two points clear of the cube -/

section Clearance

variable {K : Type} [LinearOrderedField K]

end Clearance

/-! ## Binary32 arithmetic: the constraint solver with rounding -/

section Binary32

set_option maxRecDepth 100000

/-- The halving loop computes the binary logarithm. -/
theorem log2Aux_eq (fuel n : Nat) (h : n ≤ fuel) : log2Aux fuel n = Nat.log2 n := by
  induction fuel generalizing n with
  | zero =>
    have : n = 0 := by omega
    subst this
    simp [log2Aux, Nat.log2]
  | succ f ih =>
    unfold log2Aux
    rw [Nat.log2]
    by_cases h2 : n < 2
    · have : ¬ n ≥ 2 := by omega
      simp [h2, this]
    · have : n ≥ 2 := by omega
      simp only [h2, this, if_true, if_false]
      rw [ih (n / 2) (by omega)]

/-- Known values of binary32 arithmetic: the literals `0.1f = 0x3DCCCCCD`,
`0.55f = 0x3F0CCCCD` and `1e-7f = 0x33D6BF95`, `1.0f / 3.0f = 0x3EAAAAAB`, ties to even
at `2^24 + 1` and `2^24 + 3`, `sqrt(2.0f) = 0x3FB504F3`, overflow of `2^127 * 2`, and
rounding in the subnormal range. -/
theorem round32_samples :
    lit32 1 10 = ⟨13421773, -27⟩ ∧ lit32 55 100 = ⟨9227469, -24⟩ ∧
    lit32 1 10000000 = ⟨14073749, -47⟩ ∧
    fdiv ⟨1, 0⟩ ⟨3, 0⟩ = some ⟨11184811, -25⟩ ∧
    fadd ⟨16777216, 0⟩ ⟨1, 0⟩ = some ⟨8388608, 1⟩ ∧
    fadd ⟨16777218, 0⟩ ⟨1, 0⟩ = some ⟨8388610, 1⟩ ∧
    fsqrt ⟨2, 0⟩ = some ⟨11863283, -23⟩ ∧
    fmul ⟨1, 127⟩ ⟨2, 0⟩ = none ∧
    fmul ⟨1, -149⟩ ⟨1, -1⟩ = some ⟨0, 0⟩ ∧
    fmul ⟨3, -149⟩ ⟨1, -1⟩ = some ⟨2, -149⟩ := by
  decide

/-- Counterexample to C3 as stated, in binary32: the edge from `(0,0,0)` to `(1,2,3)`
with `spacing = restLength = 1`, so `maxCorrection = 1 * 0.5f = 0.5`.  The distance is
`d = 15693649 * 2^-22 > 1e-7f`, the correction is clamped, and the vector
`normalize(corr) * maxCorrection` that is added to `pos[0]` and subtracted from `pos[1]`
is `(8967800 * 2^-26, 8967800 * 2^-25, 13451700 * 2^-25)`: its length as computed by
`glm::length` is `0.5 + 2^-24 > maxCorrection`, and the exact sum of the squares of its
components is greater than `maxCorrection^2`. -/
theorem edgeCorr_binary32_counterexample :
    fmul ⟨1, 0⟩ ⟨1, -1⟩ = some ⟨8388608, -24⟩ ∧
    vsub32 ⟨⟨1, 0⟩, ⟨2, 0⟩, ⟨3, 0⟩⟩ vzero32 =
      some ⟨⟨8388608, -23⟩, ⟨8388608, -22⟩, ⟨12582912, -22⟩⟩ ∧
    length32 ⟨⟨8388608, -23⟩, ⟨8388608, -22⟩, ⟨12582912, -22⟩⟩ = some ⟨15693649, -22⟩ ∧
    F32.lt (lit32 1 10000000) ⟨15693649, -22⟩ = true ∧
    edgeCorr32 ⟨1, 0⟩ ⟨8388608, -24⟩ ⟨⟨8388608, -23⟩, ⟨8388608, -22⟩, ⟨12582912, -22⟩⟩
      ⟨15693649, -22⟩ = some ⟨⟨8967800, -26⟩, ⟨8967800, -25⟩, ⟨13451700, -25⟩⟩ ∧
    edgeStep32 ⟨1, 0⟩ ⟨8388608, -24⟩ 0 1 [vzero32, ⟨⟨1, 0⟩, ⟨2, 0⟩, ⟨3, 0⟩⟩] =
      some [⟨⟨8967800, -26⟩, ⟨8967800, -25⟩, ⟨13451700, -25⟩⟩,
        ⟨⟨14535266, -24⟩, ⟨14535266, -23⟩, ⟨10901450, -22⟩⟩] ∧
    length32 ⟨⟨8967800, -26⟩, ⟨8967800, -25⟩, ⟨13451700, -25⟩⟩ = some ⟨8388609, -24⟩ ∧
    F32.lt ⟨8388608, -24⟩ ⟨8388609, -24⟩ = true ∧
    F32.toRat ⟨8388608, -24⟩ = 1 / 2 ∧
    (1 / 2 : ℚ) ^ 2 < F32.toRat ⟨8967800, -26⟩ ^ 2 + F32.toRat ⟨8967800, -25⟩ ^ 2 +
      F32.toRat ⟨13451700, -25⟩ ^ 2 := by
  refine ⟨by decide, by decide, by decide, by decide, by decide, by decide, by decide,
    by decide, ?_, ?_⟩
  · norm_num [F32.toRat]
  · norm_num [F32.toRat]

end Binary32

end ClothSim
